import Mathlib

/-!
The xspot runtime-switch controller (`pkg/xspot`) over a model of its node.

The controller of `pkg/xspot/enable.go` and `pkg/xspot/disable.go` is a
sequence of calls into the operating system: directory creation, HTTP
fetches, file removal / creation / writing, and `systemctl` commands run
through `chroot`.  Each function is embedded as a state-passing function

    Env → World → result × World

* `World` is what the controller can change or observe: the file tree
  (the list of the paths that hold something, each with its node) and the
  ordered trace of every operation the process has attempted, successful
  or not.
* `Env` is everything the controller does not decide: which operation
  fails with which error, how many bytes a failing write got through,
  what the HTTP transport answers, what a command prints and whether it
  exits with an error.  The answer to the `n`-th attempted operation is
  looked up at index `n` (the length of the trace so far), so one `Env`
  describes one complete run and quantifying over `Env` quantifies over
  every outcome of the external operations.

Paths are lists of components below the root: `/node/tmp/config.toml` is
`["node", "tmp", "config.toml"]` and `filepath.Join a b` is `a ++ b`.
Distinct paths denote distinct files (no symbolic or hard links), and the
commands run through `chroot` act on services, not on the modelled files.
-/

namespace XSpot

/-! ## Data model -/

/-- A path below the root, as its list of components. -/
abbrev Path := List String

/-- File contents, response bodies and command output: sequences of bytes. -/
abbrev Bytes := List UInt8

/-- Go `error` values: an error reported by the outside world, a message made
by `fmt.Errorf`, or `errors.Wrap(inner, text)`. -/
inductive Error where
  | errno (code : Nat)
  | msg (text : String)
  | wrap (text : String) (inner : Error)
deriving DecidableEq, Repr

def ENOENT : Nat := 2
def EBADF : Nat := 9
def EBUSY : Nat := 16
def EEXIST : Nat := 17
def ENOTDIR : Nat := 20
def EISDIR : Nat := 21
def ENOTEMPTY : Nat := 39

/-- What a path holds: a regular file with its content and permission bits,
or a directory with its permission bits. -/
inductive Node where
  | file (content : Bytes) (mode : Nat)
  | dir (mode : Nat)
deriving DecidableEq, Repr

/-- One attempted operation of the process, in the order attempted. -/
inductive Event where
  | stat (p : Path)
  | lstat (p : Path)
  | mkdir (p : Path) (perm : Nat)
  | remove (p : Path)
  | create (p : Path)
  | openRead (p : Path)
  | write (p : Path) (data : Bytes)
  | chmod (p : Path) (mode : Nat)
  | readFile (p : Path)
  | httpGet (url : String) (userAgent : String)
  | exec (argv : List String)
  | log (text : String)
  | logBytes (data : Bytes)
  | stdoutBytes (data : Bytes)
  | signalNotify
deriving DecidableEq, Repr

/-- An HTTP response as far as the controller looks at it. -/
structure Response where
  status : Nat
  body : Bytes
deriving DecidableEq, Repr

/-- The node and the history of the process: the entries of the file tree (a
path holds the node of its first entry) and the operations attempted. -/
structure World where
  entries : List (Path × Node)
  trace : List Event

/-- The node of the first entry for a path. -/
def lookupNode : List (Path × Node) → Path → Option Node
  | [], _ => none
  | (q, n) :: rest, p => if q = p then some n else lookupNode rest p

/-- What the file tree holds at a path. -/
def World.fs (s : World) (p : Path) : Option Node := lookupNode s.entries p

/-- Whether the file tree holds something strictly below a path. -/
def World.occupied (s : World) (p : Path) : Bool :=
  s.entries.any (fun e => decide (p <+: e.1) && decide (e.1 ≠ p))

/-- The outcomes the controller does not decide, indexed by the number of
operations attempted so far. -/
structure Env where
  /-- Error injected into the operation attempted at this index, if any. -/
  fault : Nat → Option Nat
  /-- Number of bytes a failing write at this index transfers before failing. -/
  short : Nat → Nat
  /-- Process umask applied by `mkdir` and `create`. -/
  umask : Nat
  /-- The error of `http.NewRequest` for the URL, if it does not accept it. -/
  requestErr : String → Option Nat
  /-- Answer of the transport to a GET attempted at this index. -/
  http : Nat → String → Except Nat Response
  /-- Combined output and exit error of a command attempted at this index. -/
  exec : Nat → List String → Bytes × Option Nat

/-- Constants of packages `constants` and `vmpath` that the controller and the
addon table refer to. -/
structure Constants where
  XSpotConfigTomlTargetName : String
  GuestXSpotDir : Path
  GuestAddonsDir : Path

/-- Index of the next operation. -/
def World.tick (s : World) : Nat := s.trace.length

/-- Record an attempted operation. -/
def World.emit (s : World) (e : Event) : World :=
  { s with trace := s.trace ++ [e] }

/-- Replace what a path holds. -/
def World.set (s : World) (p : Path) (n : Option Node) : World :=
  { s with entries :=
      match n with
      | some x => (p, x) :: s.entries.filter (fun e => e.1 ≠ p)
      | none => s.entries.filter (fun e => e.1 ≠ p) }

/-- What a path holds; the root is always a directory. -/
def World.node (s : World) (p : Path) : Option Node :=
  if p = [] then some (.dir 0o755) else s.fs p

/-- Whether a path holds a directory. -/
def World.isDir (s : World) (p : Path) : Bool :=
  match s.node p with
  | some (.dir _) => true
  | _ => false

/-- Permission bits left by the umask. -/
def applyUmask (env : Env) (perm : Nat) : Nat := perm &&& (0o777 ^^^ (env.umask &&& 0o777))

/-- Rendering of a path in messages. -/
def pathStr (p : Path) : String := "/" ++ "/".intercalate p

/-! ## Operating-system and library operations (`os`, `io`, `net/http`, `os/exec`) -/

/-- Model of `os.Stat`. -/
def osStat (env : Env) (p : Path) (s : World) : Except Error Node × World :=
  let s1 := s.emit (.stat p)
  match env.fault s.tick with
  | some c => (.error (.errno c), s1)
  | none =>
    match s.node p with
    | none => (.error (.errno ENOENT), s1)
    | some n => (.ok n, s1)

/-- Model of `os.Lstat`. -/
def osLstat (env : Env) (p : Path) (s : World) : Except Error Node × World :=
  let s1 := s.emit (.lstat p)
  match env.fault s.tick with
  | some c => (.error (.errno c), s1)
  | none =>
    match s.node p with
    | none => (.error (.errno ENOENT), s1)
    | some n => (.ok n, s1)

/-- Model of `os.Mkdir`: the path must be free and its parent a directory. -/
def osMkdir (env : Env) (p : Path) (perm : Nat) (s : World) : Option Error × World :=
  let s1 := s.emit (.mkdir p perm)
  match env.fault s.tick with
  | some c => (some (.errno c), s1)
  | none =>
    match s.node p with
    | some _ => (some (.errno EEXIST), s1)
    | none =>
      if s.isDir p.dropLast then (none, s1.set p (some (.dir (applyUmask env perm))))
      else (some (.errno (if (s.node p.dropLast).isSome then ENOTDIR else ENOENT)), s1)

/-- Model of `os.MkdirAll` on the reversed component list: succeed at once on
an existing directory, fail on an existing file, otherwise make the parent
(unless the parent is the root, which is not looked at), then `Mkdir` the path
and accept a directory that appeared meanwhile. -/
def mkdirAllRev (env : Env) (perm : Nat) : List String → World → Option Error × World
  | [], s =>
    match osStat env [] s with
    | (.ok (.dir _), s1) => (none, s1)
    | (.ok (.file _ _), s1) => (some (.errno ENOTDIR), s1)
    | (.error _, s1) =>
      match osMkdir env [] perm s1 with
      | (none, s3) => (none, s3)
      | (some e, s3) =>
        match osLstat env [] s3 with
        | (.ok (.dir _), s4) => (none, s4)
        | (_, s4) => (some e, s4)
  | c :: rest, s =>
    match osStat env (c :: rest).reverse s with
    | (.ok (.dir _), s1) => (none, s1)
    | (.ok (.file _ _), s1) => (some (.errno ENOTDIR), s1)
    | (.error _, s1) =>
      match (if rest = [] then (none, s1) else mkdirAllRev env perm rest s1) with
      | (some e, s2) => (some e, s2)
      | (none, s2) =>
        match osMkdir env (c :: rest).reverse perm s2 with
        | (none, s3) => (none, s3)
        | (some e, s3) =>
          match osLstat env (c :: rest).reverse s3 with
          | (.ok (.dir _), s4) => (none, s4)
          | (_, s4) => (some e, s4)

/-- Model of `os.MkdirAll`. -/
def osMkdirAll (env : Env) (p : Path) (perm : Nat) (s : World) : Option Error × World :=
  mkdirAllRev env perm p.reverse s

/-- Model of `os.Remove`: a file or an empty directory is removed; a directory
that still has something below it is left as it is (`ENOTEMPTY`), and so is
the root. -/
def osRemove (env : Env) (p : Path) (s : World) : Option Error × World :=
  let s1 := s.emit (.remove p)
  match env.fault s.tick with
  | some c => (some (.errno c), s1)
  | none =>
    if p = [] then (some (.errno EBUSY), s1)
    else
      match s.node p with
      | none => (some (.errno ENOENT), s1)
      | some (.file _ _) => (none, s1.set p none)
      | some (.dir _) =>
        if s.occupied p then (some (.errno ENOTEMPTY), s1) else (none, s1.set p none)

/-- Model of `os.Create`: truncate an existing file (its mode stays), or make
an empty file of mode 0666 before umask; the parent must be a directory. -/
def osCreate (env : Env) (p : Path) (s : World) : Option Error × World :=
  let s1 := s.emit (.create p)
  match env.fault s.tick with
  | some c => (some (.errno c), s1)
  | none =>
    match s.node p with
    | some (.dir _) => (some (.errno EISDIR), s1)
    | some (.file _ m) => (none, s1.set p (some (.file [] m)))
    | none =>
      if s.isDir p.dropLast then (none, s1.set p (some (.file [] (applyUmask env 0o666))))
      else (some (.errno (if (s.node p.dropLast).isSome then ENOTDIR else ENOENT)), s1)

/-- Model of `os.Open` for reading. -/
def osOpen (env : Env) (p : Path) (s : World) : Option Error × World :=
  let s1 := s.emit (.openRead p)
  match env.fault s.tick with
  | some c => (some (.errno c), s1)
  | none =>
    match s.node p with
    | none => (some (.errno ENOENT), s1)
    | some _ => (none, s1)

/-- Model of writing `data` through a file just created at `p` (`f.Write`, or
`io.Copy` into it): all of it, or on failure the first `short` bytes. -/
def fileWrite (env : Env) (p : Path) (data : Bytes) (s : World) : Option Error × World :=
  let s1 := s.emit (.write p data)
  match s.node p with
  | some (.file c m) =>
    match env.fault s.tick with
    | some e => (some (.errno e), s1.set p (some (.file (c ++ data.take (env.short s.tick)) m)))
    | none => (none, s1.set p (some (.file (c ++ data) m)))
  | _ => (some (.errno EBADF), s1)

/-- Model of `io.Copy(out, in)` between the file created at `dst` and the file
opened at `src`: reading a directory fails. -/
def fileCopy (env : Env) (dst src : Path) (s : World) : Option Error × World :=
  match s.node src with
  | some (.file c _) => fileWrite env dst c s
  | _ => (some (.errno EISDIR), s.emit (.write dst []))

/-- Model of `os.Chmod` and `(*File).Chmod`. -/
def osChmod (env : Env) (p : Path) (mode : Nat) (s : World) : Option Error × World :=
  let s1 := s.emit (.chmod p mode)
  match env.fault s.tick with
  | some c => (some (.errno c), s1)
  | none =>
    match s.node p with
    | none => (some (.errno ENOENT), s1)
    | some (.file c _) => (none, s1.set p (some (.file c mode)))
    | some (.dir _) => (none, s1.set p (some (.dir mode)))

/-- Model of `os.ReadFile`. -/
def osReadFile (env : Env) (p : Path) (s : World) : Except Error Bytes × World :=
  let s1 := s.emit (.readFile p)
  match env.fault s.tick with
  | some c => (.error (.errno c), s1)
  | none =>
    match s.node p with
    | some (.file c _) => (.ok c, s1)
    | some (.dir _) => (.error (.errno EISDIR), s1)
    | none => (.error (.errno ENOENT), s1)

/-- Model of `client.Do(req)` for a GET with the given `User-Agent`. -/
def httpDo (env : Env) (url userAgent : String) (s : World) : Except Error Response × World :=
  let s1 := s.emit (.httpGet url userAgent)
  match env.http s.tick url with
  | .error c => (.error (.errno c), s1)
  | .ok r => (.ok r, s1)

/-- Model of `exec.Command(argv...).CombinedOutput()`. -/
def combinedOutput (env : Env) (argv : List String) (s : World) : (Bytes × Option Error) × World :=
  let s1 := s.emit (.exec argv)
  match env.exec s.tick argv with
  | (out, some c) => ((out, some (.errno c)), s1)
  | (out, none) => ((out, none), s1)

/-- Model of `mcnutils.CopyFile(src, dst)` of docker/machine: open the source,
create the destination, copy, then give the destination the source's mode. -/
def CopyFile (env : Env) (src dst : Path) (s : World) : Option Error × World :=
  match osOpen env src s with
  | (some e, s1) => (some e, s1)
  | (none, s1) =>
    match osCreate env dst s1 with
    | (some e, s2) => (some e, s2)
    | (none, s2) =>
      match fileCopy env dst src s2 with
      | (some e, s3) => (some e, s3)
      | (none, s3) =>
        match osStat env src s3 with
        | (.error e, s4) => (some e, s4)
        | (.ok (.file _ m), s4) => osChmod env dst m s4
        | (.ok (.dir m), s4) => osChmod env dst m s4

/-! ## The addon table (`pkg/minikube/assets/addons.go`) -/

/-- Modelled from the spec: the declaration of `BinAsset` and `MustBinAsset` is
not among the sources; an asset is the record of the four strings that
`MustBinAsset` receives after the embedded file system, and `GetTargetName`,
`GetSourcePath` read the corresponding field. -/
structure BinAsset where
  SourcePath : String
  TargetDir : Path
  TargetName : String
  Permissions : String
deriving DecidableEq, Repr

def BinAsset.GetTargetName (a : BinAsset) : String := a.TargetName

def BinAsset.GetSourcePath (a : BinAsset) : String := a.SourcePath

def MustBinAsset (name : String) (targetDir : Path) (targetName permissions : String) : BinAsset :=
  { SourcePath := name, TargetDir := targetDir, TargetName := targetName, Permissions := permissions }

/-- An addon: `type Addon struct`, maps as association lists. -/
structure Addon where
  Assets : List BinAsset
  enabled : Bool
  addonName : String
  Maintainer : String
  Images : List (String × String)
  Registries : List (String × String)
deriving DecidableEq, Repr

def NewAddon (assets : List BinAsset) (enabled : Bool) (addonName maintainer : String)
    (images registries : List (String × String)) : Addon :=
  { Assets := assets, enabled := enabled, addonName := addonName, Maintainer := maintainer,
    Images := images, Registries := registries }

def Addon.Name (a : Addon) : String := a.addonName

/-- The entry `Addons["xspot"]` of the addon table. -/
def AddonsXSpot (k : Constants) : Addon :=
  NewAddon
    [ MustBinAsset "xspot/xspot-pod.yaml.tmpl" k.GuestAddonsDir "xspot-pod.yaml" "0640",
      MustBinAsset "xspot/xspot-runtimeclass.yaml.tmpl" k.GuestAddonsDir "xspot-runtimeclass.yaml" "0640",
      MustBinAsset "xspot/xspot-config.toml" k.GuestXSpotDir k.XSpotConfigTomlTargetName "0640" ]
    false "xspot" "Exotanium"
    [("XSpotAddon", "venkatnamala/xspot-addon:latest")]
    [("XSpotAddon", "docker.io")]

/-! ## The controller (`pkg/xspot/enable.go`, `pkg/xspot/disable.go`) -/

def nodeDir : Path := ["node"]
def containerdConfigTomlPath : Path := ["etc", "containerd", "config.toml"]
def storedContainerdConfigTomlPath : Path := ["tmp", "config.toml"]
def xspotContainerdShimURL : String :=
  "https://github.com/google/gvisor-containerd-shim/releases/download/v0.0.3/containerd-shim-runsc-v1.linux-amd64"
def xspotURL : String := "https://venkat-xspot-bucket.s3.us-east-2.amazonaws.com/xspot/kata-runtime"

/-- The active configuration file, `filepath.Join(nodeDir, containerdConfigTomlPath)`. -/
def activePath : Path := nodeDir ++ containerdConfigTomlPath

/-- The backup file, `filepath.Join(nodeDir, storedContainerdConfigTomlPath)`. -/
def backupPath : Path := nodeDir ++ storedContainerdConfigTomlPath

def runxcDir : Path := nodeDir ++ ["run", "containerd", "runxc"]
def runxcLogsDir : Path := nodeDir ++ ["tmp", "runxc"]
def runxcDest : Path := nodeDir ++ ["usr", "bin", "runxc"]
def shimDest : Path := nodeDir ++ ["usr", "bin", "containerd-shim-runsc-v1"]

/-- Embedding of `makeXSpotDirs`. -/
def makeXSpotDirs (env : Env) (s : World) : Option Error × World :=
  match osMkdirAll env runxcDir 0o755 s with
  | (some e, s1) => (some (.wrap "creating runxc dir" e), s1)
  | (none, s1) =>
    match osMkdirAll env runxcLogsDir 0o755 s1 with
    | (some e, s2) => (some (.wrap "creating runxc logs dir" e), s2)
    | (none, s2) => (none, s2)

/-- Embedding of `downloadFileToDest`. -/
def downloadFileToDest (env : Env) (url : String) (dest : Path) (s : World) : Option Error × World :=
  match env.requestErr url with
  | some c => (some (.wrap ("creating request for " ++ url) (.errno c)), s)
  | none =>
    match httpDo env url "minikube" s with
    | (.error e, s1) => (some e, s1)
    | (.ok resp, s1) =>
      let removed : Option Error × World :=
        match osStat env dest s1 with
        | (.ok _, s2) => osRemove env dest s2
        | (.error _, s2) => (none, s2)
      match removed with
      | (some e, s3) => (some (.wrap ("removing " ++ pathStr dest ++ " for overwrite") e), s3)
      | (none, s3) =>
        match osCreate env dest s3 with
        | (some e, s4) => (some (.wrap ("creating " ++ pathStr dest) e), s4)
        | (none, s4) =>
          match fileWrite env dest resp.body s4 with
          | (some e, s5) => (some (.wrap "copying binary" e), s5)
          | (none, s5) =>
            match osChmod env dest 0o777 s5 with
            | (some e, s6) => (some (.wrap "fixing perms" e), s6)
            | (none, s6) => (none, s6)

/-- Embedding of `runxc`. -/
def runxc (env : Env) (s : World) : Option Error × World :=
  downloadFileToDest env xspotURL runxcDest s

/-- Embedding of `xspotContainerdShim`. -/
def xspotContainerdShim (env : Env) (s : World) : Option Error × World :=
  downloadFileToDest env xspotContainerdShimURL shimDest s

/-- Embedding of `downloadBinaries`. -/
def downloadBinaries (env : Env) (s : World) : Option Error × World :=
  match runxc env s with
  | (some e, s1) => (some (.wrap "downloading runxc" e), s1)
  | (none, s1) =>
    match xspotContainerdShim env s1 with
    | (some e, s2) => (some (.wrap "downloading xspot-containerd-shim" e), s2)
    | (none, s2) => (none, s2)

/-- The loop of `copyAssetToDest`: the last asset whose target name matches. -/
def findAsset (assets : List BinAsset) (targetName : String) : Option BinAsset :=
  assets.foldl (fun found a => if a.GetTargetName = targetName then some a else found) none

/-- Embedding of `copyAssetToDest`.  The message of the lookup error leaves out
the `%+v` rendering of the addon. -/
def copyAssetToDest (env : Env) (k : Constants) (targetName : String) (dest : Path) (s : World) :
    Option Error × World :=
  match findAsset (AddonsXSpot k).Assets targetName with
  | none => (some (.msg ("no asset matching target " ++ targetName)), s)
  | some asset =>
    let src := k.GuestXSpotDir ++ [asset.GetTargetName]
    let s0 := s.emit (.log (targetName ++ " asset path: " ++ pathStr src))
    match osReadFile env src s0 with
    | (.error e, s1) => (some (.wrap ("getting contents of " ++ asset.GetSourcePath) e), s1)
    | (.ok contents, s1) =>
      let removed : Option Error × World :=
        match osStat env dest s1 with
        | (.ok _, s2) => osRemove env dest s2
        | (.error _, s2) => (none, s2)
      match removed with
      | (some e, s3) => (some (.wrap ("removing " ++ pathStr dest) e), s3)
      | (none, s3) =>
        match osCreate env dest (s3.emit (.log ("creating " ++ pathStr dest))) with
        | (some e, s4) => (some (.wrap ("creating " ++ pathStr dest) e), s4)
        | (none, s4) =>
          match fileWrite env dest contents s4 with
          | (some e, s5) => (some (.wrap ("writing contents to " ++ pathStr dest) e), s5)
          | (none, s5) => (none, s5)

/-- Embedding of `copyConfigFiles`. -/
def copyConfigFiles (env : Env) (k : Constants) (s : World) : Option Error × World :=
  let s0 := s.emit (.log ("Storing default config.toml at " ++ pathStr storedContainerdConfigTomlPath))
  match CopyFile env activePath backupPath s0 with
  | (some e, s1) => (some (.wrap "copying default config.toml" e), s1)
  | (none, s1) =>
    let s2 := s1.emit (.log ("Copying " ++ k.XSpotConfigTomlTargetName ++ " asset to " ++ pathStr activePath))
    match copyAssetToDest env k k.XSpotConfigTomlTargetName activePath s2 with
    | (some e, s3) => (some (.wrap "copying xspot version of config.toml" e), s3)
    | (none, s3) => (none, s3)

def stopStatd : List String := ["/usr/sbin/chroot", "/node", "sudo", "systemctl", "stop", "rpc-statd.service"]
def restartCtrd : List String := ["/usr/sbin/chroot", "/node", "sudo", "systemctl", "restart", "containerd"]
def startStatd : List String := ["/usr/sbin/chroot", "/node", "sudo", "systemctl", "start", "rpc-statd.service"]

/-- Embedding of `restartContainerd`. -/
def restartContainerd (env : Env) (s : World) : Option Error × World :=
  let s0 := (s.emit (.log "restartContainerd black magic happening")).emit (.log "Stopping rpc-statd.service...")
  match combinedOutput env stopStatd s0 with
  | ((out, some e), s1) => (some (.wrap "stopping rpc-statd.service" e), s1.emit (.stdoutBytes out))
  | ((_, none), s1) =>
    match combinedOutput env restartCtrd (s1.emit (.log "Restarting containerd...")) with
    | ((out, some e), s2) => (some (.wrap "restarting containerd" e), s2.emit (.logBytes out))
    | ((_, none), s2) =>
      match combinedOutput env startStatd (s2.emit (.log "Starting rpc-statd...")) with
      | ((out, some e), s3) => (some (.wrap "restarting rpc-statd.service" e), s3.emit (.logBytes out))
      | ((_, none), s3) => (none, s3.emit (.log "containerd restart complete"))

/-- How the synchronous part of `Enable` ends: it returns an error, or it has
registered the signal watcher and blocks in `select {}`. -/
inductive EnableResult where
  | failed (e : Error)
  | running
deriving DecidableEq, Repr

/-- Embedding of `Enable` up to the point where it blocks. -/
def Enable (env : Env) (k : Constants) (s : World) : EnableResult × World :=
  match makeXSpotDirs env s with
  | (some e, s1) => (.failed (.wrap "creating directories on node" e), s1)
  | (none, s1) =>
    match downloadBinaries env s1 with
    | (some e, s2) => (.failed (.wrap "downloading binaries" e), s2)
    | (none, s2) =>
      match copyConfigFiles env k s2 with
      | (some e, s3) => (.failed (.wrap "copying config files" e), s3)
      | (none, s3) =>
        match restartContainerd env s3 with
        | (some e, s4) => (.failed (.wrap "restarting containerd" e), s4)
        | (none, s4) =>
          (.running, (s4.emit .signalNotify).emit (.log "xspot successfully enabled in cluster"))

/-- Embedding of `Disable`. -/
def Disable (env : Env) (s : World) : Option Error × World :=
  let s0 := s.emit (.log "Disabling xspot...")
  match osRemove env activePath s0 with
  | (some e, s1) => (some (.wrap ("removing " ++ pathStr containerdConfigTomlPath) e), s1)
  | (none, s1) =>
    let s2 := s1.emit (.log ("Restoring default config.toml at " ++ pathStr containerdConfigTomlPath))
    match CopyFile env backupPath activePath s2 with
    | (some e, s3) => (some (.wrap "reverting back to default config.toml" e), s3)
    | (none, s3) =>
      match restartContainerd env s3 with
      | (some e, s4) => (some (.wrap "restarting containerd" e), s4)
      | (none, s4) => (none, s4.emit (.log "Successfully disabled xspot"))

/-- Rendering of an error by `%v`: `errors.Wrap` puts its text and a colon in
front of the inner error; the text of an operating-system error is
abbreviated to its number. -/
def Error.render : Error → String
  | .errno code => "errno " ++ toString code
  | .msg text => text
  | .wrap text inner => text ++ ": " ++ inner.render

/-- Embedding of the goroutine that Enable starts, from the moment the signal
arrives: `Disable`, then `os.Exit(1)` after logging its error or `os.Exit(0)`.
The result is the exit code. -/
def signalHandler (env : Env) (s : World) : Nat × World :=
  match Disable env s with
  | (some err, s1) => (1, s1.emit (.log ("Error disabling xspot: " ++ err.render)))
  | (none, s1) => (0, s1)

/-! ## Maps and template data (`pkg/minikube/assets/addons.go`) -/

/-- A Go `map[string]β` as the list of its entries; `range` visits the entries
in the order of the list, which stands for whatever order the runtime picks.
A `nil` map is the empty list: the code below only reads or ranges over maps
that may be `nil`. -/
abbrev GoMap (β : Type) := List (String × β)

/-- The lookup `m[k]` with its `ok` flag. -/
def GoMap.get {β : Type} : GoMap β → String → Option β
  | [], _ => none
  | (k', v) :: rest, k => if k' = k then some v else GoMap.get rest k

/-- The assignment `m[k] = v`. -/
def GoMap.set {β : Type} (m : GoMap β) (k : String) (v : β) : GoMap β :=
  (k, v) :: m.filter (fun e => e.1 ≠ k)

/-- The keys of a map. -/
def GoMap.keys {β : Type} (m : GoMap β) : List String := m.map Prod.fst

/-- A well-formed map holds each key once. -/
def GoMap.WF {β : Type} (m : GoMap β) : Prop := m.keys.Nodup

/-- Modelled from the spec: the declaration of `config.ClusterConfig` is not
among the sources; the record holds the three maps that `addons.go` reads
from it. -/
structure ClusterConfig where
  Addons : GoMap Bool
  CustomAddonImages : GoMap String
  CustomAddonRegistries : GoMap String

/-- Embedding of `(*Addon).IsEnabled`. -/
def Addon.IsEnabled (a : Addon) (cc : ClusterConfig) : Bool :=
  match cc.Addons.get a.Name with
  | some status => status
  | none => a.enabled

/-- Model of `strings.Split` with a separator of one character. -/
def Split (s : String) (sep : Char) : List String :=
  (s.data.splitOn sep).map String.mk

/-- Model of `strings.HasSuffix`. -/
def HasSuffix (s suffix : String) : Bool := decide (suffix.data <:+ s.data)

/-- Embedding of `parseMapString`; the warning printed for an ignored piece
is left out. -/
def parseMapString (str : String) : GoMap String :=
  if str = "" then []
  else
    (Split str ',').foldl (fun mapResult pairText =>
      match Split pairText '=' with
      | [key, value] => mapResult.set key value
      | _ => mapResult) []

/-- Embedding of `mergeMaps`. -/
def mergeMaps (sourceMap overrideMap : GoMap String) : GoMap String :=
  overrideMap.foldl (fun result e => result.set e.1 e.2)
    (sourceMap.foldl (fun result e => result.set e.1 e.2) [])

/-- A Go value of type `map[string]string`: `nil`, or a reference to a map
that `make` created. -/
abbrev MapRef := Option Nat

/-- The maps created so far: `maps r` is what the map behind reference `r`
holds, and the references below `next` are the ones `make` has handed out. -/
structure MapHeap where
  maps : Nat → GoMap String
  next : Nat

/-- What ranging over, or looking up in, a map value reads; a `nil` map reads
as empty. -/
def MapHeap.read (h : MapHeap) : MapRef → GoMap String
  | none => []
  | some r => h.maps r

/-- A map value that exists in `h`: `nil`, or a reference handed out. -/
def MapHeap.allocated (h : MapHeap) : MapRef → Prop
  | none => True
  | some r => r < h.next

/-- Embedding of `make(map[string]string)`: a new, empty map under the first
unused reference. -/
def MapHeap.make (h : MapHeap) : Nat × MapHeap :=
  (h.next, { maps := fun x => if x = h.next then [] else h.maps x, next := h.next + 1 })

/-- Embedding of `m[k] = v` on the map behind reference `r`. -/
def MapHeap.assign (h : MapHeap) (r : Nat) (k v : String) : MapHeap :=
  { h with maps := fun x => if x = r then (h.maps x).set k v else h.maps x }

/-- Embedding of `mergeMaps` on map references: the statements of the source,
one by one, on the heap of maps. -/
def MapHeap.mergeMaps (h : MapHeap) (sourceMap overrideMap : MapRef) : MapRef × MapHeap :=
  let (result, h1) := h.make
  let h2 := (h1.read sourceMap).foldl (fun hp e => hp.assign result e.1 e.2) h1
  let h3 := (h2.read overrideMap).foldl (fun hp e => hp.assign result e.1 e.2) h2
  (some result, h3)

/-- Embedding of `filterKeySpace`. -/
def filterKeySpace (keySpace targetMap : GoMap String) : GoMap String :=
  keySpace.foldl (fun result e =>
    match targetMap.get e.1 with
    | some value => result.set e.1 value
    | none => result) []

/-- Embedding of `overrideDefaults`. -/
def overrideDefaults (defaultMap overrideMap : GoMap String) : GoMap String :=
  mergeMaps defaultMap (filterKeySpace defaultMap overrideMap)

/-- Modelled from the spec: the declaration of `config.KubernetesConfig` is not
among the sources; the record holds the fields that `GenerateTemplateData`
reads. -/
structure KubernetesConfig where
  KubernetesVersion : String
  ImageRepository : String
  LoadBalancerStartIP : String
  LoadBalancerEndIP : String
  CustomIngressCert : String
  RegistryAliases : String
  ContainerRuntime : String

/-- The type `NetworkInfo`. -/
structure NetworkInfo where
  ControlPlaneNodeIP : String
  ControlPlaneNodePort : Int

/-- A semantic version as `semver.Version` compares it: three numbers and the
pre-release identifiers. -/
structure SemVer where
  Major : Nat
  Minor : Nat
  Patch : Nat
  Pre : List String
deriving DecidableEq, Repr

/-- Model of the range `<major.minor.0` of `semver.MustParseRange`: a version
with pre-release identifiers is below the same version without. -/
def SemVer.below (v : SemVer) (major minor : Nat) : Bool :=
  decide (v.Major < major) || (decide (v.Major = major) && (decide (v.Minor < minor)
    || (decide (v.Minor = minor) && decide (v.Patch = 0) && !v.Pre.isEmpty)))

/-- The anonymous struct `opts` that `GenerateTemplateData` returns. -/
structure TemplateData where
  PreOneTwentyKubernetes : Bool
  Arch : String
  ExoticArch : String
  ImageRepository : String
  LoadBalancerStartIP : String
  LoadBalancerEndIP : String
  CustomIngressCert : String
  IngressAPIVersion : String
  ContainerRuntime : String
  RegistryAliases : String
  Images : GoMap String
  Registries : GoMap String
  CustomRegistries : GoMap String
  NetworkInfo : GoMap String

/-- The loops "append postfix `/` to registries": every entry whose value is
not empty and does not end in `/` is reassigned with `/` appended. -/
def appendSlashes (m : GoMap String) : GoMap String :=
  m.foldl (fun r e =>
    if e.2 ≠ "" ∧ HasSuffix e.2 "/" = false then r.set e.1 (e.2 ++ "/") else r) m

/-- The registry part of the loop over the images: a name without registry
gets the empty registry. -/
def fillRegistries (images registries : GoMap String) : GoMap String :=
  images.foldl (fun r e =>
    match r.get e.1 with
    | some _ => r
    | none => r.set e.1 "") registries

/-- Embedding of `GenerateTemplateData`, with `runtime.GOARCH` and
`util.ParseKubernetesVersion` as parameters; the `out.Infof` lines of the last
loop are left out. -/
def GenerateTemplateData (goarch : String) (ParseKubernetesVersion : String → Except Error SemVer)
    (addon : Addon) (cfg : KubernetesConfig) (netInfo : NetworkInfo)
    (images customRegistries : GoMap String) (enable : Bool) : Except Error TemplateData :=
  let _ := enable
  let ea := if goarch ≠ "amd64" then "-" ++ goarch else ""
  let imageRepository :=
    if cfg.ImageRepository ≠ "" ∧ HasSuffix cfg.ImageRepository "/" = false
    then cfg.ImageRepository ++ "/" else cfg.ImageRepository
  match ParseKubernetesVersion cfg.KubernetesVersion with
  | .error err => .error (.wrap "parsing Kubernetes version" err)
  | .ok v =>
    .ok
      { PreOneTwentyKubernetes := v.below 1 20
        Arch := goarch
        ExoticArch := ea
        ImageRepository := imageRepository
        LoadBalancerStartIP := cfg.LoadBalancerStartIP
        LoadBalancerEndIP := cfg.LoadBalancerEndIP
        CustomIngressCert := cfg.CustomIngressCert
        IngressAPIVersion := if v.below 1 19 then "v1beta1" else "v1"
        ContainerRuntime := cfg.ContainerRuntime
        RegistryAliases := cfg.RegistryAliases
        Images := images
        Registries := fillRegistries images (appendSlashes addon.Registries)
        CustomRegistries := appendSlashes customRegistries
        NetworkInfo :=
          (GoMap.set [] "ControlPlaneNodeIP" netInfo.ControlPlaneNodeIP).set "ControlPlaneNodePort"
            (toString netInfo.ControlPlaneNodePort) }

/-! ## Footprints of operations -/

/-- The world `s'` is reached from `s` by attempting only operations that satisfy `P`,
and holds at every path outside `F` what `s` holds there. -/
def Within (P : Event → Prop) (F : Path → Prop) (s s' : World) : Prop :=
  (∃ es, s'.trace = s.trace ++ es ∧ ∀ e ∈ es, P e) ∧ ∀ q, ¬ F q → s'.fs q = s.fs q

/-- Operations of `MkdirAll p`: stat, lstat and mkdir of `p` and its ancestors. -/
def provisionEv (p : Path) : Event → Bool
  | .stat q | .lstat q | .mkdir q _ => decide (q <+: p)
  | _ => false

/-- Operations of one binary fetch into `dest`. -/
def fetchEv (dest : Path) : Event → Bool
  | .httpGet _ _ => true
  | .stat q | .remove q | .create q | .write q _ | .chmod q _ => q = dest
  | _ => false

/-- Operations of `CopyFile src dst`. -/
def copyFileEv (src dst : Path) : Event → Bool
  | .openRead q | .stat q => q = src
  | .create q | .write q _ | .chmod q _ => q = dst
  | _ => false

/-- Operations of `copyAssetToDest` into `dest`. -/
def assetEv (dest : Path) : Event → Bool
  | .log _ | .readFile _ => true
  | .stat q | .remove q | .create q | .write q _ => q = dest
  | _ => false

/-- Operations of `restartContainerd`. -/
def restartEv : Event → Bool
  | .log _ | .exec _ | .logBytes _ | .stdoutBytes _ => true
  | _ => false

/-- Operations of `copyConfigFiles`. -/
def configEv (e : Event) : Bool :=
  copyFileEv activePath backupPath e || assetEv activePath e

/-- Operations attempted between the world `s` and the later world `s'`. -/
def World.since (s' s : World) : List Event := s'.trace.drop s.trace.length

def Event.isHttp : Event → Bool
  | .httpGet _ _ => true
  | _ => false

def Event.isExec : Event → Bool
  | .exec _ => true
  | _ => false

/-- Whether the operation removes, creates, writes or changes the mode of `p`. -/
def Event.mutates (p : Path) : Event → Bool
  | .mkdir q _ | .remove q | .create q | .write q _ | .chmod q _ => q = p
  | _ => false

/-- The commands run so far, in order. -/
def execsOf (es : List Event) : List (List String) :=
  es.filterMap (fun e => match e with
    | .exec argv => some argv
    | _ => none)

/-- A labelled step of a lifecycle operation. -/
abbrev Step := String × (World → Option Error × World)

/-- The control flow the specification describes: attempt the steps in order and
return the first error, wrapped with the label of its step, attempting nothing
after it. -/
def runSteps : List Step → World → Option Error × World
  | [], s => (none, s)
  | (label, step) :: rest, s =>
    match step s with
    | (some e, s1) => (some (.wrap label e), s1)
    | (none, s1) => runSteps rest s1

/-- The four steps of Enable in the order the specification gives. -/
def enablePlan (env : Env) (k : Constants) : List Step :=
  [ ("creating directories on node", makeXSpotDirs env),
    ("downloading binaries", downloadBinaries env),
    ("copying config files", copyConfigFiles env k),
    ("restarting containerd", restartContainerd env) ]

/-! ## Sample node states and environments -/

/-- A node with its containerd configuration, `/node/tmp` and `/node/usr/bin`,
and the controller's own copy of the xspot configuration asset. -/
def sampleEntries : List (Path × Node) :=
  [ (["node"], .dir 0o755),
    (["node", "etc"], .dir 0o755),
    (["node", "etc", "containerd"], .dir 0o755),
    (["node", "etc", "containerd", "config.toml"], .file [1, 2, 3] 0o600),
    (["node", "tmp"], .dir 0o777),
    (["node", "usr"], .dir 0o755),
    (["node", "usr", "bin"], .dir 0o755),
    (["tmp"], .dir 0o777),
    (["tmp", "xspot"], .dir 0o755),
    (["tmp", "xspot", "xspot-config.toml"], .file [7, 8] 0o640) ]

def sampleWorld : World := { entries := sampleEntries, trace := [] }

/-- The sample node with a regular file in the place of `/node/run`. -/
def blockedWorld : World :=
  { entries := (["node", "run"], .file [] 0o644) :: sampleEntries, trace := [] }

def sampleConstants : Constants :=
  { XSpotConfigTomlTargetName := "xspot-config.toml"
    GuestXSpotDir := ["tmp", "xspot"]
    GuestAddonsDir := ["etc", "kubernetes", "addons"] }

/-- Every operation succeeds; each fetch answers 200 with a two-byte body. -/
def calmEnv : Env :=
  { fault := fun _ => none
    short := fun _ => 0
    umask := 0o022
    requestErr := fun _ => none
    http := fun _ _ => .ok { status := 200, body := [9, 9] }
    exec := fun _ _ => ([], none) }

/-- As `calmEnv`, but the transport fails on the second artifact (the shim). -/
def shimFetchFails : Env :=
  { calmEnv with http := fun _ url =>
      if url = xspotURL then .ok { status := 200, body := [9, 9] } else .error 110 }

/-- The first statement of Disable: `os.Remove` of the active configuration file. -/
def disableRemove (env : Env) (s : World) : Option Error × World :=
  osRemove env activePath (s.emit (.log "Disabling xspot..."))

/-- The second statement of Disable, in the world its first statement left:
`CopyFile` of the backup onto the active path. -/
def disableCopyBack (env : Env) (s : World) : Option Error × World :=
  CopyFile env backupPath activePath
    ((disableRemove env s).2.emit (.log ("Restoring default config.toml at " ++ pathStr containerdConfigTomlPath)))

/-- The first statement of copyConfigFiles: `CopyFile` of the active
configuration file to the backup path. -/
def configBackup (env : Env) (s : World) : Option Error × World :=
  CopyFile env activePath backupPath
    (s.emit (.log ("Storing default config.toml at " ++ pathStr storedContainerdConfigTomlPath)))

/-- The fixed restart plan of the specification. -/
def restartPlan : List (List String) := [stopStatd, restartCtrd, startStatd]

/-- Exit error of the first command of restartContainerd, attempted after its
two log lines. -/
def stopOutcome (env : Env) (s : World) : Bytes × Option Nat := env.exec (s.trace.length + 2) stopStatd

/-- Exit error of the second command, attempted when the first succeeded. -/
def restartOutcome (env : Env) (s : World) : Bytes × Option Nat := env.exec (s.trace.length + 4) restartCtrd

/-- Exit error of the third command, attempted when the first two succeeded. -/
def startOutcome (env : Env) (s : World) : Bytes × Option Nat := env.exec (s.trace.length + 6) startStatd

/-- As `calmEnv`, but every command prints `out` and exits with status 1. -/
def commandsFail (out : Bytes) : Env :=
  { calmEnv with exec := fun _ _ => (out, some 1) }

/-- As `calmEnv`, but `systemctl restart containerd` exits with status 1. -/
def restartFails : Env :=
  { calmEnv with exec := fun _ argv => if argv = restartCtrd then ([101], some 1) else ([], none) }

/-- The reading of one comma-separated piece that the encoding
`<key>=<value>` calls for: a piece with exactly one `=` binds the text before
it to the text after it, any other piece binds nothing. -/
def bindingOf (piece : String) : Option (String × String) :=
  if piece.data.count '=' = 1 then
    some (String.mk (piece.data.takeWhile (fun c => c != '=')),
      String.mk ((piece.data.dropWhile (fun c => c != '=')).tail))
  else none

/-- The decoding of `<key1>=<value1>,<key2>=<value2>,...`: go through the
pieces in order and record the binding of each piece that has one. -/
def decodePieces (str : String) : GoMap String :=
  (Split str ',').foldl (fun m piece =>
    match bindingOf piece with
    | some kv => m.set kv.1 kv.2
    | none => m) []

/-- The encoding `<key1>=<value1>,<key2>=<value2>,...` of a list of pairs. -/
def encodePairs (pairs : GoMap String) : String :=
  String.mk ([','].intercalate (pairs.map (fun e => e.1.data ++ '=' :: e.2.data)))

/-- What the registry loops make of one value: `/` is appended to a value
that is not empty and does not end in `/`. -/
def slashed (v : String) : String :=
  if v ≠ "" ∧ HasSuffix v "/" = false then v ++ "/" else v

/-- The environment `env` with the status of every response replaced by
`status`; all other outcomes are those of `env`. -/
def Env.withStatus (env : Env) (status : Nat) : Env :=
  { env with http := fun n url =>
      match env.http n url with
      | .ok resp => .ok { resp with status := status }
      | .error c => .error c }

/-- As `calmEnv`, but every fetch is answered 404 with a three-byte body. -/
def notFoundEnv : Env :=
  { calmEnv with http := fun _ _ => .ok { status := 404, body := [52, 48, 52] } }

/-- From `s` to `s'` nothing that was in the file tree changed: every path
holds what it held, except that a path satisfying `F` that held nothing may
now hold a directory. -/
def Grows (F : Path → Prop) (s s' : World) : Prop :=
  ∀ q, s'.fs q = s.fs q ∨ (s.fs q = none ∧ F q ∧ ∃ m, s'.fs q = some (.dir m))

/-- As `calmEnv`, but the operation attempted at index 19 fails: on the sample
node that is the chmod of the second binary. -/
def shimChmodFails : Env :=
  { calmEnv with fault := fun n => if n = 19 then some 1 else none }

/-- A heap with two maps, behind references 0 and 1, that share the key `b`. -/
def sampleHeap : MapHeap :=
  { maps := fun r =>
      if r = 0 then [("a", "1"), ("b", "2")]
      else if r = 1 then [("b", "3"), ("c", "4")]
      else []
    next := 2 }

/-! ## Footprint lemmas -/

@[simp] theorem emit_fs (s : World) (e : Event) : (s.emit e).fs = s.fs := rfl

@[simp] theorem emit_trace (s : World) (e : Event) : (s.emit e).trace = s.trace ++ [e] := rfl

@[simp] theorem set_trace (s : World) (p : Path) (n : Option Node) : (s.set p n).trace = s.trace := rfl

theorem lookupNode_filter (l : List (Path × Node)) (p q : Path) :
    lookupNode (l.filter (fun e => e.1 ≠ p)) q = if q = p then none else lookupNode l q := by
  induction l with
  | nil => simp [lookupNode]
  | cons e rest ih =>
    obtain ⟨k0, v0⟩ := e
    by_cases h0 : k0 = p
    · subst h0
      simp only [List.filter, ne_eq, not_true_eq_false, decide_False, ih, lookupNode]
      by_cases hk : q = k0
      · simp [hk]
      · have hk' : ¬ k0 = q := fun h => hk h.symm
        simp [hk, hk']
    · simp only [List.filter, ne_eq, h0, not_false_eq_true, decide_True, lookupNode, ih]
      by_cases hk : q = p
      · subst hk; simp [h0]
      · simp [hk]

@[simp] theorem set_fs (s : World) (p : Path) (n : Option Node) (q : Path) :
    (s.set p n).fs q = if q = p then n else s.fs q := by
  unfold World.set World.fs
  cases n with
  | none =>
    simp only [lookupNode_filter]
  | some x =>
    simp only [lookupNode, lookupNode_filter]
    by_cases hk : q = p
    · subst hk; simp
    · have hk' : ¬ p = q := fun h => hk h.symm
      simp [hk, hk']

@[simp] theorem emit_node (s : World) (e : Event) (p : Path) : (s.emit e).node p = s.node p := rfl

theorem Within.refl (P : Event → Prop) (F : Path → Prop) (s : World) : Within P F s s :=
  ⟨⟨[], by simp, by simp⟩, fun _ _ => rfl⟩

theorem Within.trans {P : Event → Prop} {F : Path → Prop} {s s1 s2 : World}
    (h1 : Within P F s s1) (h2 : Within P F s1 s2) : Within P F s s2 := by
  obtain ⟨⟨es1, ht1, hp1⟩, hf1⟩ := h1
  obtain ⟨⟨es2, ht2, hp2⟩, hf2⟩ := h2
  refine ⟨⟨es1 ++ es2, by rw [ht2, ht1, List.append_assoc], ?_⟩, fun q hq => by rw [hf2 q hq, hf1 q hq]⟩
  intro e he
  rcases List.mem_append.mp he with h | h
  · exact hp1 e h
  · exact hp2 e h

theorem Within.mono {P Q : Event → Prop} {F G : Path → Prop} {s s' : World}
    (h : Within P F s s') (hPQ : ∀ e, P e → Q e) (hFG : ∀ q, F q → G q) : Within Q G s s' := by
  obtain ⟨⟨es, ht, hp⟩, hf⟩ := h
  exact ⟨⟨es, ht, fun e he => hPQ e (hp e he)⟩, fun q hq => hf q (fun hF => hq (hFG q hF))⟩

theorem Within.emit {P : Event → Prop} (F : Path → Prop) (s : World) {e : Event} (he : P e) :
    Within P F s (s.emit e) :=
  ⟨⟨[e], rfl, by simpa using he⟩, fun _ _ => rfl⟩

theorem Within.emit_set {P : Event → Prop} {F : Path → Prop} (s : World) {e : Event} {p : Path}
    (n : Option Node) (he : P e) (hp : F p) : Within P F s ((s.emit e).set p n) := by
  refine ⟨⟨[e], rfl, by simpa using he⟩, fun q hq => ?_⟩
  have : q ≠ p := fun h => hq (h ▸ hp)
  simp [this]

theorem osStat_within {P : Event → Prop} {F : Path → Prop} {env : Env} {p : Path} {s s' : World}
    {r : Except Error Node} (h : osStat env p s = (r, s')) (he : P (.stat p)) : Within P F s s' := by
  unfold osStat at h
  split at h
  · cases h; exact Within.emit F s he
  · split at h <;> (cases h; exact Within.emit F s he)

theorem osLstat_within {P : Event → Prop} {F : Path → Prop} {env : Env} {p : Path} {s s' : World}
    {r : Except Error Node} (h : osLstat env p s = (r, s')) (he : P (.lstat p)) : Within P F s s' := by
  unfold osLstat at h
  split at h
  · cases h; exact Within.emit F s he
  · split at h <;> (cases h; exact Within.emit F s he)

theorem osMkdir_within {P : Event → Prop} {F : Path → Prop} {env : Env} {p : Path} {perm : Nat}
    {s s' : World} {r : Option Error} (h : osMkdir env p perm s = (r, s'))
    (he : P (.mkdir p perm)) (hp : F p) : Within P F s s' := by
  unfold osMkdir at h
  split at h
  · cases h; exact Within.emit F s he
  · split at h
    · cases h; exact Within.emit F s he
    · split at h
      · cases h; exact Within.emit_set s _ he hp
      · cases h; exact Within.emit F s he

theorem osRemove_within {P : Event → Prop} {F : Path → Prop} {env : Env} {p : Path}
    {s s' : World} {r : Option Error} (h : osRemove env p s = (r, s'))
    (he : P (.remove p)) (hp : F p) : Within P F s s' := by
  unfold osRemove at h
  split at h
  · cases h; exact Within.emit F s he
  · split at h
    · cases h; exact Within.emit F s he
    · split at h
      · cases h; exact Within.emit F s he
      · cases h; exact Within.emit_set s _ he hp
      · split at h
        · cases h; exact Within.emit F s he
        · cases h; exact Within.emit_set s _ he hp

theorem osCreate_within {P : Event → Prop} {F : Path → Prop} {env : Env} {p : Path}
    {s s' : World} {r : Option Error} (h : osCreate env p s = (r, s'))
    (he : P (.create p)) (hp : F p) : Within P F s s' := by
  unfold osCreate at h
  split at h
  · cases h; exact Within.emit F s he
  · split at h
    · cases h; exact Within.emit F s he
    · cases h; exact Within.emit_set s _ he hp
    · split at h
      · cases h; exact Within.emit_set s _ he hp
      · cases h; exact Within.emit F s he

theorem osOpen_within {P : Event → Prop} {F : Path → Prop} {env : Env} {p : Path}
    {s s' : World} {r : Option Error} (h : osOpen env p s = (r, s'))
    (he : P (.openRead p)) : Within P F s s' := by
  unfold osOpen at h
  split at h
  · cases h; exact Within.emit F s he
  · split at h <;> (cases h; exact Within.emit F s he)

theorem fileWrite_within {P : Event → Prop} {F : Path → Prop} {env : Env} {p : Path} {d : Bytes}
    {s s' : World} {r : Option Error} (h : fileWrite env p d s = (r, s'))
    (he : P (.write p d)) (hp : F p) : Within P F s s' := by
  unfold fileWrite at h
  split at h
  · split at h <;> (cases h; exact Within.emit_set s _ he hp)
  · cases h; exact Within.emit F s he

theorem fileCopy_within {P : Event → Prop} {F : Path → Prop} {env : Env} {dst src : Path}
    {s s' : World} {r : Option Error} (h : fileCopy env dst src s = (r, s'))
    (he : ∀ d, P (.write dst d)) (hp : F dst) : Within P F s s' := by
  unfold fileCopy at h
  split at h
  · exact fileWrite_within h (he _) hp
  · cases h; exact Within.emit F s (he _)

theorem osChmod_within {P : Event → Prop} {F : Path → Prop} {env : Env} {p : Path} {m : Nat}
    {s s' : World} {r : Option Error} (h : osChmod env p m s = (r, s'))
    (he : P (.chmod p m)) (hp : F p) : Within P F s s' := by
  unfold osChmod at h
  split at h
  · cases h; exact Within.emit F s he
  · split at h
    · cases h; exact Within.emit F s he
    · cases h; exact Within.emit_set s _ he hp
    · cases h; exact Within.emit_set s _ he hp

theorem osReadFile_within {P : Event → Prop} {F : Path → Prop} {env : Env} {p : Path}
    {s s' : World} {r : Except Error Bytes} (h : osReadFile env p s = (r, s'))
    (he : P (.readFile p)) : Within P F s s' := by
  unfold osReadFile at h
  split at h
  · cases h; exact Within.emit F s he
  · split at h <;> (cases h; exact Within.emit F s he)

theorem httpDo_within {P : Event → Prop} {F : Path → Prop} {env : Env} {url ua : String}
    {s s' : World} {r : Except Error Response} (h : httpDo env url ua s = (r, s'))
    (he : P (.httpGet url ua)) : Within P F s s' := by
  unfold httpDo at h
  split at h <;> (cases h; exact Within.emit F s he)

theorem combinedOutput_within {P : Event → Prop} {F : Path → Prop} {env : Env} {argv : List String}
    {s s' : World} {r : Bytes × Option Error} (h : combinedOutput env argv s = (r, s'))
    (he : P (.exec argv)) : Within P F s s' := by
  unfold combinedOutput at h
  split at h <;> (cases h; exact Within.emit F s he)

theorem mkdirAllRev_within (env : Env) (perm : Nat) :
    ∀ (rp : List String) (s s' : World) (r : Option Error), mkdirAllRev env perm rp s = (r, s') →
      Within (fun e => ∃ q, q <+: rp.reverse ∧ provisionEv q e = true) (fun q => q <+: rp.reverse) s s' := by
  intro rp
  induction rp with
  | nil =>
    intro s s' r h
    have here : ∀ e : Event, provisionEv [] e = true →
        ∃ q, q <+: ([] : List String).reverse ∧ provisionEv q e = true :=
      fun e he => ⟨[], by simp, he⟩
    unfold mkdirAllRev at h
    split at h
    · rename_i h1; cases h; exact osStat_within h1 (here _ (by simp [provisionEv]))
    · rename_i h1; cases h; exact osStat_within h1 (here _ (by simp [provisionEv]))
    · rename_i h1
      have w1 := osStat_within (F := fun q => q <+: ([] : List String).reverse)
        (P := fun e => ∃ q, q <+: ([] : List String).reverse ∧ provisionEv q e = true) h1
        (here _ (by simp [provisionEv]))
      split at h
      · rename_i h2; cases h
        exact w1.trans (osMkdir_within h2 (here _ (by simp [provisionEv])) (by simp))
      · rename_i h2
        have w2 := w1.trans (osMkdir_within h2 (here _ (by simp [provisionEv])) (by simp))
        split at h
        · rename_i h3; cases h; exact w2.trans (osLstat_within h3 (here _ (by simp [provisionEv])))
        · rename_i h3; cases h; exact w2.trans (osLstat_within h3 (here _ (by simp [provisionEv])))
  | cons c rest ih =>
    intro s s' r h
    have here : ∀ e : Event, provisionEv (c :: rest).reverse e = true →
        ∃ q, q <+: (c :: rest).reverse ∧ provisionEv q e = true :=
      fun e he => ⟨_, List.prefix_refl _, he⟩
    have up : ∀ q : Path, q <+: rest.reverse → q <+: (c :: rest).reverse := by
      intro q hq
      rw [List.reverse_cons]
      exact hq.trans (List.prefix_append _ _)
    have upE : ∀ e : Event, (∃ q, q <+: rest.reverse ∧ provisionEv q e = true) →
        ∃ q, q <+: (c :: rest).reverse ∧ provisionEv q e = true :=
      fun e ⟨q, hq, he⟩ => ⟨q, up q hq, he⟩
    have par : ∀ (s1 s2 : World) (r2 : Option Error),
        (if rest = [] then (none, s1) else mkdirAllRev env perm rest s1) = (r2, s2) →
        Within (fun e => ∃ q, q <+: (c :: rest).reverse ∧ provisionEv q e = true)
          (fun q => q <+: (c :: rest).reverse) s1 s2 := by
      intro s1 s2 r2 hx
      by_cases hr : rest = []
      · rw [if_pos hr] at hx; cases hx; exact Within.refl _ _ _
      · rw [if_neg hr] at hx; exact (ih _ _ _ hx).mono upE up
    unfold mkdirAllRev at h
    split at h
    · rename_i h1; cases h; exact osStat_within h1 (here _ (by simp [provisionEv]))
    · rename_i h1; cases h; exact osStat_within h1 (here _ (by simp [provisionEv]))
    · rename_i h1
      have w1 := osStat_within (F := fun q => q <+: (c :: rest).reverse)
        (P := fun e => ∃ q, q <+: (c :: rest).reverse ∧ provisionEv q e = true) h1
        (here _ (by simp [provisionEv]))
      split at h
      · rename_i h2; cases h
        exact w1.trans (par _ _ _ h2)
      · rename_i h2
        have w2 := w1.trans (par _ _ _ h2)
        split at h
        · rename_i h3; cases h
          exact w2.trans (osMkdir_within h3 (here _ (by simp [provisionEv])) (List.prefix_refl _))
        · rename_i h3
          have w3 := w2.trans (osMkdir_within h3 (here _ (by simp [provisionEv])) (List.prefix_refl _))
          split at h
          · rename_i h4; cases h; exact w3.trans (osLstat_within h4 (here _ (by simp [provisionEv])))
          · rename_i h4; cases h; exact w3.trans (osLstat_within h4 (here _ (by simp [provisionEv])))

theorem provisionEv_mono {q p : Path} {e : Event} (hq : q <+: p) (h : provisionEv q e = true) :
    provisionEv p e = true := by
  cases e <;> simp_all [provisionEv]
  all_goals exact h.trans hq

theorem osMkdirAll_within {env : Env} {p : Path} {perm : Nat} {s s' : World} {r : Option Error}
    (h : osMkdirAll env p perm s = (r, s')) :
    Within (fun e => provisionEv p e = true) (fun q => q <+: p) s s' := by
  have := mkdirAllRev_within env perm p.reverse s s' r h
  simp only [List.reverse_reverse] at this
  exact this.mono (fun e ⟨q, hq, he⟩ => provisionEv_mono hq he) (fun _ h => h)

theorem makeXSpotDirs_within {env : Env} {s s' : World} {r : Option Error}
    (h : makeXSpotDirs env s = (r, s')) :
    Within (fun e => provisionEv runxcDir e = true ∨ provisionEv runxcLogsDir e = true)
      (fun q => q <+: runxcDir ∨ q <+: runxcLogsDir) s s' := by
  unfold makeXSpotDirs at h
  split at h
  · rename_i h1; cases h
    exact (osMkdirAll_within h1).mono (fun _ h => Or.inl h) (fun _ h => Or.inl h)
  · rename_i h1
    have w1 := (osMkdirAll_within h1).mono
      (Q := fun e => provisionEv runxcDir e = true ∨ provisionEv runxcLogsDir e = true)
      (G := fun q => q <+: runxcDir ∨ q <+: runxcLogsDir) (fun _ h => Or.inl h) (fun _ h => Or.inl h)
    split at h
    · rename_i h2; cases h
      exact w1.trans ((osMkdirAll_within h2).mono (fun _ h => Or.inr h) (fun _ h => Or.inr h))
    · rename_i h2; cases h
      exact w1.trans ((osMkdirAll_within h2).mono (fun _ h => Or.inr h) (fun _ h => Or.inr h))

/-- The block "if something is at `dest`, remove it". -/
theorem removeIfPresent_within {P : Event → Prop} {F : Path → Prop} {env : Env} {dest : Path}
    {s s' : World} {r : Option Error}
    (h : (match osStat env dest s with
          | (.ok _, s2) => osRemove env dest s2
          | (.error _, s2) => (none, s2)) = (r, s'))
    (h1 : P (.stat dest)) (h2 : P (.remove dest)) (hp : F dest) : Within P F s s' := by
  split at h
  · rename_i hs
    exact (osStat_within hs h1).trans (osRemove_within h h2 hp)
  · rename_i hs; cases h
    exact osStat_within hs h1

theorem downloadFileToDest_within {env : Env} {url : String} {dest : Path} {s s' : World}
    {r : Option Error} (h : downloadFileToDest env url dest s = (r, s')) :
    Within (fun e => fetchEv dest e = true) (fun q => q = dest) s s' := by
  unfold downloadFileToDest at h
  split at h
  · cases h; exact Within.refl _ _ _
  · split at h
    · rename_i h1; cases h; exact httpDo_within h1 rfl
    · rename_i h1
      have w1 := httpDo_within (P := fun e => fetchEv dest e = true) (F := fun q => q = dest) h1 rfl
      simp only at h
      split at h
      · rename_i h2; cases h
        exact w1.trans (removeIfPresent_within h2 (by simp [fetchEv]) (by simp [fetchEv]) rfl)
      · rename_i h2
        have w2 := w1.trans (removeIfPresent_within h2 (by simp [fetchEv]) (by simp [fetchEv]) rfl)
        split at h
        · rename_i h3; cases h
          exact w2.trans (osCreate_within h3 (by simp [fetchEv]) rfl)
        · rename_i h3
          have w3 := w2.trans (osCreate_within h3 (by simp [fetchEv]) rfl)
          split at h
          · rename_i h4; cases h
            exact w3.trans (fileWrite_within h4 (by simp [fetchEv]) rfl)
          · rename_i h4
            have w4 := w3.trans (fileWrite_within h4 (by simp [fetchEv]) rfl)
            split at h
            · rename_i h5; cases h
              exact w4.trans (osChmod_within h5 (by simp [fetchEv]) rfl)
            · rename_i h5; cases h
              exact w4.trans (osChmod_within h5 (by simp [fetchEv]) rfl)

theorem downloadBinaries_within {env : Env} {s s' : World} {r : Option Error}
    (h : downloadBinaries env s = (r, s')) :
    Within (fun e => fetchEv runxcDest e = true ∨ fetchEv shimDest e = true)
      (fun q => q = runxcDest ∨ q = shimDest) s s' := by
  unfold downloadBinaries runxc xspotContainerdShim at h
  split at h
  · rename_i h1; cases h
    exact (downloadFileToDest_within h1).mono (fun _ h => Or.inl h) (fun _ h => Or.inl h)
  · rename_i h1
    have w1 := (downloadFileToDest_within h1).mono
      (Q := fun e => fetchEv runxcDest e = true ∨ fetchEv shimDest e = true)
      (G := fun q => q = runxcDest ∨ q = shimDest) (fun _ h => Or.inl h) (fun _ h => Or.inl h)
    split at h
    · rename_i h2; cases h
      exact w1.trans ((downloadFileToDest_within h2).mono (fun _ h => Or.inr h) (fun _ h => Or.inr h))
    · rename_i h2; cases h
      exact w1.trans ((downloadFileToDest_within h2).mono (fun _ h => Or.inr h) (fun _ h => Or.inr h))

theorem CopyFile_within {env : Env} {src dst : Path} {s s' : World} {r : Option Error}
    (h : CopyFile env src dst s = (r, s')) :
    Within (fun e => copyFileEv src dst e = true) (fun q => q = dst) s s' := by
  unfold CopyFile at h
  split at h
  · rename_i h1; cases h; exact osOpen_within h1 (by simp [copyFileEv])
  · rename_i h1
    have w1 := osOpen_within (P := fun e => copyFileEv src dst e = true) (F := fun q => q = dst) h1
      (by simp [copyFileEv])
    split at h
    · rename_i h2; cases h; exact w1.trans (osCreate_within h2 (by simp [copyFileEv]) rfl)
    · rename_i h2
      have w2 := w1.trans (osCreate_within h2 (by simp [copyFileEv]) rfl)
      split at h
      · rename_i h3; cases h
        exact w2.trans (fileCopy_within h3 (by simp [copyFileEv]) rfl)
      · rename_i h3
        have w3 := w2.trans (fileCopy_within h3 (by simp [copyFileEv]) rfl)
        split at h
        · rename_i h4; cases h; exact w3.trans (osStat_within h4 (by simp [copyFileEv]))
        · rename_i h4
          exact (w3.trans (osStat_within h4 (by simp [copyFileEv]))).trans
            (osChmod_within h (by simp [copyFileEv]) rfl)
        · rename_i h4
          exact (w3.trans (osStat_within h4 (by simp [copyFileEv]))).trans
            (osChmod_within h (by simp [copyFileEv]) rfl)

theorem copyAssetToDest_within {env : Env} {k : Constants} {targetName : String} {dest : Path}
    {s s' : World} {r : Option Error} (h : copyAssetToDest env k targetName dest s = (r, s')) :
    Within (fun e => assetEv dest e = true) (fun q => q = dest) s s' := by
  unfold copyAssetToDest at h
  split at h
  · cases h; exact Within.refl _ _ _
  · simp only at h
    have w0 : ∀ t : String, Within (fun e => assetEv dest e = true) (fun q => q = dest) s
        (s.emit (.log t)) := fun t => Within.emit _ s (by simp [assetEv])
    split at h
    · rename_i h1; cases h
      exact (w0 _).trans (osReadFile_within h1 (by simp [assetEv]))
    · rename_i h1
      have w1 := (w0 _).trans (osReadFile_within h1 (by simp [assetEv]))
      split at h
      · rename_i h2; cases h
        exact w1.trans (removeIfPresent_within h2 (by simp [assetEv]) (by simp [assetEv]) rfl)
      · rename_i h2
        have w2 := w1.trans (removeIfPresent_within h2 (by simp [assetEv]) (by simp [assetEv]) rfl)
        have w2' := w2.trans (Within.emit (P := fun e => assetEv dest e = true) (fun q => q = dest) _
          (e := .log ("creating " ++ pathStr dest)) (by simp [assetEv]))
        split at h
        · rename_i h3; cases h
          exact w2'.trans (osCreate_within h3 (by simp [assetEv]) rfl)
        · rename_i h3
          have w3 := w2'.trans (osCreate_within h3 (by simp [assetEv]) rfl)
          split at h
          · rename_i h4; cases h
            exact w3.trans (fileWrite_within h4 (by simp [assetEv]) rfl)
          · rename_i h4; cases h
            exact w3.trans (fileWrite_within h4 (by simp [assetEv]) rfl)

theorem copyConfigFiles_within {env : Env} {k : Constants} {s s' : World} {r : Option Error}
    (h : copyConfigFiles env k s = (r, s')) :
    Within (fun e => configEv e = true) (fun q => q = activePath ∨ q = backupPath) s s' := by
  unfold copyConfigFiles at h
  simp only at h
  have w0 : ∀ (x : World) (t : String), Within (fun e => configEv e = true)
      (fun q => q = activePath ∨ q = backupPath) x (x.emit (.log t)) :=
    fun x t => Within.emit _ x (by simp [configEv, assetEv])
  split at h
  · rename_i h1; cases h
    exact (w0 _ _).trans ((CopyFile_within h1).mono (fun e h => by simp [configEv, h])
      (fun _ h => Or.inr h))
  · rename_i h1
    have w1 := ((w0 s _).trans ((CopyFile_within h1).mono (fun e h => by simp [configEv, h])
      (fun _ h => Or.inr h))).trans
      (w0 _ ("Copying " ++ k.XSpotConfigTomlTargetName ++ " asset to " ++ pathStr activePath))
    split at h
    · rename_i h2; cases h
      exact w1.trans ((copyAssetToDest_within h2).mono (fun e h => by simp [configEv, h])
        (fun _ h => Or.inl h))
    · rename_i h2; cases h
      exact w1.trans ((copyAssetToDest_within h2).mono (fun e h => by simp [configEv, h])
        (fun _ h => Or.inl h))

theorem restartContainerd_within {env : Env} {s s' : World} {r : Option Error}
    (h : restartContainerd env s = (r, s')) :
    Within (fun e => restartEv e = true) (fun _ => False) s s' := by
  unfold restartContainerd at h
  simp only at h
  have w0 : ∀ (x : World) (e : Event), restartEv e = true →
      Within (fun e => restartEv e = true) (fun _ => False) x (x.emit e) :=
    fun x e he => Within.emit _ x he
  have wa := (w0 s _ (show restartEv (.log "restartContainerd black magic happening") = true from rfl)).trans
    (w0 _ _ (show restartEv (.log "Stopping rpc-statd.service...") = true from rfl))
  split at h
  · rename_i h1; cases h
    exact (wa.trans (combinedOutput_within h1 rfl)).trans (w0 _ _ rfl)
  · rename_i h1
    have w1 := (wa.trans (combinedOutput_within h1 rfl)).trans
      (w0 _ _ (show restartEv (.log "Restarting containerd...") = true from rfl))
    split at h
    · rename_i h2; cases h
      exact (w1.trans (combinedOutput_within h2 rfl)).trans (w0 _ _ rfl)
    · rename_i h2
      have w2 := (w1.trans (combinedOutput_within h2 rfl)).trans
        (w0 _ _ (show restartEv (.log "Starting rpc-statd...") = true from rfl))
      split at h
      · rename_i h3; cases h
        exact (w2.trans (combinedOutput_within h3 rfl)).trans (w0 _ _ rfl)
      · rename_i h3; cases h
        exact (w2.trans (combinedOutput_within h3 rfl)).trans (w0 _ _ rfl)

theorem Within.since {P : Event → Prop} {F : Path → Prop} {s s' : World} (h : Within P F s s') :
    ∀ e ∈ s'.since s, P e := by
  obtain ⟨⟨es, ht, hp⟩, _⟩ := h
  intro e he
  unfold World.since at he
  rw [ht, List.drop_left] at he
  exact hp e he

theorem Within.fs {P : Event → Prop} {F : Path → Prop} {s s' : World} (h : Within P F s s')
    {q : Path} (hq : ¬ F q) : s'.fs q = s.fs q := h.2 q hq

theorem within_of_eq {α : Type} {f : World → α × World} {P : Event → Prop} {F : Path → Prop}
    (hf : ∀ s s' r, f s = (r, s') → Within P F s s') (s : World) : Within P F s (f s).2 :=
  hf s (f s).2 (f s).1 rfl

theorem provisionEv_kind {p : Path} {e : Event} (h : provisionEv p e = true) :
    e.isHttp = false ∧ e.isExec = false ∧ e ≠ .signalNotify ∧ e ≠ .openRead activePath := by
  cases e <;> simp_all [provisionEv, Event.isHttp, Event.isExec]

theorem fetchEv_kind {dest : Path} {e : Event} (h : fetchEv dest e = true) :
    e.isExec = false ∧ e ≠ .signalNotify ∧ e ≠ .openRead activePath := by
  cases e <;> simp_all [fetchEv, Event.isExec]

theorem configEv_kind {e : Event} (h : configEv e = true) :
    e.isExec = false ∧ e ≠ .signalNotify := by
  cases e <;> simp_all [configEv, copyFileEv, assetEv, Event.isExec]

theorem restartEv_kind {e : Event} (h : restartEv e = true) : e ≠ .signalNotify := by
  cases e <;> simp_all [restartEv]

theorem provisionEv_mutates {p q : Path} {e : Event} (h : provisionEv p e = true)
    (hm : e.mutates q = true) : q <+: p := by
  cases e <;> simp_all [provisionEv, Event.mutates]

theorem fetchEv_mutates {d q : Path} {e : Event} (h : fetchEv d e = true)
    (hm : e.mutates q = true) : q = d := by
  cases e <;> simp_all [fetchEv, Event.mutates]

/-- Operations and paths of the first two steps of Enable. -/
theorem provision_fetch_within (env : Env) (s : World) :
    Within (fun e => (provisionEv runxcDir e = true ∨ provisionEv runxcLogsDir e = true)
        ∨ fetchEv runxcDest e = true ∨ fetchEv shimDest e = true)
      (fun q => (q <+: runxcDir ∨ q <+: runxcLogsDir) ∨ q = runxcDest ∨ q = shimDest)
      s (downloadBinaries env (makeXSpotDirs env s).2).2 :=
  ((within_of_eq (fun s s' r => @makeXSpotDirs_within env s s' r) s).mono
      (fun _ h => Or.inl h) (fun _ h => Or.inl h)).trans
    ((within_of_eq (fun s s' r => @downloadBinaries_within env s s' r) (makeXSpotDirs env s).2).mono
      (fun _ h => Or.inr h) (fun _ h => Or.inr h))

/-- Enable returns the download error in the world the download left. -/
theorem Enable_of_download_failed (env : Env) (k : Constants) (s : World) (e : Error)
    (h1 : (makeXSpotDirs env s).1 = none)
    (h2 : (downloadBinaries env (makeXSpotDirs env s).2).1 = some e) :
    Enable env k s = (.failed (.wrap "downloading binaries" e),
      (downloadBinaries env (makeXSpotDirs env s).2).2) := by
  rcases hA : makeXSpotDirs env s with ⟨rA, sA⟩
  rw [hA] at h1 h2
  simp only at h1 h2
  subst h1
  rcases hB : downloadBinaries env sA with ⟨rB, sB⟩
  rw [hB] at h2
  simp only at h2
  subst h2
  simp [Enable, hA, hB]

theorem activePath_outside :
    ¬ ((activePath <+: runxcDir ∨ activePath <+: runxcLogsDir) ∨ activePath = runxcDest ∨ activePath = shimDest) := by
  decide

theorem backupPath_outside :
    ¬ ((backupPath <+: runxcDir ∨ backupPath <+: runxcLogsDir) ∨ backupPath = runxcDest ∨ backupPath = shimDest) := by
  decide

/-! ## What a successful operation did -/

theorem node_of_ne_nil (s : World) {p : Path} (hp : p ≠ []) : s.node p = s.fs p := by
  simp [World.node, hp]

theorem set_node (s : World) (p : Path) (n : Option Node) (q : Path) (hq : q ≠ []) :
    (s.set p n).node q = if q = p then n else s.node q := by
  simp [World.node, hq]

theorem osOpen_ok {env : Env} {p : Path} {s s' : World} (h : osOpen env p s = (none, s')) :
    s' = s.emit (.openRead p) ∧ ∃ n, s.node p = some n := by
  unfold osOpen at h
  split at h
  · simp at h
  · split at h
    · simp at h
    · rename_i n hn
      simp only [Prod.mk.injEq, true_and] at h
      exact ⟨h.symm, n, hn⟩

theorem osCreate_ok {env : Env} {p : Path} {s s' : World} (h : osCreate env p s = (none, s')) :
    ∃ m, s' = (s.emit (.create p)).set p (some (.file [] m)) := by
  unfold osCreate at h
  split at h
  · simp at h
  · split at h
    · simp at h
    · rename_i c m _
      simp only [Prod.mk.injEq, true_and] at h
      exact ⟨m, h.symm⟩
    · split at h
      · simp only [Prod.mk.injEq, true_and] at h
        exact ⟨_, h.symm⟩
      · simp at h

theorem fileWrite_ok {env : Env} {p : Path} {d : Bytes} {s s' : World}
    (h : fileWrite env p d s = (none, s')) :
    ∃ c m, s.node p = some (.file c m) ∧ s' = (s.emit (.write p d)).set p (some (.file (c ++ d) m)) := by
  unfold fileWrite at h
  split at h
  · rename_i c m hn
    split at h
    · simp at h
    · simp only [Prod.mk.injEq, true_and] at h
      exact ⟨c, m, hn, h.symm⟩
  · simp at h

theorem fileCopy_ok {env : Env} {dst src : Path} {s s' : World}
    (h : fileCopy env dst src s = (none, s')) :
    ∃ c m c0 m0, s.node src = some (.file c m) ∧ s.node dst = some (.file c0 m0)
      ∧ s' = (s.emit (.write dst c)).set dst (some (.file (c0 ++ c) m0)) := by
  unfold fileCopy at h
  split at h
  · rename_i c m hn
    obtain ⟨c0, m0, h0, hs⟩ := fileWrite_ok h
    exact ⟨c, m, c0, m0, hn, h0, hs⟩
  · simp at h

theorem osStat_ok {env : Env} {p : Path} {s s' : World} {n : Node}
    (h : osStat env p s = (.ok n, s')) : s' = s.emit (.stat p) ∧ s.node p = some n := by
  unfold osStat at h
  split at h
  · simp at h
  · split at h
    · simp at h
    · rename_i n0 hn
      simp only [Prod.mk.injEq, Except.ok.injEq] at h
      exact ⟨h.2.symm, by rw [hn, h.1]⟩

theorem osStat_state {env : Env} {p : Path} {s s' : World} {r : Except Error Node}
    (h : osStat env p s = (r, s')) : s' = s.emit (.stat p) := by
  unfold osStat at h
  split at h
  · simp only [Prod.mk.injEq] at h; exact h.2.symm
  · split at h <;> (simp only [Prod.mk.injEq] at h; exact h.2.symm)

theorem osChmod_ok {env : Env} {p : Path} {mode : Nat} {s s' : World}
    (h : osChmod env p mode s = (none, s')) :
    (∃ c m, s.node p = some (.file c m) ∧ s' = (s.emit (.chmod p mode)).set p (some (.file c mode)))
    ∨ (∃ m, s.node p = some (.dir m) ∧ s' = (s.emit (.chmod p mode)).set p (some (.dir mode))) := by
  unfold osChmod at h
  split at h
  · simp at h
  · split at h
    · simp at h
    · rename_i c m hn
      simp only [Prod.mk.injEq, true_and] at h
      exact Or.inl ⟨c, m, hn, h.symm⟩
    · rename_i m hn
      simp only [Prod.mk.injEq, true_and] at h
      exact Or.inr ⟨m, hn, h.symm⟩

theorem osRemove_ok {env : Env} {p : Path} {s s' : World} (h : osRemove env p s = (none, s')) :
    s' = (s.emit (.remove p)).set p none := by
  unfold osRemove at h
  split at h
  · simp at h
  · split at h
    · simp at h
    · split at h
      · simp at h
      · simp only [Prod.mk.injEq, true_and] at h
        exact h.symm
      · split at h
        · simp at h
        · simp only [Prod.mk.injEq, true_and] at h
          exact h.symm

theorem osReadFile_ok {env : Env} {p : Path} {c : Bytes} {s s' : World}
    (h : osReadFile env p s = (.ok c, s')) :
    s' = s.emit (.readFile p) ∧ ∃ m, s.node p = some (.file c m) := by
  unfold osReadFile at h
  split at h
  · simp at h
  · split at h
    · rename_i c0 m hn
      simp only [Prod.mk.injEq, Except.ok.injEq] at h
      exact ⟨h.2.symm, m, by rw [hn, h.1]⟩
    · simp at h
    · simp at h
theorem CopyFile_ok {env : Env} {src dst : Path} {s s' : World}
    (h : CopyFile env src dst s = (none, s')) (hne : src ≠ dst) (hs : src ≠ []) (hd : dst ≠ []) :
    ∃ c m, s.fs src = some (.file c m) ∧ s'.fs dst = some (.file c m) := by
  unfold CopyFile at h
  split at h
  · simp at h
  · rename_i s1 h1
    obtain ⟨e1, -⟩ := osOpen_ok h1
    split at h
    · simp at h
    · rename_i s2 h2
      obtain ⟨m0, e2⟩ := osCreate_ok h2
      split at h
      · simp at h
      · rename_i s3 h3
        obtain ⟨c, m, c0, m1, hsrc, hdst, e3⟩ := fileCopy_ok h3
        subst e1 e2
        simp [set_node, node_of_ne_nil, hs, hd, hne] at hsrc hdst
        obtain ⟨hc0, hm1⟩ := hdst
        subst hc0 hm1
        split at h
        · simp at h
        · rename_i c' m' s4 h4
          obtain ⟨e4, hst⟩ := osStat_ok h4
          subst e3 e4
          simp [set_node, node_of_ne_nil, hs, hd, hne, hsrc] at hst
          obtain ⟨-, hm⟩ := hst
          subst hm
          rcases osChmod_ok h with ⟨c2, m2, hn, e5⟩ | ⟨m2, hn, e5⟩
          · simp [set_node, node_of_ne_nil, hs, hd, hne] at hn
            refine ⟨c, m, hsrc, ?_⟩
            rw [e5]
            simp [hn.1]
          · simp [set_node, node_of_ne_nil, hs, hd, hne] at hn
        · rename_i m' s4 h4
          obtain ⟨e4, hst⟩ := osStat_ok h4
          subst e3 e4
          simp [set_node, node_of_ne_nil, hs, hd, hne, hsrc] at hst
theorem removeIfPresent_ok {env : Env} {dest : Path} {s s' : World}
    (h : (match osStat env dest s with
          | (.ok _, s2) => osRemove env dest s2
          | (.error _, s2) => (none, s2)) = (none, s')) :
    s' = s.emit (.stat dest) ∨ s' = ((s.emit (.stat dest)).emit (.remove dest)).set dest none := by
  split at h
  · rename_i hs
    have e1 := osStat_state hs
    subst e1
    exact Or.inr (osRemove_ok h)
  · rename_i hs
    have e1 := osStat_state hs
    simp only [Prod.mk.injEq, true_and] at h
    subst e1
    exact Or.inl h.symm

theorem copyAssetToDest_ok {env : Env} {k : Constants} {targetName : String} {dest : Path}
    {s s' : World} (h : copyAssetToDest env k targetName dest s = (none, s')) (hd : dest ≠ []) :
    ∃ asset c m m', findAsset (AddonsXSpot k).Assets targetName = some asset
      ∧ s.node (k.GuestXSpotDir ++ [asset.GetTargetName]) = some (.file c m)
      ∧ s'.fs dest = some (.file c m') := by
  unfold copyAssetToDest at h
  split at h
  · simp at h
  · rename_i asset hfind
    simp only at h
    split at h
    · simp at h
    · rename_i contents s1 h1
      obtain ⟨e1, m, hsrc⟩ := osReadFile_ok h1
      simp only [emit_node] at hsrc
      split at h
      · simp at h
      · rename_i s3 h3
        split at h
        · simp at h
        · rename_i s4 h4
          obtain ⟨m0, e4⟩ := osCreate_ok h4
          split at h
          · simp at h
          · rename_i s5 h5
            obtain ⟨c5, m5, hn5, e5⟩ := fileWrite_ok h5
            simp only [Prod.mk.injEq, true_and] at h
            subst h e5
            subst e4
            simp [set_node, hd] at hn5
            refine ⟨asset, contents, m, m5, by assumption, hsrc, ?_⟩
            simp [← hn5.1]

theorem findAsset_config (k : Constants) :
    findAsset (AddonsXSpot k).Assets k.XSpotConfigTomlTargetName =
      some (MustBinAsset "xspot/xspot-config.toml" k.GuestXSpotDir k.XSpotConfigTomlTargetName "0640") := by
  simp [findAsset, AddonsXSpot, NewAddon, MustBinAsset, BinAsset.GetTargetName]

theorem activePath_ne_backupPath : activePath ≠ backupPath := by decide

theorem activePath_ne_nil : activePath ≠ [] := by decide

theorem backupPath_ne_nil : backupPath ≠ [] := by decide

theorem copyConfigFiles_ok {env : Env} {k : Constants} {s s' : World}
    (h : copyConfigFiles env k s = (none, s')) :
    ∃ c m a ma m', s.fs activePath = some (.file c m) ∧ s'.fs backupPath = some (.file c m)
      ∧ s'.fs activePath = some (.file a m')
      ∧ s'.node (k.GuestXSpotDir ++ [k.XSpotConfigTomlTargetName]) = some (.file a ma) := by
  unfold copyConfigFiles at h
  simp only at h
  split at h
  · simp at h
  · rename_i s1 h1
    split at h
    · simp at h
    · rename_i s3 h3
      simp only [Prod.mk.injEq, true_and] at h
      subst h
      obtain ⟨c, m, hact, hbak⟩ := CopyFile_ok h1 activePath_ne_backupPath activePath_ne_nil backupPath_ne_nil
      obtain ⟨asset, a, ma, m', hfind, hsrc, hdst⟩ := copyAssetToDest_ok h3 activePath_ne_nil
      rw [findAsset_config] at hfind
      simp only [Option.some.injEq] at hfind
      subst hfind
      have w := copyAssetToDest_within h3
      have hb : s3.fs backupPath = some (.file c m) := by
        rw [w.fs (q := backupPath) (fun h => activePath_ne_backupPath h.symm)]
        simpa using hbak
      simp only [emit_fs] at hact
      simp only [emit_node, MustBinAsset, BinAsset.GetTargetName] at hsrc
      by_cases hq : k.GuestXSpotDir ++ [k.XSpotConfigTomlTargetName] = activePath
      · refine ⟨c, m, a, m', m', hact, hb, hdst, ?_⟩
        rw [hq, node_of_ne_nil _ activePath_ne_nil]
        exact hdst
      · refine ⟨c, m, a, ma, m', hact, hb, hdst, ?_⟩
        have hne : k.GuestXSpotDir ++ [k.XSpotConfigTomlTargetName] ≠ [] := by simp
        rw [node_of_ne_nil _ hne] at hsrc ⊢
        rw [w.fs (q := k.GuestXSpotDir ++ [k.XSpotConfigTomlTargetName]) hq]
        simpa using hsrc

theorem result_eq {α : Type} {x : α × World} {a : α} (h : x.1 = a) : x = (a, x.2) := by
  cases x; cases h; rfl

/-- Disable is its removal, then its copy back, then the restart. -/
theorem Disable_eq (env : Env) (s : World) :
    Disable env s =
      match (disableRemove env s).1 with
      | some e => (some (.wrap ("removing " ++ pathStr containerdConfigTomlPath) e), (disableRemove env s).2)
      | none =>
        match (disableCopyBack env s).1 with
        | some e => (some (.wrap "reverting back to default config.toml" e), (disableCopyBack env s).2)
        | none =>
          match restartContainerd env (disableCopyBack env s).2 with
          | (some e, s4) => (some (.wrap "restarting containerd" e), s4)
          | (none, s4) => (none, s4.emit (.log "Successfully disabled xspot")) := by
  unfold Disable disableCopyBack disableRemove
  simp only
  rcases h1 : osRemove env activePath (s.emit (.log "Disabling xspot...")) with ⟨r1, s1⟩
  cases r1 with
  | some e => rfl
  | none =>
    simp only
    rcases h2 : CopyFile env backupPath activePath
      (s1.emit (.log ("Restoring default config.toml at " ++ pathStr containerdConfigTomlPath))) with ⟨r2, s2⟩
    cases r2 <;> rfl

/-- The file tree Disable leaves once its copy back has succeeded. -/
theorem Disable_fs_of_restored (env : Env) (s : World) (h1 : (disableRemove env s).1 = none)
    (h2 : (disableCopyBack env s).1 = none) : (Disable env s).2.fs = (disableCopyBack env s).2.fs := by
  rw [Disable_eq, h1]
  simp only [h2]
  have w := within_of_eq (fun s s' r => @restartContainerd_within env s s' r) (disableCopyBack env s).2
  have hfs : (restartContainerd env (disableCopyBack env s).2).2.fs = (disableCopyBack env s).2.fs :=
    funext (fun q => w.fs (q := q) (fun h => h))
  rcases h : restartContainerd env (disableCopyBack env s).2 with ⟨r, s4⟩
  rw [h] at hfs
  cases r <;> simpa using hfs

theorem osRemove_failed {env : Env} {p : Path} {s s' : World} {e : Error}
    (h : osRemove env p s = (some e, s')) : s' = s.emit (.remove p) := by
  unfold osRemove at h
  split at h
  · simp only [Prod.mk.injEq] at h; exact h.2.symm
  · split at h
    · simp only [Prod.mk.injEq] at h; exact h.2.symm
    · split at h
      · simp only [Prod.mk.injEq] at h; exact h.2.symm
      · simp at h
      · split at h
        · simp only [Prod.mk.injEq] at h; exact h.2.symm
        · simp at h

/-- Copying from a source that does not exist fails at `os.Open`, before the
destination is created. -/
theorem CopyFile_of_missing (env : Env) (src dst : Path) (s : World) (h : s.node src = none) :
    ∃ e, CopyFile env src dst s = (some e, s.emit (.openRead src)) := by
  unfold CopyFile osOpen
  simp only [h]
  cases env.fault s.tick <;> simp

theorem copyFileEv_kind {src dst : Path} {e : Event} (h : copyFileEv src dst e = true) :
    e.isExec = false := by
  cases e <;> simp_all [copyFileEv, Event.isExec]

theorem disableRemove_within (env : Env) (s : World) :
    Within (fun e => e.isExec = false) (fun q => q = activePath) s (disableRemove env s).2 :=
  (Within.emit (P := fun e => e.isExec = false) _ s (e := .log "Disabling xspot...") rfl).trans
    (osRemove_within (r := (disableRemove env s).1) rfl rfl rfl)

theorem disableCopyBack_within (env : Env) (s : World) :
    Within (fun e => e.isExec = false) (fun q => q = activePath) s (disableCopyBack env s).2 :=
  ((disableRemove_within env s).trans
    (Within.emit (P := fun e => e.isExec = false) _ _
      (e := .log ("Restoring default config.toml at " ++ pathStr containerdConfigTomlPath)) rfl)).trans
    ((CopyFile_within (r := (disableCopyBack env s).1) rfl).mono (fun _ h => copyFileEv_kind h)
      (fun _ h => h))

theorem osOpen_state {env : Env} {p : Path} {s s' : World} {r : Option Error}
    (h : osOpen env p s = (r, s')) : s' = s.emit (.openRead p) := by
  unfold osOpen at h
  split at h
  · simp only [Prod.mk.injEq] at h; exact h.2.symm
  · split at h <;> (simp only [Prod.mk.injEq] at h; exact h.2.symm)

/-- Every operation of `CopyFile` follows its `os.Open` of the source. -/
theorem CopyFile_after_open {env : Env} {src dst : Path} {s s' : World} {r : Option Error}
    (h : CopyFile env src dst s = (r, s')) :
    Within (fun e => copyFileEv src dst e = true) (fun q => q = dst) (s.emit (.openRead src)) s' := by
  unfold CopyFile at h
  split at h
  · rename_i h1; cases h; rw [osOpen_state h1]; exact Within.refl _ _ _
  · rename_i h1
    have e1 := osOpen_state h1
    subst e1
    have w1 := Within.refl (fun e => copyFileEv src dst e = true) (fun q => q = dst)
      (s.emit (.openRead src))
    split at h
    · rename_i h2; cases h; exact w1.trans (osCreate_within h2 (by simp [copyFileEv]) rfl)
    · rename_i h2
      have w2 := w1.trans (osCreate_within h2 (by simp [copyFileEv]) rfl)
      split at h
      · rename_i h3; cases h
        exact w2.trans (fileCopy_within h3 (by simp [copyFileEv]) rfl)
      · rename_i h3
        have w3 := w2.trans (fileCopy_within h3 (by simp [copyFileEv]) rfl)
        split at h
        · rename_i h4; cases h; exact w3.trans (osStat_within h4 (by simp [copyFileEv]))
        · rename_i h4
          exact (w3.trans (osStat_within h4 (by simp [copyFileEv]))).trans
            (osChmod_within h (by simp [copyFileEv]) rfl)
        · rename_i h4
          exact (w3.trans (osStat_within h4 (by simp [copyFileEv]))).trans
            (osChmod_within h (by simp [copyFileEv]) rfl)

/-- The function copyConfigFiles is its backup copy followed, on success, by the
installation of the asset. -/
theorem copyConfigFiles_eq (env : Env) (k : Constants) (s : World) :
    copyConfigFiles env k s =
      match (configBackup env s).1 with
      | some e => (some (.wrap "copying default config.toml" e), (configBackup env s).2)
      | none =>
        match copyAssetToDest env k k.XSpotConfigTomlTargetName activePath
          ((configBackup env s).2.emit
            (.log ("Copying " ++ k.XSpotConfigTomlTargetName ++ " asset to " ++ pathStr activePath))) with
        | (some e, s3) => (some (.wrap "copying xspot version of config.toml" e), s3)
        | (none, s3) => (none, s3) := by
  unfold copyConfigFiles configBackup
  simp only
  rcases h1 : CopyFile env activePath backupPath
    (s.emit (.log ("Storing default config.toml at " ++ pathStr storedContainerdConfigTomlPath))) with ⟨r1, s1⟩
  cases r1 <;> rfl

/-- After the backup copy only the asset installation runs: it never touches
the backup path. -/
theorem copyConfigFiles_after_backup (env : Env) (k : Constants) (s : World) :
    Within (fun e => e = .log ("Copying " ++ k.XSpotConfigTomlTargetName ++ " asset to " ++ pathStr activePath)
        ∨ assetEv activePath e = true) (fun q => q = activePath)
      (configBackup env s).2 (copyConfigFiles env k s).2 := by
  rw [copyConfigFiles_eq]
  rcases h1 : (configBackup env s).1 with _ | e
  · simp only
    have w := (Within.emit (P := fun e => e = .log ("Copying " ++ k.XSpotConfigTomlTargetName ++
        " asset to " ++ pathStr activePath) ∨ assetEv activePath e = true) (fun q => q = activePath)
        (configBackup env s).2 (Or.inl rfl)).trans
      ((within_of_eq (fun s s' r => @copyAssetToDest_within env k k.XSpotConfigTomlTargetName activePath s s' r)
        _).mono (fun _ h => Or.inr h) (fun _ h => h))
    rcases h2 : copyAssetToDest env k k.XSpotConfigTomlTargetName activePath
      ((configBackup env s).2.emit
        (.log ("Copying " ++ k.XSpotConfigTomlTargetName ++ " asset to " ++ pathStr activePath))) with ⟨r2, s2⟩
    rw [h2] at w
    cases r2 <;> exact w
  · exact Within.refl _ _ _

theorem copyFileEv_mutates {src dst q : Path} {e : Event} (h : copyFileEv src dst e = true)
    (hm : e.mutates q = true) : q = dst := by
  cases e <;> simp_all [copyFileEv, Event.mutates]

/-- The backup copy attempts a log line, the `os.Open` of the active file, and
then only operations that leave the active path alone. -/
theorem configBackup_trace (env : Env) (s : World) :
    ∃ es, (configBackup env s).2.trace = s.trace ++
        (.log ("Storing default config.toml at " ++ pathStr storedContainerdConfigTomlPath)
          :: .openRead activePath :: es)
      ∧ ∀ e ∈ es, e.mutates activePath = false := by
  have w := @CopyFile_after_open env activePath backupPath
    (s.emit (.log ("Storing default config.toml at " ++ pathStr storedContainerdConfigTomlPath)))
    (configBackup env s).2 (configBackup env s).1 rfl
  obtain ⟨⟨es, ht, hp⟩, -⟩ := w
  refine ⟨es, by simpa using ht, fun e he => ?_⟩
  cases hm : e.mutates activePath with
  | false => rfl
  | true => exact absurd (copyFileEv_mutates (hp e he) hm) activePath_ne_backupPath

theorem since_of_trace {s s' : World} {es : List Event} (h : s'.trace = s.trace ++ es) :
    s'.since s = es := by
  unfold World.since
  rw [h, List.drop_left]

theorem configBackup_fs_active (env : Env) (s : World) :
    (configBackup env s).2.fs activePath = s.fs activePath := by
  have w := @CopyFile_within env activePath backupPath
    (s.emit (.log ("Storing default config.toml at " ++ pathStr storedContainerdConfigTomlPath)))
    (configBackup env s).2 (configBackup env s).1 rfl
  simpa using w.fs (q := activePath) activePath_ne_backupPath

theorem configBackup_since (env : Env) (s : World) :
    ∀ ev ∈ (configBackup env s).2.since s, ev.mutates activePath = false := by
  obtain ⟨es, ht, hp⟩ := configBackup_trace env s
  rw [since_of_trace ht]
  intro ev hev
  simp only [List.mem_cons] at hev
  rcases hev with h | h | h
  · subst h; rfl
  · subst h; rfl
  · exact hp ev h

/-- A run of Enable that reaches its blocking state went through its four
steps without error, and holds the file tree that copyConfigFiles left. -/
theorem Enable_running (env : Env) (k : Constants) (s : World) (h : (Enable env k s).1 = .running) :
    (makeXSpotDirs env s).1 = none
    ∧ (downloadBinaries env (makeXSpotDirs env s).2).1 = none
    ∧ (copyConfigFiles env k (downloadBinaries env (makeXSpotDirs env s).2).2).1 = none
    ∧ (restartContainerd env
        (copyConfigFiles env k (downloadBinaries env (makeXSpotDirs env s).2).2).2).1 = none
    ∧ (Enable env k s).2.fs =
        (copyConfigFiles env k (downloadBinaries env (makeXSpotDirs env s).2).2).2.fs := by
  have wD := within_of_eq (fun s s' r => @restartContainerd_within env s s' r)
    (copyConfigFiles env k (downloadBinaries env (makeXSpotDirs env s).2).2).2
  unfold Enable at h ⊢
  rcases hA : makeXSpotDirs env s with ⟨rA, sA⟩
  rw [hA] at h wD
  cases rA with
  | some e => simp at h
  | none =>
    simp only at h wD ⊢
    rcases hB : downloadBinaries env sA with ⟨rB, sB⟩
    rw [hB] at h wD
    cases rB with
    | some e => simp at h
    | none =>
      simp only at h wD ⊢
      rcases hC : copyConfigFiles env k sB with ⟨rC, sC⟩
      rw [hC] at h wD
      cases rC with
      | some e => simp at h
      | none =>
        simp only at h wD ⊢
        rcases hD : restartContainerd env sC with ⟨rD, sD⟩
        rw [hD] at h wD
        cases rD with
        | some e => simp at h
        | none =>
          simp only [emit_fs, true_and]
          exact funext (fun q => wD.fs (q := q) (fun h => h))

theorem restartContainerd_stop_failed (env : Env) (s : World) (c : Nat)
    (h : (stopOutcome env s).2 = some c) :
    restartContainerd env s = (some (.wrap "stopping rpc-statd.service" (.errno c)),
      { s with trace := s.trace ++ [.log "restartContainerd black magic happening",
          .log "Stopping rpc-statd.service...", .exec stopStatd, .stdoutBytes (stopOutcome env s).1] }) := by
  unfold stopOutcome at h ⊢
  rcases h1 : env.exec (s.trace.length + 2) stopStatd with ⟨o1, r1⟩
  rw [h1] at h
  simp only at h
  subst h
  simp [restartContainerd, combinedOutput, World.tick, World.emit, h1]

theorem restartContainerd_restart_failed (env : Env) (s : World) (c : Nat)
    (h1 : (stopOutcome env s).2 = none) (h : (restartOutcome env s).2 = some c) :
    restartContainerd env s = (some (.wrap "restarting containerd" (.errno c)),
      { s with trace := s.trace ++ [.log "restartContainerd black magic happening",
          .log "Stopping rpc-statd.service...", .exec stopStatd, .log "Restarting containerd...",
          .exec restartCtrd, .logBytes (restartOutcome env s).1] }) := by
  unfold stopOutcome at h1
  unfold restartOutcome at h ⊢
  rcases e1 : env.exec (s.trace.length + 2) stopStatd with ⟨o1, r1⟩
  rw [e1] at h1
  simp only at h1
  subst h1
  rcases e2 : env.exec (s.trace.length + 4) restartCtrd with ⟨o2, r2⟩
  rw [e2] at h
  simp only at h
  subst h
  simp [restartContainerd, combinedOutput, World.tick, World.emit, e1, e2]

theorem restartContainerd_start_failed (env : Env) (s : World) (c : Nat)
    (h1 : (stopOutcome env s).2 = none) (h2 : (restartOutcome env s).2 = none)
    (h : (startOutcome env s).2 = some c) :
    restartContainerd env s = (some (.wrap "restarting rpc-statd.service" (.errno c)),
      { s with trace := s.trace ++ [.log "restartContainerd black magic happening",
          .log "Stopping rpc-statd.service...", .exec stopStatd, .log "Restarting containerd...",
          .exec restartCtrd, .log "Starting rpc-statd...", .exec startStatd,
          .logBytes (startOutcome env s).1] }) := by
  unfold stopOutcome at h1
  unfold restartOutcome at h2
  unfold startOutcome at h ⊢
  rcases e1 : env.exec (s.trace.length + 2) stopStatd with ⟨o1, r1⟩
  rw [e1] at h1
  simp only at h1
  subst h1
  rcases e2 : env.exec (s.trace.length + 4) restartCtrd with ⟨o2, r2⟩
  rw [e2] at h2
  simp only at h2
  subst h2
  rcases e3 : env.exec (s.trace.length + 6) startStatd with ⟨o3, r3⟩
  rw [e3] at h
  simp only at h
  subst h
  simp [restartContainerd, combinedOutput, World.tick, World.emit, e1, e2, e3]

theorem restartContainerd_all_ok (env : Env) (s : World)
    (h1 : (stopOutcome env s).2 = none) (h2 : (restartOutcome env s).2 = none)
    (h3 : (startOutcome env s).2 = none) :
    restartContainerd env s = (none,
      { s with trace := s.trace ++ [.log "restartContainerd black magic happening",
          .log "Stopping rpc-statd.service...", .exec stopStatd, .log "Restarting containerd...",
          .exec restartCtrd, .log "Starting rpc-statd...", .exec startStatd,
          .log "containerd restart complete"] }) := by
  unfold stopOutcome at h1
  unfold restartOutcome at h2
  unfold startOutcome at h3
  rcases e1 : env.exec (s.trace.length + 2) stopStatd with ⟨o1, r1⟩
  rw [e1] at h1
  simp only at h1
  subst h1
  rcases e2 : env.exec (s.trace.length + 4) restartCtrd with ⟨o2, r2⟩
  rw [e2] at h2
  simp only at h2
  subst h2
  rcases e3 : env.exec (s.trace.length + 6) startStatd with ⟨o3, r3⟩
  rw [e3] at h3
  simp only at h3
  subst h3
  simp [restartContainerd, combinedOutput, World.tick, World.emit, e1, e2, e3]

/-! ## The signal path -/

theorem execsOf_append (a b : List Event) : execsOf (a ++ b) = execsOf a ++ execsOf b := by
  simp [execsOf, List.filterMap_append]

theorem execsOf_of_no_exec {es : List Event} (h : ∀ e ∈ es, e.isExec = false) : execsOf es = [] := by
  induction es with
  | nil => rfl
  | cons e es ih =>
    have he := h e (List.mem_cons_self _ _)
    have ih' := ih (fun x hx => h x (List.mem_cons_of_mem _ hx))
    cases e <;> simp_all [execsOf, Event.isExec]

theorem since_append {s s1 s2 : World} {a b : List Event} (h1 : s1.trace = s.trace ++ a)
    (h2 : s2.trace = s1.trace ++ b) : s2.since s = s1.since s ++ s2.since s1 := by
  rw [since_of_trace h1, since_of_trace h2,
    since_of_trace (show s2.trace = s.trace ++ (a ++ b) by rw [h2, h1, List.append_assoc])]

/-- The commands restartContainerd runs are the first `n` of the plan, `n ≥ 1`. -/
theorem restart_execs (env : Env) (s : World) :
    ∃ n, 1 ≤ n ∧ n ≤ 3 ∧ execsOf ((restartContainerd env s).2.since s) = restartPlan.take n := by
  rcases h1 : (stopOutcome env s).2 with _ | c
  · rcases h2 : (restartOutcome env s).2 with _ | c
    · rcases h3 : (startOutcome env s).2 with _ | c
      · refine ⟨3, by omega, by omega, ?_⟩
        rw [restartContainerd_all_ok env s h1 h2 h3]
        simp [World.since, execsOf, restartPlan]
      · refine ⟨3, by omega, by omega, ?_⟩
        rw [restartContainerd_start_failed env s c h1 h2 h3]
        simp [World.since, execsOf, restartPlan]
    · refine ⟨2, by omega, by omega, ?_⟩
      rw [restartContainerd_restart_failed env s c h1 h2]
      simp [World.since, execsOf, restartPlan]
  · refine ⟨1, by omega, by omega, ?_⟩
    rw [restartContainerd_stop_failed env s c h1]
    simp [World.since, execsOf, restartPlan]

theorem disableRemove_trace (env : Env) (s : World) :
    (disableRemove env s).2.trace = s.trace ++ [.log "Disabling xspot...", .remove activePath] := by
  unfold disableRemove osRemove
  simp only
  split
  · simp
  · split
    · simp
    · split
      · simp
      · simp
      · split <;> simp

theorem copyFileEv_not_remove {src dst : Path} {e : Event} (h : copyFileEv src dst e = true) :
    e ≠ .remove activePath := by
  cases e <;> simp_all [copyFileEv]

theorem restartEv_not_remove {e : Event} (h : restartEv e = true) : e ≠ .remove activePath := by
  cases e <;> simp_all [restartEv]

/-- After its removal step, the copy back of Disable attempts no command and no
further removal. -/
theorem disableCopyBack_after_remove (env : Env) (s : World) :
    Within (fun e => e.isExec = false ∧ e ≠ .remove activePath) (fun q => q = activePath)
      (disableRemove env s).2 (disableCopyBack env s).2 :=
  (Within.emit (P := fun e => e.isExec = false ∧ e ≠ .remove activePath) _ _
      (e := .log ("Restoring default config.toml at " ++ pathStr containerdConfigTomlPath))
      ⟨rfl, by simp⟩).trans
    ((CopyFile_within (r := (disableCopyBack env s).1) rfl).mono
      (fun _ h => ⟨copyFileEv_kind h, copyFileEv_not_remove h⟩) (fun _ h => h))

theorem disableCopyBack_trace (env : Env) (s : World) :
    ∃ es, (disableCopyBack env s).2.trace =
        s.trace ++ (.log "Disabling xspot..." :: .remove activePath :: es)
      ∧ ∀ e ∈ es, e.isExec = false ∧ e ≠ .remove activePath := by
  obtain ⟨⟨es, ht, hp⟩, -⟩ := disableCopyBack_after_remove env s
  refine ⟨es, ?_, hp⟩
  rw [ht, disableRemove_trace]
  simp

/-- When the restore part fails, Disable stops in the world that part left. -/
theorem Disable_of_restore_failed (env : Env) (s : World)
    (h : ¬ ((disableRemove env s).1 = none ∧ (disableCopyBack env s).1 = none)) :
    ∃ e es, (Disable env s).1 = some e
      ∧ (Disable env s).2.trace = s.trace ++ (.log "Disabling xspot..." :: .remove activePath :: es)
      ∧ ∀ ev ∈ es, ev.isExec = false ∧ ev ≠ .remove activePath := by
  rw [Disable_eq]
  rcases h1 : (disableRemove env s).1 with _ | e1
  · rcases h2 : (disableCopyBack env s).1 with _ | e2
    · exact absurd ⟨h1, h2⟩ h
    · obtain ⟨es, ht, hp⟩ := disableCopyBack_trace env s
      exact ⟨_, es, rfl, ht, hp⟩
  · exact ⟨_, [], rfl, disableRemove_trace env s, by simp⟩

/-- When the restore part succeeds, what Disable attempts after it is what
restartContainerd attempts, and at most a closing log line. -/
theorem Disable_of_restored (env : Env) (s : World)
    (h1 : (disableRemove env s).1 = none) (h2 : (disableCopyBack env s).1 = none) :
    ∃ tail, (Disable env s).2.trace = (disableCopyBack env s).2.trace ++ tail
      ∧ (∀ ev ∈ tail, restartEv ev = true)
      ∧ execsOf tail =
          execsOf ((restartContainerd env (disableCopyBack env s).2).2.since (disableCopyBack env s).2)
      ∧ (Disable env s).1 = ((restartContainerd env (disableCopyBack env s).2).1).map
          (Error.wrap "restarting containerd") := by
  have w := within_of_eq (fun s s' r => @restartContainerd_within env s s' r) (disableCopyBack env s).2
  obtain ⟨⟨es, ht, hp⟩, -⟩ := w
  have hs := since_of_trace ht
  rw [Disable_eq, h1]
  simp only [h2]
  rcases hr : restartContainerd env (disableCopyBack env s).2 with ⟨r, s4⟩
  rw [hr] at ht hs
  simp only at ht hs
  cases r with
  | some e => exact ⟨es, ht, hp, by rw [hs], rfl⟩
  | none =>
    refine ⟨es ++ [.log "Successfully disabled xspot"], ?_, ?_, ?_, rfl⟩
    · simp [ht]
    · intro ev hev
      rcases List.mem_append.mp hev with h | h
      · exact hp ev h
      · simp only [List.mem_singleton] at h; subst h; rfl
    · rw [execsOf_append, hs]
      simp [execsOf]

theorem signalHandler_trace (env : Env) (s : World) :
    ∃ tail, (signalHandler env s).2.trace = (Disable env s).2.trace ++ tail
      ∧ (∀ ev ∈ tail, restartEv ev = true ∧ ev.isExec = false ∧ ev ≠ .remove activePath)
      ∧ ((signalHandler env s).1 = if (Disable env s).1 = none then 0 else 1) := by
  unfold signalHandler
  rcases h : Disable env s with ⟨r, s1⟩
  cases r with
  | none => exact ⟨[], by simp, by simp, by simp⟩
  | some e => exact ⟨[_], rfl, by simp [restartEv, Event.isExec], by simp⟩

/-- A successful restore part puts the backup file at the active path. -/
theorem restore_puts_backup (env : Env) (s : World) (c : Bytes) (m : Nat)
    (hb : s.fs backupPath = some (.file c m))
    (hR : (disableRemove env s).1 = none) (hC : (disableCopyBack env s).1 = none) :
    (disableCopyBack env s).2.fs activePath = some (.file c m) := by
  have hrm : (disableRemove env s).2 =
      ((s.emit (.log "Disabling xspot...")).emit (.remove activePath)).set activePath none :=
    osRemove_ok (result_eq hR)
  have hcp : CopyFile env backupPath activePath
      ((disableRemove env s).2.emit
        (.log ("Restoring default config.toml at " ++ pathStr containerdConfigTomlPath))) =
      (none, (disableCopyBack env s).2) := result_eq hC
  obtain ⟨c', m', hb', ha'⟩ := CopyFile_ok hcp (fun h => activePath_ne_backupPath h.symm)
    backupPath_ne_nil activePath_ne_nil
  rw [hrm] at hb'
  simp [fun h : backupPath = activePath => activePath_ne_backupPath h.symm, hb] at hb'
  rw [ha', ← hb'.2.1, ← hb'.2.2]

/-- A Disable that returns nil went through its restore part without error. -/
theorem Disable_ok_restored (env : Env) (s : World) (h : (Disable env s).1 = none) :
    (disableRemove env s).1 = none ∧ (disableCopyBack env s).1 = none := by
  rw [Disable_eq] at h
  rcases h1 : (disableRemove env s).1 with _ | e1
  · rcases h2 : (disableCopyBack env s).1 with _ | e2
    · exact ⟨rfl, rfl⟩
    · rw [h1] at h; simp [h2] at h
  · rw [h1] at h; simp at h

/-! ## Binary fetch -/

theorem httpDo_ok {env : Env} {url ua : String} {s s' : World} {resp : Response}
    (h : httpDo env url ua s = (.ok resp, s')) :
    env.http s.tick url = .ok resp ∧ s' = s.emit (.httpGet url ua) := by
  unfold httpDo at h
  split at h
  · simp at h
  · rename_i r hr
    simp only [Prod.mk.injEq, Except.ok.injEq] at h
    exact ⟨by rw [hr, h.1], h.2.symm⟩

/-- The block "if something is at `dest`, remove it", when it does not fail:
either the stat failed and nothing was removed, or the node was removed. -/
theorem removeIfPresent_cases {env : Env} {dest : Path} {s s' : World}
    (h : (match osStat env dest s with
          | (.ok _, s2) => osRemove env dest s2
          | (.error _, s2) => (none, s2)) = (none, s')) :
    ((s.node dest = none ∨ env.fault s.tick ≠ none) ∧ s' = s.emit (.stat dest))
    ∨ s' = ((s.emit (.stat dest)).emit (.remove dest)).set dest none := by
  split at h
  · rename_i hs
    have e1 := osStat_state hs
    subst e1
    exact Or.inr (osRemove_ok h)
  · rename_i e s2 hs
    have e1 := osStat_state hs
    simp only [Prod.mk.injEq, true_and] at h
    subst e1
    refine Or.inl ⟨?_, h.symm⟩
    unfold osStat at hs
    split at hs
    · rename_i c hc; right; rw [hc]; simp
    · split at hs
      · rename_i hn; left; exact hn
      · simp at hs

theorem downloadFileToDest_ok {env : Env} {url : String} {dest : Path} {s s' : World}
    (h : downloadFileToDest env url dest s = (none, s')) :
    ∃ resp, env.http s.tick url = .ok resp
      ∧ s'.fs dest = some (.file resp.body 0o777)
      ∧ (s'.since s = [.httpGet url "minikube", .stat dest, .remove dest, .create dest,
            .write dest resp.body, .chmod dest 0o777]
          ∨ ((s.node dest = none ∨ env.fault (s.tick + 1) ≠ none)
            ∧ s'.since s = [.httpGet url "minikube", .stat dest, .create dest,
                .write dest resp.body, .chmod dest 0o777])) := by
  unfold downloadFileToDest at h
  split at h
  · simp at h
  · split at h
    · simp at h
    · rename_i resp s1 h1
      obtain ⟨hresp, e1⟩ := httpDo_ok h1
      simp only at h
      split at h
      · simp at h
      · rename_i s3 h3
        split at h
        · simp at h
        · rename_i s4 h4
          obtain ⟨m0, e4⟩ := osCreate_ok h4
          split at h
          · simp at h
          · rename_i s5 h5
            obtain ⟨c5, m5, hn5, e5⟩ := fileWrite_ok h5
            have hd : dest ≠ [] := by
              intro hnil
              subst hnil
              simp [World.node] at hn5
            split at h
            · simp at h
            · rename_i s6 h6
              simp only [Prod.mk.injEq, true_and] at h
              subst h
              subst e4
              simp [set_node, hd] at hn5
              obtain ⟨hc5, hm5⟩ := hn5
              subst hc5 hm5
              subst e5
              rcases osChmod_ok h6 with ⟨c6, m6, hn6, e6⟩ | ⟨m6, hn6, e6⟩
              · simp [set_node, hd] at hn6
                refine ⟨resp, hresp, ?_, ?_⟩
                · rw [e6]; simp [hn6.1]
                · rcases removeIfPresent_cases h3 with ⟨hcase, e3⟩ | e3
                  · right
                    subst e1
                    refine ⟨by simpa [World.tick] using hcase, ?_⟩
                    apply since_of_trace
                    rw [e6, e3]
                    simp
                  · left
                    apply since_of_trace
                    rw [e6, e3, e1]
                    simp
              · simp [set_node, hd] at hn6

/-! ## Maps -/

theorem GoMap.get_filter_ne {β : Type} (m : GoMap β) (k k' : String) :
    GoMap.get (m.filter (fun e => e.1 ≠ k)) k' = if k' = k then none else GoMap.get m k' := by
  induction m with
  | nil => simp [GoMap.get]
  | cons e rest ih =>
    obtain ⟨k0, v0⟩ := e
    by_cases h0 : k0 = k
    · subst h0
      simp only [List.filter, ne_eq, not_true_eq_false, decide_False, ih, GoMap.get]
      by_cases hk : k' = k0
      · simp [hk]
      · have hk' : ¬ k0 = k' := fun h => hk h.symm
        simp [hk, hk']
    · simp only [List.filter, ne_eq, h0, not_false_eq_true, decide_True, GoMap.get, ih]
      by_cases hk : k' = k
      · subst hk; simp [h0]
      · simp [hk]

theorem GoMap.get_set {β : Type} (m : GoMap β) (k : String) (v : β) (k' : String) :
    (m.set k v).get k' = if k' = k then some v else m.get k' := by
  unfold GoMap.set
  simp only [GoMap.get, GoMap.get_filter_ne]
  by_cases hk : k' = k
  · subst hk; simp
  · have hk' : ¬ k = k' := fun h => hk h.symm
    simp [hk, hk']

theorem GoMap.get_eq_none {β : Type} (m : GoMap β) (k : String) :
    m.get k = none ↔ k ∉ m.keys := by
  induction m with
  | nil => simp [GoMap.get, GoMap.keys]
  | cons e rest ih =>
    obtain ⟨k0, v0⟩ := e
    simp only [GoMap.get, GoMap.keys, List.map_cons, List.mem_cons, not_or]
    by_cases h : k0 = k
    · subst h; simp
    · have h' : ¬ k = k0 := fun e => h e.symm
      simp only [h, if_false]
      rw [ih]
      simp [GoMap.keys, h']

theorem GoMap.mem_keys {β : Type} (m : GoMap β) (k : String) :
    k ∈ m.keys ↔ ∃ v, m.get k = some v := by
  rw [← not_iff_not, ← GoMap.get_eq_none]
  cases m.get k <;> simp

theorem GoMap.set_wf {β : Type} (m : GoMap β) (k : String) (v : β) (h : m.WF) : (m.set k v).WF := by
  unfold GoMap.WF GoMap.keys GoMap.set at *
  simp only [List.map_cons, List.nodup_cons, List.mem_map, List.mem_filter, not_exists, not_and]
  refine ⟨?_, ?_⟩
  · rintro ⟨k1, v1⟩ ⟨-, hne⟩ heq
    simp at hne heq
    exact hne heq
  · exact (h.sublist (List.Sublist.map _ (List.filter_sublist _)))

theorem GoMap.wf_tail {β : Type} {e : String × β} {rest : GoMap β}
    (h : GoMap.WF (e :: rest)) : e.1 ∉ GoMap.keys rest ∧ GoMap.WF rest := by
  unfold GoMap.WF GoMap.keys at *
  simpa using h

/-- The loop `for name, value := range l { result[name] = value }`. -/
theorem foldl_set_get (l : GoMap String) (hl : l.WF) :
    ∀ (r : GoMap String) (k : String),
      (l.foldl (fun result e => result.set e.1 e.2) r).get k =
        match l.get k with
        | some v => some v
        | none => r.get k := by
  induction l with
  | nil => intro r k; simp [GoMap.get]
  | cons e rest ih =>
    intro r k
    obtain ⟨hnot, hrest⟩ := GoMap.wf_tail hl
    obtain ⟨k0, v0⟩ := e
    simp only [List.foldl_cons, ih hrest, GoMap.get, GoMap.get_set]
    by_cases hk : k0 = k
    · subst hk
      rw [(GoMap.get_eq_none rest k0).mpr hnot]
      simp
    · have hk' : ¬ k = k0 := fun h => hk h.symm
      simp only [hk, hk', if_false]
      rw [GoMap.get_filter_ne]
      simp only [hk', if_false]

theorem foldl_set_wf (l : GoMap String) :
    ∀ r : GoMap String, r.WF → (l.foldl (fun result e => result.set e.1 e.2) r).WF := by
  induction l with
  | nil => intro r hr; exact hr
  | cons e rest ih =>
    intro r hr
    exact ih _ (GoMap.set_wf r e.1 e.2 hr)

theorem GoMap.wf_nil {β : Type} : GoMap.WF ([] : GoMap β) := by
  simp [GoMap.WF, GoMap.keys]

theorem mergeMaps_get (s o : GoMap String) (hs : s.WF) (ho : o.WF) (k : String) :
    (mergeMaps s o).get k =
      match o.get k with
      | some v => some v
      | none => s.get k := by
  unfold mergeMaps
  rw [foldl_set_get o ho, foldl_set_get s hs]
  cases o.get k <;> cases s.get k <;> simp [GoMap.get]

theorem mergeMaps_wf (s o : GoMap String) : (mergeMaps s o).WF :=
  foldl_set_wf o _ (foldl_set_wf s _ GoMap.wf_nil)

/-- The loop of `filterKeySpace`, from any starting map. -/
theorem filterLoop_get (t : GoMap String) (l : GoMap String) :
    ∀ (r : GoMap String) (k : String),
      (l.foldl (fun result e =>
          match t.get e.1 with
          | some value => result.set e.1 value
          | none => result) r).get k =
        if k ∈ l.keys then
          (match t.get k with
           | some v => some v
           | none => r.get k)
        else r.get k := by
  induction l with
  | nil => intro r k; simp [GoMap.keys]
  | cons e rest ih =>
    intro r k
    obtain ⟨k0, v0⟩ := e
    simp only [List.foldl_cons, ih, GoMap.keys, List.map_cons, List.mem_cons]
    by_cases hk : k = k0
    · subst hk
      cases ht : t.get k <;> simp [GoMap.get_set]
    · simp only [hk, false_or]
      cases ht0 : t.get k0 <;> simp [GoMap.get_set, hk]

theorem filterLoop_wf (t : GoMap String) (l : GoMap String) :
    ∀ r : GoMap String, r.WF →
      (l.foldl (fun result e =>
          match t.get e.1 with
          | some value => result.set e.1 value
          | none => result) r).WF := by
  induction l with
  | nil => intro r hr; exact hr
  | cons e rest ih =>
    intro r hr
    simp only [List.foldl_cons]
    apply ih
    cases t.get e.1 with
    | none => exact hr
    | some v => exact GoMap.set_wf r e.1 v hr

theorem filterKeySpace_get (ks t : GoMap String) (k : String) :
    (filterKeySpace ks t).get k = if k ∈ ks.keys then t.get k else none := by
  unfold filterKeySpace
  rw [filterLoop_get]
  by_cases hk : k ∈ ks.keys
  · simp only [hk, if_true]
    cases t.get k <;> simp [GoMap.get]
  · simp [hk, GoMap.get]

theorem filterKeySpace_wf (ks t : GoMap String) : (filterKeySpace ks t).WF :=
  filterLoop_wf t ks [] GoMap.wf_nil

/-! ## Splitting -/

/-- Splitting at `c`: the text before the first `c`, then the split of the
text after it; a list without `c` is one piece. -/
theorem splitOn_decomp (c : Char) (l : List Char) :
    l.splitOn c =
      if c ∈ l then
        l.takeWhile (fun x => x != c) :: ((l.dropWhile (fun x => x != c)).tail).splitOn c
      else [l] := by
  induction l with
  | nil => simp
  | cons x xs ih =>
    unfold List.splitOn at ih ⊢
    rw [List.splitOnP_cons]
    by_cases hx : x = c
    · subst hx
      simp [List.takeWhile, List.dropWhile]
    · have hx' : ¬ c = x := fun h => hx h.symm
      have hb : (x == c) = false := by simpa using hx
      rw [if_neg (by simp [hb]), ih]
      have hn : (x != c) = true := by simp [hx]
      by_cases hc : c ∈ xs
      · simp [hc, hx', List.takeWhile_cons, List.dropWhile_cons, hn, List.modifyHead]
      · simp [hc, hx', List.modifyHead]

theorem splitOn_ne_nil (c : Char) (l : List Char) : l.splitOn c ≠ [] :=
  List.splitOnP_ne_nil _ _

theorem count_decomp (c : Char) (l : List Char) (h : c ∈ l) :
    l.count c = 1 + ((l.dropWhile (fun x => x != c)).tail).count c := by
  induction l with
  | nil => simp at h
  | cons x xs ih =>
    by_cases hx : x = c
    · subst hx
      simp [List.dropWhile]
      omega
    · have hc : c ∈ xs := by
        rcases List.mem_cons.mp h with h | h
        · exact absurd h.symm hx
        · exact h
      have hb : (x != c) = true := by simpa using hx
      simp [List.dropWhile, hb, List.count_cons, hx, ih hc]

/-- The code's test `len(vals) == 2` on the split at `=` selects exactly the
pieces with one `=`, and its two values are the texts around it. -/
theorem split_eq_binding (piece : String) (m : GoMap String) :
    (match Split piece '=' with
      | [key, value] => m.set key value
      | _ => m) =
    (match bindingOf piece with
      | some kv => m.set kv.1 kv.2
      | none => m) := by
  unfold Split bindingOf
  rw [splitOn_decomp]
  by_cases h : '=' ∈ piece.data
  · rw [if_pos h, count_decomp _ _ h, splitOn_decomp]
    by_cases h2 : '=' ∈ (piece.data.dropWhile (fun x => x != '=')).tail
    · rw [if_pos h2]
      have hpos : 0 < ((piece.data.dropWhile (fun x => x != '=')).tail).count '=' :=
        List.count_pos_iff.mpr h2
      have hne : ¬ (1 + ((piece.data.dropWhile (fun x => x != '=')).tail).count '=' = 1) := by omega
      rw [if_neg hne]
      rcases hs : (((piece.data.dropWhile (fun x => x != '=')).tail.dropWhile
          (fun x => x != '=')).tail).splitOn '=' with _ | ⟨a, t⟩
      · exact absurd hs (splitOn_ne_nil _ _)
      · simp
    · rw [if_neg h2]
      have hz : ((piece.data.dropWhile (fun x => x != '=')).tail).count '=' = 0 :=
        List.count_eq_zero.mpr h2
      simp [hz]
  · rw [if_neg h]
    have hz : piece.data.count '=' = 0 := List.count_eq_zero.mpr h
    simp [hz]

theorem parseMapString_eq_decode (str : String) (h : str ≠ "") :
    parseMapString str = decodePieces str := by
  unfold parseMapString decodePieces
  rw [if_neg h]
  congr 1
  funext m piece
  exact split_eq_binding piece m

theorem split_pair (k v : String) (hk : '=' ∉ k.data) (hv : '=' ∉ v.data) :
    Split (String.mk (k.data ++ '=' :: v.data)) '=' = [k, v] := by
  unfold Split List.splitOn
  simp only
  rw [List.splitOnP_first _ _ (fun x hx => by simpa using fun h : x = '=' => hk (h ▸ hx)) '=' (by simp),
    List.splitOnP_eq_single _ _ (fun x hx => by simpa using fun h : x = '=' => hv (h ▸ hx))]
  rfl

theorem split_encodePairs (ps : GoMap String) (hne : ps ≠ [])
    (hclean : ∀ e ∈ ps, ',' ∉ e.1.data ∧ '=' ∉ e.1.data ∧ ',' ∉ e.2.data ∧ '=' ∉ e.2.data) :
    Split (encodePairs ps) ',' = ps.map (fun e => String.mk (e.1.data ++ '=' :: e.2.data)) := by
  unfold Split encodePairs
  simp only
  rw [List.splitOn_intercalate]
  · simp [List.map_map, Function.comp_def]
  · intro l hl
    simp only [List.mem_map] at hl
    obtain ⟨e, he, rfl⟩ := hl
    obtain ⟨h1, -, h3, -⟩ := hclean e he
    simp [h1, h3]
  · simpa using hne

theorem encodePairs_ne_empty (ps : GoMap String) (hne : ps ≠ []) : encodePairs ps ≠ "" := by
  intro h
  cases ps with
  | nil => exact hne rfl
  | cons e rest =>
    have hd : (encodePairs (e :: rest)).data = [] := by rw [h]
    unfold encodePairs at hd
    cases rest with
    | nil => simp [List.intercalate, List.intersperse] at hd
    | cons e2 r2 => simp [List.intercalate, List.intersperse] at hd

theorem parse_encodePairs (ps : GoMap String)
    (hclean : ∀ e ∈ ps, ',' ∉ e.1.data ∧ '=' ∉ e.1.data ∧ ',' ∉ e.2.data ∧ '=' ∉ e.2.data) :
    parseMapString (encodePairs ps) =
      ps.foldl (fun (result : GoMap String) e => GoMap.set result e.1 e.2) [] := by
  by_cases hne : ps = []
  · subst hne
    rfl
  · unfold parseMapString
    rw [if_neg (encodePairs_ne_empty ps hne), split_encodePairs ps hne hclean, List.foldl_map]
    apply List.foldl_ext
    intro m e he
    obtain ⟨-, h2, -, h4⟩ := hclean e he
    simp only [split_pair e.1 e.2 h2 h4]

/-! ## Template data -/

theorem HasSuffix_append_slash (v : String) : HasSuffix (v ++ "/") "/" = true := by
  simp only [HasSuffix, String.data_append, decide_eq_true_eq]
  exact List.suffix_append _ _

theorem slashed_ends (v : String) (h : slashed v ≠ "") : HasSuffix (slashed v) "/" = true := by
  unfold slashed at h ⊢
  by_cases hc : v ≠ "" ∧ HasSuffix v "/" = false
  · rw [if_pos hc]; exact HasSuffix_append_slash v
  · rw [if_neg hc] at h ⊢
    by_cases hs : HasSuffix v "/" = true
    · exact hs
    · exact absurd ⟨h, by simpa using hs⟩ hc

theorem slashed_of_ends (v : String) (h : HasSuffix v "/" = true) : slashed v = v := by
  unfold slashed
  rw [if_neg]
  simp [h]

/-- The loop that appends `/`, from a map that agrees with the entries still to
be visited. -/
theorem slashLoop_get (l : GoMap String) (hl : l.WF) :
    ∀ (r : GoMap String), (∀ k v, l.get k = some v → r.get k = some v) → ∀ k,
      (l.foldl (fun r e =>
          if e.2 ≠ "" ∧ HasSuffix e.2 "/" = false then r.set e.1 (e.2 ++ "/") else r) r).get k =
        match l.get k with
        | some v => some (slashed v)
        | none => r.get k := by
  induction l with
  | nil => intro r _ k; simp [GoMap.get]
  | cons e rest ih =>
    intro r hr k
    obtain ⟨hnot, hrest⟩ := GoMap.wf_tail hl
    obtain ⟨k0, v0⟩ := e
    simp only at hnot
    have hk0 : r.get k0 = some v0 := hr k0 v0 (by simp [GoMap.get])
    have hpre : ∀ k v, GoMap.get rest k = some v →
        GoMap.get (if v0 ≠ "" ∧ HasSuffix v0 "/" = false then r.set k0 (v0 ++ "/") else r) k = some v := by
      intro k v hkv
      have hne : k ≠ k0 := by
        intro h
        subst h
        rw [(GoMap.get_eq_none rest k).mpr hnot] at hkv
        cases hkv
      have hne' : ¬ k0 = k := fun h => hne h.symm
      have : r.get k = some v := hr k v (by simp [GoMap.get, hne', hkv])
      split
      · rw [GoMap.get_set, if_neg hne]; exact this
      · exact this
    simp only [List.foldl_cons]
    rw [ih hrest _ hpre k]
    by_cases hk : k0 = k
    · subst hk
      rw [(GoMap.get_eq_none rest k0).mpr hnot]
      simp only [GoMap.get, if_true]
      unfold slashed
      split
      · rw [GoMap.get_set]; simp
      · exact hk0
    · have hk' : ¬ k = k0 := fun h => hk h.symm
      simp only [GoMap.get, hk, if_false]
      cases GoMap.get rest k with
      | some v => rfl
      | none =>
        simp only
        split
        · rw [GoMap.get_set, if_neg hk']
        · rfl

theorem appendSlashes_get (m : GoMap String) (hm : m.WF) (k : String) :
    (appendSlashes m).get k = (m.get k).map slashed := by
  unfold appendSlashes
  rw [slashLoop_get m hm m (fun _ _ h => h) k]
  cases m.get k <;> rfl

theorem fillRegistries_get (images : GoMap String) :
    ∀ (r : GoMap String) (k : String),
      (fillRegistries images r).get k =
        match r.get k with
        | some v => some v
        | none => if k ∈ images.keys then some "" else none := by
  induction images with
  | nil => intro r k; cases h : r.get k <;> simp [fillRegistries, GoMap.keys, h]
  | cons e rest ih =>
    intro r k
    obtain ⟨k0, v0⟩ := e
    unfold fillRegistries at ih ⊢
    simp only [List.foldl_cons, GoMap.keys, List.map_cons, List.mem_cons]
    cases h0 : r.get k0 with
    | some w =>
      simp only
      rw [ih r k]
      cases hk : r.get k with
      | some v => rfl
      | none =>
        have hne : ¬ k = k0 := by
          intro h; subst h; rw [h0] at hk; cases hk
        simp only [hne, false_or, GoMap.keys]
    | none =>
      simp only
      rw [ih _ k, GoMap.get_set]
      by_cases hk : k = k0
      · subst hk
        simp [h0]
      · simp only [hk, if_false, false_or]
        cases r.get k <;> simp [GoMap.keys]

/-! ## The response status -/

theorem dropLast_ne_self {α : Type} (l : List α) (h : l ≠ []) : l.dropLast ≠ l := by
  intro he
  have hl := congrArg List.length he
  rw [List.length_dropLast] at hl
  have : 0 < l.length := List.length_pos.mpr h
  omega

/-- The response status plays no part in downloadFileToDest. -/
theorem downloadFileToDest_withStatus (env : Env) (status : Nat) (url : String) (dest : Path)
    (s : World) :
    downloadFileToDest (env.withStatus status) url dest s = downloadFileToDest env url dest s := by
  unfold downloadFileToDest httpDo
  have hu : (env.withStatus status).requestErr = env.requestErr := rfl
  have hs : ∀ x, osStat (env.withStatus status) dest x = osStat env dest x := fun _ => rfl
  have hr : ∀ x, osRemove (env.withStatus status) dest x = osRemove env dest x := fun _ => rfl
  have hc : ∀ x, osCreate (env.withStatus status) dest x = osCreate env dest x := fun _ => rfl
  have hw : ∀ b x, fileWrite (env.withStatus status) dest b x = fileWrite env dest b x :=
    fun _ _ => rfl
  have hm : ∀ x, osChmod (env.withStatus status) dest 0o777 x = osChmod env dest 0o777 x :=
    fun _ => rfl
  have hh : (env.withStatus status).http s.tick url =
      match env.http s.tick url with
      | .ok resp => .ok { resp with status := status }
      | .error c => .error c := rfl
  simp only [hu, hs, hr, hc, hw, hm, hh]
  split
  · rfl
  · cases env.http s.tick url <;> rfl

theorem emit_isDir (s : World) (e : Event) (p : Path) : (s.emit e).isDir p = s.isDir p := rfl

theorem emit_occupied (s : World) (e : Event) (p : Path) :
    (s.emit e).occupied p = s.occupied p := rfl

theorem set_isDir_of_ne (s : World) {p q : Path} (n : Option Node) (h : p ≠ q) :
    (s.set q n).isDir p = s.isDir p := by
  unfold World.isDir World.node
  simp [h]

/-- With a URL that parses, a transport that answers, a file system that does
not fail, a destination whose parent is a directory and which is not itself a
directory with something below it, downloadFileToDest installs the body,
whatever the status. -/
theorem downloadFileToDest_calm (env : Env) (url : String) (dest : Path) (s : World)
    (resp : Response) (hu : env.requestErr url = none) (hh : env.http s.tick url = .ok resp)
    (hf : ∀ n, env.fault n = none) (hd : dest ≠ []) (hp : s.isDir dest.dropLast = true)
    (hfree : ∀ m, s.node dest = some (.dir m) → s.occupied dest = false) :
    (downloadFileToDest env url dest s).1 = none
    ∧ (downloadFileToDest env url dest s).2.fs dest = some (.file resp.body 0o777) := by
  have hne : dest.dropLast ≠ dest := dropLast_ne_self dest hd
  unfold downloadFileToDest httpDo
  simp only [hu, hh]
  cases hn : s.node dest with
  | none =>
    simp [osStat, osCreate, fileWrite, osChmod, hf, hn, set_node, hd, emit_isDir, hp, World.tick]
  | some n =>
    cases n with
    | file c m =>
      simp [osStat, osRemove, osCreate, fileWrite, osChmod, hf, hn, set_node, hd, emit_isDir,
        set_isDir_of_ne _ _ hne, hp, World.tick]
    | dir m =>
      have ho := hfree m hn
      simp [osStat, osRemove, osCreate, fileWrite, osChmod, hf, hn, set_node, hd, emit_isDir,
        emit_occupied, ho, set_isDir_of_ne _ _ hne, hp, World.tick]

/-! ## Directory creation only adds directories -/

theorem Grows.same (F : Path → Prop) (s : World) : Grows F s s := fun _ => Or.inl rfl

theorem Grows.chain {F : Path → Prop} {s s1 s2 : World} (h1 : Grows F s s1) (h2 : Grows F s1 s2) :
    Grows F s s2 := by
  intro q
  rcases h1 q with e1 | ⟨n1, f1, m1, d1⟩
  · rcases h2 q with e2 | ⟨n2, f2, m2, d2⟩
    · exact Or.inl (e2.trans e1)
    · exact Or.inr ⟨e1 ▸ n2, f2, m2, d2⟩
  · rcases h2 q with e2 | ⟨n2, f2, m2, d2⟩
    · exact Or.inr ⟨n1, f1, m1, e2.trans d1⟩
    · rw [d1] at n2; cases n2

theorem Grows.widen {F G : Path → Prop} {s s' : World} (h : Grows F s s') (hFG : ∀ q, F q → G q) :
    Grows G s s' := by
  intro q
  rcases h q with e | ⟨n, f, m, d⟩
  · exact Or.inl e
  · exact Or.inr ⟨n, hFG q f, m, d⟩

theorem Grows.of_fs_eq {F : Path → Prop} {s s' : World} (h : s'.fs = s.fs) : Grows F s s' :=
  fun q => Or.inl (congrFun h q)

theorem osStat_fs {env : Env} {p : Path} {s s' : World} {r : Except Error Node}
    (h : osStat env p s = (r, s')) : s'.fs = s.fs := by
  rw [osStat_state h]; rfl

theorem osLstat_fs {env : Env} {p : Path} {s s' : World} {r : Except Error Node}
    (h : osLstat env p s = (r, s')) : s'.fs = s.fs := by
  unfold osLstat at h
  split at h
  · cases h; rfl
  · split at h <;> (cases h; rfl)

theorem osMkdir_grows {F : Path → Prop} {env : Env} {p : Path} {perm : Nat} {s s' : World}
    {r : Option Error} (h : osMkdir env p perm s = (r, s')) (hp : F p) : Grows F s s' := by
  unfold osMkdir at h
  split at h
  · cases h; exact Grows.same F _
  · split at h
    · cases h; exact Grows.same F _
    · rename_i hn
      split at h
      · cases h
        intro q
        by_cases hq : q = p
        · subst hq
          have hne : q ≠ [] := by
            intro h0; subst h0; simp [World.node] at hn
          rw [node_of_ne_nil _ hne] at hn
          exact Or.inr ⟨hn, hp, applyUmask env perm, by simp⟩
        · exact Or.inl (by simp [hq])
      · cases h; exact Grows.same F _

theorem mkdirAllRev_grows (env : Env) (perm : Nat) :
    ∀ (rp : List String) (s s' : World) (r : Option Error), mkdirAllRev env perm rp s = (r, s') →
      Grows (fun q => q <+: rp.reverse) s s' := by
  intro rp
  induction rp with
  | nil =>
    intro s s' r h
    unfold mkdirAllRev at h
    split at h
    · rename_i h1; cases h; exact Grows.of_fs_eq (osStat_fs h1)
    · rename_i h1; cases h; exact Grows.of_fs_eq (osStat_fs h1)
    · rename_i h1
      have w1 : Grows (fun q => q <+: ([] : List String).reverse) s _ :=
        Grows.of_fs_eq (osStat_fs h1)
      split at h
      · rename_i h2; cases h
        exact w1.chain (osMkdir_grows h2 (by simp))
      · rename_i h2
        have w2 := w1.chain (osMkdir_grows h2 (by simp))
        split at h
        · rename_i h3; cases h; exact w2.chain (Grows.of_fs_eq (osLstat_fs h3))
        · rename_i h3; cases h; exact w2.chain (Grows.of_fs_eq (osLstat_fs h3))
  | cons c rest ih =>
    intro s s' r h
    have up : ∀ q : Path, q <+: rest.reverse → q <+: (c :: rest).reverse := by
      intro q hq
      rw [List.reverse_cons]
      exact hq.trans (List.prefix_append _ _)
    have par : ∀ (s1 s2 : World) (r2 : Option Error),
        (if rest = [] then (none, s1) else mkdirAllRev env perm rest s1) = (r2, s2) →
        Grows (fun q => q <+: (c :: rest).reverse) s1 s2 := by
      intro s1 s2 r2 hx
      by_cases hr : rest = []
      · rw [if_pos hr] at hx; cases hx; exact Grows.same _ _
      · rw [if_neg hr] at hx; exact (ih _ _ _ hx).widen up
    unfold mkdirAllRev at h
    split at h
    · rename_i h1; cases h; exact Grows.of_fs_eq (osStat_fs h1)
    · rename_i h1; cases h; exact Grows.of_fs_eq (osStat_fs h1)
    · rename_i h1
      have w1 : Grows (fun q => q <+: (c :: rest).reverse) s _ := Grows.of_fs_eq (osStat_fs h1)
      split at h
      · rename_i h2; cases h
        exact w1.chain (par _ _ _ h2)
      · rename_i h2
        have w2 := w1.chain (par _ _ _ h2)
        split at h
        · rename_i h3; cases h
          exact w2.chain (osMkdir_grows h3 (List.prefix_refl _))
        · rename_i h3
          have w3 := w2.chain (osMkdir_grows h3 (List.prefix_refl _))
          split at h
          · rename_i h4; cases h; exact w3.chain (Grows.of_fs_eq (osLstat_fs h4))
          · rename_i h4; cases h; exact w3.chain (Grows.of_fs_eq (osLstat_fs h4))

theorem osMkdirAll_grows {env : Env} {p : Path} {perm : Nat} {s s' : World} {r : Option Error}
    (h : osMkdirAll env p perm s = (r, s')) : Grows (fun q => q <+: p) s s' := by
  have := mkdirAllRev_grows env perm p.reverse s s' r h
  simpa using this

theorem makeXSpotDirs_grows (env : Env) (s : World) :
    Grows (fun q => q <+: runxcDir ∨ q <+: runxcLogsDir) s (makeXSpotDirs env s).2 := by
  unfold makeXSpotDirs
  rcases h1 : osMkdirAll env runxcDir 0o755 s with ⟨r1, s1⟩
  have w1 := (osMkdirAll_grows h1).widen (G := fun q => q <+: runxcDir ∨ q <+: runxcLogsDir)
    (fun _ h => Or.inl h)
  cases r1 with
  | some e => exact w1
  | none =>
    simp only
    rcases h2 : osMkdirAll env runxcLogsDir 0o755 s1 with ⟨r2, s2⟩
    have w2 := w1.chain ((osMkdirAll_grows h2).widen (fun _ h => Or.inr h))
    cases r2 <;> exact w2

/-! ## Disable and the backup -/

theorem copyFileEv_spares {src dst p : Path} {e : Event} (h : copyFileEv src dst e = true)
    (hp : dst ≠ p) : e.mutates p = false := by
  cases e <;> simp_all [copyFileEv, Event.mutates]

theorem restartEv_spares {p : Path} {e : Event} (h : restartEv e = true) :
    e.mutates p = false := by
  cases e <;> simp_all [restartEv, Event.mutates]

theorem disableRemove_spares (env : Env) (s : World) :
    Within (fun e => e.mutates backupPath = false) (fun q => q = activePath) s
      (disableRemove env s).2 :=
  (Within.emit (P := fun e => e.mutates backupPath = false) _ s (e := .log "Disabling xspot...")
      rfl).trans
    (osRemove_within (r := (disableRemove env s).1) rfl (by decide) rfl)

theorem disableCopyBack_spares (env : Env) (s : World) :
    Within (fun e => e.mutates backupPath = false) (fun q => q = activePath) s
      (disableCopyBack env s).2 :=
  ((disableRemove_spares env s).trans
    (Within.emit (P := fun e => e.mutates backupPath = false) _ _
      (e := .log ("Restoring default config.toml at " ++ pathStr containerdConfigTomlPath)) rfl)).trans
    ((CopyFile_within (r := (disableCopyBack env s).1) rfl).mono
      (fun _ h => copyFileEv_spares h activePath_ne_backupPath) (fun _ h => h))

/-- Whatever Disable returns, it attempted no operation that creates, writes,
removes or re-modes the backup path, and changed the file tree at the active
path only. -/
theorem Disable_spares_backup (env : Env) (s : World) :
    Within (fun e => e.mutates backupPath = false) (fun q => q = activePath) s (Disable env s).2 := by
  rw [Disable_eq]
  split
  · exact disableRemove_spares env s
  · split
    · exact disableCopyBack_spares env s
    · have wr : Within (fun e => e.mutates backupPath = false) (fun q => q = activePath)
          (disableCopyBack env s).2 (restartContainerd env (disableCopyBack env s).2).2 :=
        (restartContainerd_within (r := (restartContainerd env (disableCopyBack env s).2).1) rfl).mono
          (fun _ h => restartEv_spares h) (fun _ h => h.elim)
      split
      · rename_i h4
        rw [h4] at wr
        exact (disableCopyBack_spares env s).trans wr
      · rename_i h4
        rw [h4] at wr
        exact ((disableCopyBack_spares env s).trans wr).trans (Within.emit _ _ rfl)

/-! ## Maps behind references -/

theorem MapHeap.assignLoop (r : Nat) :
    ∀ (l : GoMap String) (hp : MapHeap),
      l.foldl (fun hp e => hp.assign r e.1 e.2) hp =
        { maps := fun x =>
            if x = r then l.foldl (fun (m : GoMap String) e => GoMap.set m e.1 e.2) (hp.maps r)
            else hp.maps x
          next := hp.next } := by
  intro l
  induction l with
  | nil =>
    intro hp
    cases hp with
    | mk maps next =>
      simp only [List.foldl_nil, MapHeap.mk.injEq, and_true]
      funext x
      split
      · rename_i hx; rw [hx]
      · rfl
  | cons e rest ih =>
    intro hp
    rw [List.foldl_cons, ih]
    simp only [MapHeap.assign, List.foldl_cons, MapHeap.mk.injEq, and_true, if_true]
    funext x
    split
    · rfl
    · rfl

/-- What `MapHeap.mergeMaps` returns and leaves, in closed form. -/
theorem MapHeap.mergeMaps_eq (h : MapHeap) (sourceMap overrideMap : MapRef)
    (hs : h.allocated sourceMap) (ho : h.allocated overrideMap) :
    h.mergeMaps sourceMap overrideMap =
      (some h.next,
        { maps := fun x =>
            if x = h.next then XSpot.mergeMaps (h.read sourceMap) (h.read overrideMap)
            else h.maps x
          next := h.next + 1 }) := by
  have rd : ∀ (m : MapRef), h.allocated m → ∀ hp : MapHeap,
      (∀ x, x ≠ h.next → hp.maps x = h.maps x) → hp.read m = h.read m := by
    intro m hm hp hx
    cases m with
    | none => rfl
    | some r => exact hx r (Nat.ne_of_lt hm)
  unfold MapHeap.mergeMaps MapHeap.make
  simp only [MapHeap.assignLoop, if_true]
  rw [rd sourceMap hs, rd overrideMap ho]
  · simp only [XSpot.mergeMaps, Prod.mk.injEq, MapHeap.mk.injEq, and_true, true_and]
    funext x
    split
    · rfl
    · rename_i hx
      simp only [hx, if_false]
  · intro x hx
    simp only [hx, if_false]
  · intro x hx
    simp only [hx, if_false]

/-! ## Claims -/

/-- C1: Enable attempts makeXSpotDirs, downloadBinaries, copyConfigFiles and
restartContainerd in that order and returns at the first step that fails: it
is the run of the four labelled steps that stops at the first error; when
directory creation fails only stat, lstat and mkdir of the two directories
and their ancestors were attempted (no HTTP request); when the download fails nothing but provisioning and fetch
operations were attempted (no configuration file opened, no command); when
the configuration copy fails no command was run; when the restart fails the
signal watcher is not registered. -/
theorem Enable_runs_steps_in_order (env : Env) (k : Constants) (s : World) :
    (Enable env k s =
      match runSteps (enablePlan env k) s with
      | (some e, s') => (.failed e, s')
      | (none, s') =>
        (.running, (s'.emit .signalNotify).emit (.log "xspot successfully enabled in cluster")))
    ∧ (∀ e, (makeXSpotDirs env s).1 = some e →
        Enable env k s = (.failed (.wrap "creating directories on node" e), (makeXSpotDirs env s).2)
        ∧ ∀ ev ∈ (Enable env k s).2.since s,
            (provisionEv runxcDir ev = true ∨ provisionEv runxcLogsDir ev = true)
            ∧ ev.isHttp = false ∧ ev.isExec = false)
    ∧ ((makeXSpotDirs env s).1 = none →
        ∀ e, (downloadBinaries env (makeXSpotDirs env s).2).1 = some e →
        Enable env k s = (.failed (.wrap "downloading binaries" e),
          (downloadBinaries env (makeXSpotDirs env s).2).2)
        ∧ ∀ ev ∈ (Enable env k s).2.since s,
            ((provisionEv runxcDir ev = true ∨ provisionEv runxcLogsDir ev = true)
              ∨ fetchEv runxcDest ev = true ∨ fetchEv shimDest ev = true)
            ∧ ev.isExec = false ∧ ev ≠ .openRead activePath)
    ∧ ((makeXSpotDirs env s).1 = none →
        (downloadBinaries env (makeXSpotDirs env s).2).1 = none →
        ∀ e, (copyConfigFiles env k (downloadBinaries env (makeXSpotDirs env s).2).2).1 = some e →
        Enable env k s = (.failed (.wrap "copying config files" e),
          (copyConfigFiles env k (downloadBinaries env (makeXSpotDirs env s).2).2).2)
        ∧ ∀ ev ∈ (Enable env k s).2.since s, ev.isExec = false)
    ∧ ((makeXSpotDirs env s).1 = none →
        (downloadBinaries env (makeXSpotDirs env s).2).1 = none →
        (copyConfigFiles env k (downloadBinaries env (makeXSpotDirs env s).2).2).1 = none →
        ∀ e, (restartContainerd env
            (copyConfigFiles env k (downloadBinaries env (makeXSpotDirs env s).2).2).2).1 = some e →
        Enable env k s = (.failed (.wrap "restarting containerd" e),
          (restartContainerd env (copyConfigFiles env k (downloadBinaries env (makeXSpotDirs env s).2).2).2).2)
        ∧ Event.signalNotify ∉ (Enable env k s).2.since s) := by
  have wA := within_of_eq (fun s s' r => @makeXSpotDirs_within env s s' r) s
  have wB := within_of_eq (fun s s' r => @downloadBinaries_within env s s' r) (makeXSpotDirs env s).2
  have wC := within_of_eq (fun s s' r => @copyConfigFiles_within env k s s' r)
    (downloadBinaries env (makeXSpotDirs env s).2).2
  have wD := within_of_eq (fun s s' r => @restartContainerd_within env s s' r)
    (copyConfigFiles env k (downloadBinaries env (makeXSpotDirs env s).2).2).2
  rcases hA : makeXSpotDirs env s with ⟨rA, sA⟩
  rw [hA] at wA wB wC wD
  cases rA with
  | some eA =>
    have hE : Enable env k s = (.failed (.wrap "creating directories on node" eA), sA) := by
      simp [Enable, hA]
    refine ⟨by simp [hE, runSteps, enablePlan, hA], ?_, by simp, by simp, by simp⟩
    intro e he
    simp only [Option.some.injEq] at he
    subst he
    refine ⟨hE, ?_⟩
    rw [hE]
    intro ev hev
    have h1 := wA.since ev hev
    refine ⟨h1, ?_, ?_⟩
    · exact h1.elim (fun h => (provisionEv_kind h).1) (fun h => (provisionEv_kind h).1)
    · exact h1.elim (fun h => (provisionEv_kind h).2.1) (fun h => (provisionEv_kind h).2.1)
  | none =>
    rcases hB : downloadBinaries env sA with ⟨rB, sB⟩
    rw [hB] at wB wC wD
    cases rB with
    | some eB =>
      have hE : Enable env k s = (.failed (.wrap "downloading binaries" eB), sB) := by
        simp [Enable, hA, hB]
      refine ⟨by simp [hE, runSteps, enablePlan, hA, hB], by simp, ?_, by simp, by simp⟩
      intro _ e he
      simp only [Option.some.injEq] at he
      subst he
      refine ⟨hE, ?_⟩
      rw [hE]
      intro ev hev
      have wAB : Within (fun e => (provisionEv runxcDir e = true ∨ provisionEv runxcLogsDir e = true)
          ∨ fetchEv runxcDest e = true ∨ fetchEv shimDest e = true) (fun _ => True) s sB :=
        (wA.mono (fun _ h => Or.inl h) (fun _ _ => trivial)).trans
          (wB.mono (fun _ h => Or.inr h) (fun _ _ => trivial))
      have := wAB.since ev hev
      refine ⟨this, ?_, ?_⟩
      · rcases this with (h | h) | h | h
        · exact (provisionEv_kind h).2.1
        · exact (provisionEv_kind h).2.1
        · exact (fetchEv_kind h).1
        · exact (fetchEv_kind h).1
      · rcases this with (h | h) | h | h
        · exact (provisionEv_kind h).2.2.2
        · exact (provisionEv_kind h).2.2.2
        · exact (fetchEv_kind h).2.2
        · exact (fetchEv_kind h).2.2
    | none =>
      rcases hC : copyConfigFiles env k sB with ⟨rC, sC⟩
      rw [hC] at wC wD
      have wABC : Within (fun e => e.isExec = false ∧ e ≠ .signalNotify) (fun _ => True) s sC :=
        ((wA.mono (fun e h => h.elim (fun h => ⟨(provisionEv_kind h).2.1, (provisionEv_kind h).2.2.1⟩)
            (fun h => ⟨(provisionEv_kind h).2.1, (provisionEv_kind h).2.2.1⟩))
            (fun _ _ => trivial)).trans
          (wB.mono (fun e h => h.elim (fun h => ⟨(fetchEv_kind h).1, (fetchEv_kind h).2.1⟩)
            (fun h => ⟨(fetchEv_kind h).1, (fetchEv_kind h).2.1⟩)) (fun _ _ => trivial))).trans
          (wC.mono (fun e h => configEv_kind h) (fun _ _ => trivial))
      cases rC with
      | some eC =>
        have hE : Enable env k s = (.failed (.wrap "copying config files" eC), sC) := by
          simp [Enable, hA, hB, hC]
        refine ⟨by simp [hE, runSteps, enablePlan, hA, hB, hC], by simp, by simp, ?_, by simp⟩
        intro _ _ e he
        simp only [Option.some.injEq] at he
        subst he
        refine ⟨hE, ?_⟩
        rw [hE]
        intro ev hev
        exact (wABC.since ev hev).1
      | none =>
        rcases hD : restartContainerd env sC with ⟨rD, sD⟩
        rw [hD] at wD
        cases rD with
        | some eD =>
          have hE : Enable env k s = (.failed (.wrap "restarting containerd" eD), sD) := by
            simp [Enable, hA, hB, hC, hD]
          refine ⟨by simp [hE, runSteps, enablePlan, hA, hB, hC, hD], by simp, by simp, by simp, ?_⟩
          intro _ _ _ e he
          simp only [Option.some.injEq] at he
          subst he
          refine ⟨hE, ?_⟩
          rw [hE]
          intro hmem
          have wAll : Within (fun e => e ≠ .signalNotify) (fun _ => True) s sD :=
            (wABC.mono (fun _ h => h.2) (fun _ _ => trivial)).trans
              (wD.mono (fun e h => restartEv_kind h) (fun _ _ => trivial))
          exact wAll.since _ hmem rfl
        | none =>
          refine ⟨by simp [Enable, runSteps, enablePlan, hA, hB, hC, hD], by simp, by simp, by simp, by simp⟩

/-- Witness of C1: on a node where `/node/run` is a regular file the
directory step fails, Enable returns that error and only provisioning
operations were attempted. -/
theorem Enable_runs_steps_in_order_witness :
    Enable calmEnv sampleConstants blockedWorld =
      (.failed (.wrap "creating directories on node" (.wrap "creating runxc dir" (.errno ENOTDIR))),
        (makeXSpotDirs calmEnv blockedWorld).2)
    ∧ ∀ ev ∈ (Enable calmEnv sampleConstants blockedWorld).2.since blockedWorld,
        (provisionEv runxcDir ev = true ∨ provisionEv runxcLogsDir ev = true)
        ∧ ev.isHttp = false ∧ ev.isExec = false :=
  (Enable_runs_steps_in_order calmEnv sampleConstants blockedWorld).2.1 _ (by decide)

/-- C2: if the directory step succeeds and either binary fetch fails, Enable
returns the download error, the active configuration file and the backup
file hold exactly what they held before, and no operation attempted since
the call is a command or removes, creates, writes or changes the mode of
either file. -/
theorem fetch_failure_leaves_config (env : Env) (k : Constants) (s : World) (e : Error)
    (h1 : (makeXSpotDirs env s).1 = none)
    (h2 : (downloadBinaries env (makeXSpotDirs env s).2).1 = some e) :
    (Enable env k s).1 = .failed (.wrap "downloading binaries" e)
    ∧ (Enable env k s).2.fs activePath = s.fs activePath
    ∧ (Enable env k s).2.fs backupPath = s.fs backupPath
    ∧ ∀ ev ∈ (Enable env k s).2.since s,
        ev.isExec = false ∧ ev.mutates activePath = false ∧ ev.mutates backupPath = false := by
  have hE := Enable_of_download_failed env k s e h1 h2
  have w := provision_fetch_within env s
  rw [hE]
  refine ⟨rfl, w.fs activePath_outside, w.fs backupPath_outside, ?_⟩
  intro ev hev
  have hk := w.since ev hev
  refine ⟨?_, ?_, ?_⟩
  · rcases hk with (h | h) | h | h
    · exact (provisionEv_kind h).2.1
    · exact (provisionEv_kind h).2.1
    · exact (fetchEv_kind h).1
    · exact (fetchEv_kind h).1
  · cases hm : ev.mutates activePath with
    | false => rfl
    | true =>
      exfalso
      apply activePath_outside
      rcases hk with (h | h) | h | h
      · exact Or.inl (Or.inl (provisionEv_mutates h hm))
      · exact Or.inl (Or.inr (provisionEv_mutates h hm))
      · exact Or.inr (Or.inl (fetchEv_mutates h hm))
      · exact Or.inr (Or.inr (fetchEv_mutates h hm))
  · cases hm : ev.mutates backupPath with
    | false => rfl
    | true =>
      exfalso
      apply backupPath_outside
      rcases hk with (h | h) | h | h
      · exact Or.inl (Or.inl (provisionEv_mutates h hm))
      · exact Or.inl (Or.inr (provisionEv_mutates h hm))
      · exact Or.inr (Or.inl (fetchEv_mutates h hm))
      · exact Or.inr (Or.inr (fetchEv_mutates h hm))

/-- Witness of C2: the transport fails on the second artifact. -/
theorem fetch_failure_leaves_config_witness :
    (Enable shimFetchFails sampleConstants sampleWorld).1 =
        .failed (.wrap "downloading binaries" (.wrap "downloading xspot-containerd-shim" (.errno 110)))
    ∧ (Enable shimFetchFails sampleConstants sampleWorld).2.fs activePath = sampleWorld.fs activePath
    ∧ (Enable shimFetchFails sampleConstants sampleWorld).2.fs backupPath = sampleWorld.fs backupPath
    ∧ ∀ ev ∈ (Enable shimFetchFails sampleConstants sampleWorld).2.since sampleWorld,
        ev.isExec = false ∧ ev.mutates activePath = false ∧ ev.mutates backupPath = false :=
  fetch_failure_leaves_config shimFetchFails sampleConstants sampleWorld _ (by decide) (by decide)

/-- C3, as stated, fails: on the sample node the first binary is fetched and
installed and the transport then fails on the second; Enable returns the
download error, yet the log directory with its absent ancestor and the first
binary, absent before, are there afterwards, so the file tree is not the one
found. In a second run the second binary is written and its chmod fails:
Enable returns the download error and the second destination, absent before,
holds the fetched bytes. -/
theorem fetch_failure_changes_node :
    (makeXSpotDirs shimFetchFails sampleWorld).1 = none
    ∧ (downloadBinaries shimFetchFails (makeXSpotDirs shimFetchFails sampleWorld).2).1 =
        some (.wrap "downloading xspot-containerd-shim" (.errno 110))
    ∧ (Enable shimFetchFails sampleConstants sampleWorld).1 =
        .failed (.wrap "downloading binaries" (.wrap "downloading xspot-containerd-shim" (.errno 110)))
    ∧ sampleWorld.fs runxcDir = none
    ∧ (Enable shimFetchFails sampleConstants sampleWorld).2.fs runxcDir = some (.dir 0o755)
    ∧ sampleWorld.fs runxcDest = none
    ∧ (Enable shimFetchFails sampleConstants sampleWorld).2.fs runxcDest = some (.file [9, 9] 0o777)
    ∧ (Enable shimFetchFails sampleConstants sampleWorld).2.fs ≠ sampleWorld.fs
    ∧ sampleWorld.fs ["node", "run"] = none
    ∧ (Enable shimFetchFails sampleConstants sampleWorld).2.fs ["node", "run"] = some (.dir 0o755)
    ∧ sampleWorld.fs runxcLogsDir = none
    ∧ (Enable shimFetchFails sampleConstants sampleWorld).2.fs runxcLogsDir = some (.dir 0o755)
    ∧ (makeXSpotDirs shimChmodFails sampleWorld).1 = none
    ∧ (Enable shimChmodFails sampleConstants sampleWorld).1 =
        .failed (.wrap "downloading binaries" (.wrap "downloading xspot-containerd-shim"
          (.wrap "fixing perms" (.errno 1))))
    ∧ sampleWorld.fs shimDest = none
    ∧ (Enable shimChmodFails sampleConstants sampleWorld).2.fs shimDest =
        some (.file [9, 9] 0o644) := by
  refine ⟨by decide, by decide, by decide, by decide, by decide, by decide, by decide, ?_,
    by decide, by decide, by decide, by decide, by decide, by decide, by decide, by decide⟩
  intro h
  have h' := congrFun h runxcDest
  revert h'
  decide

/-- C3, amended: if the directory step succeeds and a binary fetch fails,
Enable returns the download error, and at every path other than the two binary
destinations the file tree afterwards holds what it held before, except that a
path that held nothing and is one of the two log directories or an ancestor of
one may now hold a directory. In particular every file or directory that was
there before, other than the two binary destinations, is unchanged. -/
theorem fetch_failure_frame (env : Env) (k : Constants) (s : World) (e : Error)
    (h1 : (makeXSpotDirs env s).1 = none)
    (h2 : (downloadBinaries env (makeXSpotDirs env s).2).1 = some e) :
    (Enable env k s).1 = .failed (.wrap "downloading binaries" e)
    ∧ (∀ q : Path, q ≠ runxcDest → q ≠ shimDest →
        (Enable env k s).2.fs q = s.fs q
        ∨ (s.fs q = none ∧ (q <+: runxcDir ∨ q <+: runxcLogsDir)
            ∧ ∃ m, (Enable env k s).2.fs q = some (.dir m)))
    ∧ (∀ (q : Path) (n : Node), s.fs q = some n → q ≠ runxcDest → q ≠ shimDest →
        (Enable env k s).2.fs q = some n)
    ∧ (∀ q : Path, ¬ q <+: runxcDir → ¬ q <+: runxcLogsDir → q ≠ runxcDest → q ≠ shimDest →
        (Enable env k s).2.fs q = s.fs q) := by
  have hE := Enable_of_download_failed env k s e h1 h2
  have w := within_of_eq (fun s s' r => @downloadBinaries_within env s s' r) (makeXSpotDirs env s).2
  have g := makeXSpotDirs_grows env s
  rw [hE]
  have key : ∀ q : Path, q ≠ runxcDest → q ≠ shimDest →
      (downloadBinaries env (makeXSpotDirs env s).2).2.fs q = s.fs q
      ∨ (s.fs q = none ∧ (q <+: runxcDir ∨ q <+: runxcLogsDir)
          ∧ ∃ m, (downloadBinaries env (makeXSpotDirs env s).2).2.fs q = some (.dir m)) := by
    intro q hc hd
    have hq : (downloadBinaries env (makeXSpotDirs env s).2).2.fs q = (makeXSpotDirs env s).2.fs q :=
      w.fs (by rintro (h | h); exact hc h; exact hd h)
    rw [hq]
    exact g q
  refine ⟨rfl, key, ?_, ?_⟩
  · intro q n hn hc hd
    rcases key q hc hd with h | ⟨h, -, -⟩
    · exact h.trans hn
    · rw [hn] at h; cases h
  · intro q ha hb hc hd
    rcases key q hc hd with h | ⟨-, h | h, -⟩
    · exact h
    · exact absurd h ha
    · exact absurd h hb

/-- Witness of amended C3: the run in which the second fetch fails. -/
theorem fetch_failure_frame_witness :
    (Enable shimFetchFails sampleConstants sampleWorld).1 =
        .failed (.wrap "downloading binaries" (.wrap "downloading xspot-containerd-shim" (.errno 110)))
    ∧ (∀ q : Path, q ≠ runxcDest → q ≠ shimDest →
        (Enable shimFetchFails sampleConstants sampleWorld).2.fs q = sampleWorld.fs q
        ∨ (sampleWorld.fs q = none ∧ (q <+: runxcDir ∨ q <+: runxcLogsDir)
            ∧ ∃ m, (Enable shimFetchFails sampleConstants sampleWorld).2.fs q = some (.dir m)))
    ∧ (∀ (q : Path) (n : Node), sampleWorld.fs q = some n → q ≠ runxcDest → q ≠ shimDest →
        (Enable shimFetchFails sampleConstants sampleWorld).2.fs q = some n)
    ∧ (∀ q : Path, ¬ q <+: runxcDir → ¬ q <+: runxcLogsDir → q ≠ runxcDest → q ≠ shimDest →
        (Enable shimFetchFails sampleConstants sampleWorld).2.fs q = sampleWorld.fs q) :=
  fetch_failure_frame shimFetchFails sampleConstants sampleWorld _ (by decide) (by decide)

/-- C4: if copyConfigFiles succeeds then the active configuration file existed
before it, and if in any later world with the file tree it left the restore
part of Disable succeeds (removal of the active file, then copy of the backup
onto it), the active path holds the same bytes, with the same mode, as
immediately before copyConfigFiles, both right after the copy back and when
Disable returns. -/
theorem install_then_restore_round_trip (env env' : Env) (k : Constants) (s s1 : World)
    (hI : (copyConfigFiles env k s).1 = none)
    (hfs : s1.fs = (copyConfigFiles env k s).2.fs)
    (hR : (disableRemove env' s1).1 = none)
    (hC : (disableCopyBack env' s1).1 = none) :
    (∃ c m, s.fs activePath = some (.file c m))
    ∧ (disableCopyBack env' s1).2.fs activePath = s.fs activePath
    ∧ (Disable env' s1).2.fs activePath = s.fs activePath := by
  obtain ⟨c, m, a, ma, m', hact, hbak, -, -⟩ := copyConfigFiles_ok (result_eq hI)
  have hrm := osRemove_ok (result_eq hR)
  have hcp : CopyFile env' backupPath activePath
      ((disableRemove env' s1).2.emit
        (.log ("Restoring default config.toml at " ++ pathStr containerdConfigTomlPath))) =
      (none, (disableCopyBack env' s1).2) := result_eq hC
  obtain ⟨c', m', hb', ha'⟩ := CopyFile_ok hcp (fun h => activePath_ne_backupPath h.symm)
    backupPath_ne_nil activePath_ne_nil
  have hrm' : (disableRemove env' s1).2 =
      ((s1.emit (.log "Disabling xspot...")).emit (.remove activePath)).set activePath none := hrm
  rw [hrm'] at hb'
  simp [fun h : backupPath = activePath => activePath_ne_backupPath h.symm, hfs, hbak] at hb'
  refine ⟨⟨c, m, hact⟩, ?_, ?_⟩
  · rw [ha', hact, ← hb'.2.1, ← hb'.2.2]
  · rw [Disable_fs_of_restored env' s1 hR hC, ha', hact, ← hb'.2.1, ← hb'.2.2]

/-- Witness of C4: Install on the sample node, then Disable. -/
theorem install_then_restore_round_trip_witness :
    (∃ c m, sampleWorld.fs activePath = some (.file c m))
    ∧ (disableCopyBack calmEnv (copyConfigFiles calmEnv sampleConstants sampleWorld).2).2.fs activePath
        = sampleWorld.fs activePath
    ∧ (Disable calmEnv (copyConfigFiles calmEnv sampleConstants sampleWorld).2).2.fs activePath
        = sampleWorld.fs activePath :=
  install_then_restore_round_trip calmEnv calmEnv sampleConstants sampleWorld
    (copyConfigFiles calmEnv sampleConstants sampleWorld).2 (by decide) rfl (by decide) (by decide)

/-- C5, as stated, fails: on the sample node the backup does not exist and the
active configuration does; Disable returns the error of the copy back, and
the active configuration file, removed by the first statement, is gone. -/
theorem Disable_without_backup_removes_active :
    sampleWorld.fs backupPath = none
    ∧ sampleWorld.fs activePath = some (.file [1, 2, 3] 0o600)
    ∧ (Disable calmEnv sampleWorld).1 =
        some (.wrap "reverting back to default config.toml" (.errno ENOENT))
    ∧ (Disable calmEnv sampleWorld).2.fs activePath = none := by
  refine ⟨by decide, by decide, by decide, by decide⟩

/-- C5, amended: when the backup does not exist Disable returns an error and
runs no command; if the removal of the active configuration file fails the
file tree is untouched, and otherwise the active configuration file has been
removed and is absent when Disable returns, every other path being as it
was (the backup still absent). -/
theorem Disable_without_backup (env : Env) (s : World) (hb : s.fs backupPath = none) :
    (∃ e, (Disable env s).1 = some e)
    ∧ (∀ ev ∈ (Disable env s).2.since s, ev.isExec = false)
    ∧ ((disableRemove env s).1 ≠ none → (Disable env s).2.fs = s.fs)
    ∧ ((disableRemove env s).1 = none →
        (Disable env s).2.fs activePath = none
        ∧ ∀ q, q ≠ activePath → (Disable env s).2.fs q = s.fs q) := by
  rcases hR : (disableRemove env s).1 with _ | e
  · -- the removal succeeded: the copy back cannot open the backup
    have hrm := osRemove_ok (result_eq hR)
    have hrm' : (disableRemove env s).2 =
        ((s.emit (.log "Disabling xspot...")).emit (.remove activePath)).set activePath none := hrm
    have hmiss : ((disableRemove env s).2.emit
        (.log ("Restoring default config.toml at " ++ pathStr containerdConfigTomlPath))).node backupPath
        = none := by
      rw [hrm']
      simp [set_node, backupPath_ne_nil, fun h : backupPath = activePath => activePath_ne_backupPath h.symm,
        node_of_ne_nil, hb]
    obtain ⟨e, he⟩ := CopyFile_of_missing env backupPath activePath _ hmiss
    have hcb : disableCopyBack env s = (some e, _) := he
    have hD : Disable env s = (some (.wrap "reverting back to default config.toml" e),
        (disableCopyBack env s).2) := by
      rw [Disable_eq, hR]
      simp only [hcb]
    have w := disableCopyBack_within env s
    rw [hD]
    refine ⟨⟨_, rfl⟩, w.since, by simp, fun _ => ⟨?_, fun q hq => w.fs hq⟩⟩
    simp only [hcb, emit_fs]
    rw [hrm']
    simp
  · have hD : Disable env s = (some (.wrap ("removing " ++ pathStr containerdConfigTomlPath) e),
        (disableRemove env s).2) := by
      rw [Disable_eq, hR]
    have hst := osRemove_failed (result_eq hR)
    have hst' : (disableRemove env s).2 =
        (s.emit (.log "Disabling xspot...")).emit (.remove activePath) := hst
    rw [hD]
    refine ⟨⟨_, rfl⟩, (disableRemove_within env s).since, fun _ => ?_, by simp⟩
    simp only [hst', emit_fs]

/-- Witness of amended C5: the sample node has no backup. -/
theorem Disable_without_backup_witness :
    (∃ e, (Disable calmEnv sampleWorld).1 = some e)
    ∧ (∀ ev ∈ (Disable calmEnv sampleWorld).2.since sampleWorld, ev.isExec = false)
    ∧ ((disableRemove calmEnv sampleWorld).1 ≠ none → (Disable calmEnv sampleWorld).2.fs = sampleWorld.fs)
    ∧ ((disableRemove calmEnv sampleWorld).1 = none →
        (Disable calmEnv sampleWorld).2.fs activePath = none
        ∧ ∀ q, q ≠ activePath → (Disable calmEnv sampleWorld).2.fs q = sampleWorld.fs q) :=
  Disable_without_backup calmEnv sampleWorld (by decide)

/-- C6: copyConfigFiles starts, after its log line, by opening the active
configuration file for the copy to the backup path.  If that copy fails,
copyConfigFiles returns its error in the world the copy left, with the
active file as it was and no operation removing, creating, writing or
changing the mode of the active path.  If it succeeds, the backup path then
holds the previous active file while the active path is still untouched, and
the backup keeps that content to the end.  Hence in any run in which some
operation mutates the active path, the backup holds the previous content of
the active file. -/
theorem copyConfigFiles_backup_first (env : Env) (k : Constants) (s : World) :
    (∃ es, (copyConfigFiles env k s).2.since s =
        .log ("Storing default config.toml at " ++ pathStr storedContainerdConfigTomlPath)
          :: .openRead activePath :: es)
    ∧ (∀ e, (configBackup env s).1 = some e →
        copyConfigFiles env k s = (some (.wrap "copying default config.toml" e), (configBackup env s).2)
        ∧ (copyConfigFiles env k s).2.fs activePath = s.fs activePath
        ∧ ∀ ev ∈ (copyConfigFiles env k s).2.since s, ev.mutates activePath = false)
    ∧ ((configBackup env s).1 = none →
        ∃ c m, s.fs activePath = some (.file c m)
          ∧ (configBackup env s).2.fs activePath = some (.file c m)
          ∧ (configBackup env s).2.fs backupPath = some (.file c m)
          ∧ (∀ ev ∈ (configBackup env s).2.since s, ev.mutates activePath = false)
          ∧ (copyConfigFiles env k s).2.fs backupPath = some (.file c m))
    ∧ ((∃ ev ∈ (copyConfigFiles env k s).2.since s, ev.mutates activePath = true) →
        ∃ c m, s.fs activePath = some (.file c m)
          ∧ (copyConfigFiles env k s).2.fs backupPath = some (.file c m)) := by
  have hA : ∀ e, (configBackup env s).1 = some e →
      copyConfigFiles env k s = (some (.wrap "copying default config.toml" e), (configBackup env s).2)
      ∧ (copyConfigFiles env k s).2.fs activePath = s.fs activePath
      ∧ ∀ ev ∈ (copyConfigFiles env k s).2.since s, ev.mutates activePath = false := by
    intro e he
    have hE : copyConfigFiles env k s =
        (some (.wrap "copying default config.toml" e), (configBackup env s).2) := by
      rw [copyConfigFiles_eq, he]
    rw [hE]
    exact ⟨rfl, configBackup_fs_active env s, configBackup_since env s⟩
  have hD : (configBackup env s).1 = none →
      ∃ c m, s.fs activePath = some (.file c m)
        ∧ (configBackup env s).2.fs activePath = some (.file c m)
        ∧ (configBackup env s).2.fs backupPath = some (.file c m)
        ∧ (∀ ev ∈ (configBackup env s).2.since s, ev.mutates activePath = false)
        ∧ (copyConfigFiles env k s).2.fs backupPath = some (.file c m) := by
    intro h
    have hcp : CopyFile env activePath backupPath
        (s.emit (.log ("Storing default config.toml at " ++ pathStr storedContainerdConfigTomlPath))) =
        (none, (configBackup env s).2) := result_eq h
    obtain ⟨c, m, hact, hbak⟩ := CopyFile_ok hcp activePath_ne_backupPath activePath_ne_nil backupPath_ne_nil
    simp only [emit_fs] at hact
    refine ⟨c, m, hact, ?_, hbak, configBackup_since env s, ?_⟩
    · rw [configBackup_fs_active, hact]
    · rw [(copyConfigFiles_after_backup env k s).fs (q := backupPath)
        (fun h => activePath_ne_backupPath h.symm), hbak]
  refine ⟨?_, hA, hD, ?_⟩
  · obtain ⟨es1, ht1, -⟩ := configBackup_trace env s
    obtain ⟨⟨es2, ht2, -⟩, -⟩ := copyConfigFiles_after_backup env k s
    refine ⟨es1 ++ es2, ?_⟩
    apply since_of_trace
    rw [ht2, ht1]
    simp
  · rintro ⟨ev, hev, hm⟩
    rcases h : (configBackup env s).1 with _ | e
    · obtain ⟨c, m, h1, -, -, -, h5⟩ := hD h
      exact ⟨c, m, h1, h5⟩
    · have := (hA e h).2.2 ev hev
      rw [hm] at this
      cases this

/-- Witness of C6: on a node without an active configuration file the backup
copy fails and nothing touches the active path; on the sample node the copy
succeeds and the backup holds the previous active file. -/
theorem copyConfigFiles_backup_first_witness :
    (copyConfigFiles calmEnv sampleConstants { entries := [], trace := [] }).1 =
        some (.wrap "copying default config.toml" (.errno ENOENT))
    ∧ (∀ ev ∈ (copyConfigFiles calmEnv sampleConstants { entries := [], trace := [] }).2.since
          { entries := [], trace := [] }, ev.mutates activePath = false)
    ∧ ∃ c m, sampleWorld.fs activePath = some (.file c m)
        ∧ (copyConfigFiles calmEnv sampleConstants sampleWorld).2.fs backupPath = some (.file c m) := by
  have h1 := (copyConfigFiles_backup_first calmEnv sampleConstants { entries := [], trace := [] }).2.1
    (.errno ENOENT) (by decide)
  have h2 := (copyConfigFiles_backup_first calmEnv sampleConstants sampleWorld).2.2.1 (by decide)
  obtain ⟨c, m, ha, -, -, -, hb⟩ := h2
  exact ⟨by rw [h1.1], h1.2.2, c, m, ha, hb⟩

/-- C7: for a target name that no asset of the xspot addon carries,
copyAssetToDest returns the lookup error in the very world it was called in:
no operation is attempted, so the destination is neither read, removed,
created nor written.  The name `constants.XSpotConfigTomlTargetName` is a
target name of the addon and its lookup finds the configuration asset. -/
theorem copyAssetToDest_unknown_target (env : Env) (k : Constants) (targetName : String)
    (dest : Path) (s : World)
    (h : targetName ∉ (AddonsXSpot k).Assets.map BinAsset.GetTargetName) :
    copyAssetToDest env k targetName dest s =
      (some (.msg ("no asset matching target " ++ targetName)), s)
    ∧ k.XSpotConfigTomlTargetName ∈ (AddonsXSpot k).Assets.map BinAsset.GetTargetName
    ∧ findAsset (AddonsXSpot k).Assets k.XSpotConfigTomlTargetName =
        some (MustBinAsset "xspot/xspot-config.toml" k.GuestXSpotDir k.XSpotConfigTomlTargetName "0640") := by
  refine ⟨?_, ?_, findAsset_config k⟩
  · have hf : findAsset (AddonsXSpot k).Assets targetName = none := by
      simp only [AddonsXSpot, NewAddon, MustBinAsset, BinAsset.GetTargetName, List.map_cons,
        List.map_nil, List.mem_cons, List.mem_singleton, not_or, List.not_mem_nil, or_false] at h
      obtain ⟨h1, h2, h3⟩ := h
      simp [findAsset, AddonsXSpot, NewAddon, MustBinAsset, BinAsset.GetTargetName,
        Ne.symm h1, Ne.symm h2, Ne.symm h3]
    unfold copyAssetToDest
    rw [hf]
  · simp [AddonsXSpot, NewAddon, MustBinAsset, BinAsset.GetTargetName]

/-- Witness of C7: a name the addon does not register. -/
theorem copyAssetToDest_unknown_target_witness :
    copyAssetToDest calmEnv sampleConstants "containerd.toml" activePath sampleWorld =
      (some (.msg ("no asset matching target " ++ "containerd.toml")), sampleWorld)
    ∧ sampleConstants.XSpotConfigTomlTargetName ∈
        (AddonsXSpot sampleConstants).Assets.map BinAsset.GetTargetName
    ∧ findAsset (AddonsXSpot sampleConstants).Assets sampleConstants.XSpotConfigTomlTargetName =
        some (MustBinAsset "xspot/xspot-config.toml" sampleConstants.GuestXSpotDir
          sampleConstants.XSpotConfigTomlTargetName "0640") :=
  copyAssetToDest_unknown_target calmEnv sampleConstants "containerd.toml" activePath sampleWorld
    (by decide)

/-- C8: when Enable gets through its four steps (it reaches its blocking
state), the active configuration file existed before the call, the backup
path holds exactly that file, and the active path holds a file whose content
is the content of the xspot configuration asset file
`GuestXSpotDir/XSpotConfigTomlTargetName`; so neither is absent.  When the
asset file is none of the paths Enable writes, that content is the one the
asset file had before the call. -/
theorem Enable_success_state (env : Env) (k : Constants) (s : World)
    (h : (Enable env k s).1 = .running) :
    ∃ c m a ma m',
      s.fs activePath = some (.file c m)
      ∧ (Enable env k s).2.fs backupPath = some (.file c m)
      ∧ (Enable env k s).2.fs activePath = some (.file a m')
      ∧ (Enable env k s).2.node (k.GuestXSpotDir ++ [k.XSpotConfigTomlTargetName]) = some (.file a ma)
      ∧ (¬ ((k.GuestXSpotDir ++ [k.XSpotConfigTomlTargetName] <+: runxcDir
              ∨ k.GuestXSpotDir ++ [k.XSpotConfigTomlTargetName] <+: runxcLogsDir)
            ∨ k.GuestXSpotDir ++ [k.XSpotConfigTomlTargetName] = runxcDest
            ∨ k.GuestXSpotDir ++ [k.XSpotConfigTomlTargetName] = shimDest) →
          k.GuestXSpotDir ++ [k.XSpotConfigTomlTargetName] ≠ activePath →
          k.GuestXSpotDir ++ [k.XSpotConfigTomlTargetName] ≠ backupPath →
          s.fs (k.GuestXSpotDir ++ [k.XSpotConfigTomlTargetName]) = some (.file a ma)) := by
  obtain ⟨-, -, hC, -, hfs⟩ := Enable_running env k s h
  obtain ⟨c, m, a, ma, m', hact, hbak, hnew, hsrc⟩ := copyConfigFiles_ok (result_eq hC)
  have w := provision_fetch_within env s
  have wC := within_of_eq (fun s s' r => @copyConfigFiles_within env k s s' r)
    (downloadBinaries env (makeXSpotDirs env s).2).2
  have hne : k.GuestXSpotDir ++ [k.XSpotConfigTomlTargetName] ≠ [] := by simp
  refine ⟨c, m, a, ma, m', ?_, ?_, ?_, ?_, ?_⟩
  · rw [← w.fs activePath_outside]; exact hact
  · rw [hfs]; exact hbak
  · rw [hfs]; exact hnew
  · rw [node_of_ne_nil _ hne, hfs, ← node_of_ne_nil _ hne]; exact hsrc
  · intro h1 h2 h3
    rw [← w.fs h1, ← wC.fs (q := k.GuestXSpotDir ++ [k.XSpotConfigTomlTargetName])
      (fun h => h.elim h2 h3), ← node_of_ne_nil _ hne]
    exact hsrc

/-- Witness of C8: Enable on the sample node with every operation succeeding. -/
theorem Enable_success_state_witness :
    ∃ c m a ma m',
      sampleWorld.fs activePath = some (.file c m)
      ∧ (Enable calmEnv sampleConstants sampleWorld).2.fs backupPath = some (.file c m)
      ∧ (Enable calmEnv sampleConstants sampleWorld).2.fs activePath = some (.file a m')
      ∧ (Enable calmEnv sampleConstants sampleWorld).2.node
          (sampleConstants.GuestXSpotDir ++ [sampleConstants.XSpotConfigTomlTargetName]) = some (.file a ma)
      ∧ (¬ ((sampleConstants.GuestXSpotDir ++ [sampleConstants.XSpotConfigTomlTargetName] <+: runxcDir
              ∨ sampleConstants.GuestXSpotDir ++ [sampleConstants.XSpotConfigTomlTargetName] <+: runxcLogsDir)
            ∨ sampleConstants.GuestXSpotDir ++ [sampleConstants.XSpotConfigTomlTargetName] = runxcDest
            ∨ sampleConstants.GuestXSpotDir ++ [sampleConstants.XSpotConfigTomlTargetName] = shimDest) →
          sampleConstants.GuestXSpotDir ++ [sampleConstants.XSpotConfigTomlTargetName] ≠ activePath →
          sampleConstants.GuestXSpotDir ++ [sampleConstants.XSpotConfigTomlTargetName] ≠ backupPath →
          sampleWorld.fs (sampleConstants.GuestXSpotDir ++ [sampleConstants.XSpotConfigTomlTargetName])
            = some (.file a ma)) :=
  Enable_success_state calmEnv sampleConstants sampleWorld (by decide)

/-- C9: restartContainerd runs the plan stop rpc-statd.service, restart
containerd, start rpc-statd.service, each through `/usr/sbin/chroot /node
sudo systemctl`, in order and up to and including the first command that
fails: the commands it has run are the first one, two or three of the plan
according to whether the first, second or third command is the first to
fail, and all three when none fails; they are always an initial part of the
plan; it returns nil exactly when all three commands succeeded, and an error
otherwise. -/
theorem restartContainerd_runs_plan (env : Env) (s : World) :
    restartPlan =
      [ ["/usr/sbin/chroot", "/node", "sudo", "systemctl", "stop", "rpc-statd.service"],
        ["/usr/sbin/chroot", "/node", "sudo", "systemctl", "restart", "containerd"],
        ["/usr/sbin/chroot", "/node", "sudo", "systemctl", "start", "rpc-statd.service"] ]
    ∧ (∀ c, (stopOutcome env s).2 = some c →
        (restartContainerd env s).1 = some (.wrap "stopping rpc-statd.service" (.errno c))
        ∧ execsOf ((restartContainerd env s).2.since s) = restartPlan.take 1)
    ∧ ((stopOutcome env s).2 = none → ∀ c, (restartOutcome env s).2 = some c →
        (restartContainerd env s).1 = some (.wrap "restarting containerd" (.errno c))
        ∧ execsOf ((restartContainerd env s).2.since s) = restartPlan.take 2)
    ∧ ((stopOutcome env s).2 = none → (restartOutcome env s).2 = none →
        ∀ c, (startOutcome env s).2 = some c →
        (restartContainerd env s).1 = some (.wrap "restarting rpc-statd.service" (.errno c))
        ∧ execsOf ((restartContainerd env s).2.since s) = restartPlan)
    ∧ ((stopOutcome env s).2 = none → (restartOutcome env s).2 = none →
        (startOutcome env s).2 = none →
        (restartContainerd env s).1 = none
        ∧ execsOf ((restartContainerd env s).2.since s) = restartPlan)
    ∧ execsOf ((restartContainerd env s).2.since s) <+: restartPlan
    ∧ ((restartContainerd env s).1 = none ↔
        ((stopOutcome env s).2 = none ∧ (restartOutcome env s).2 = none
          ∧ (startOutcome env s).2 = none)) := by
  have c1 : ∀ c, (stopOutcome env s).2 = some c →
      (restartContainerd env s).1 = some (.wrap "stopping rpc-statd.service" (.errno c))
      ∧ execsOf ((restartContainerd env s).2.since s) = restartPlan.take 1 := by
    intro c h
    rw [restartContainerd_stop_failed env s c h]
    simp [World.since, execsOf, restartPlan]
  have c2 : (stopOutcome env s).2 = none → ∀ c, (restartOutcome env s).2 = some c →
      (restartContainerd env s).1 = some (.wrap "restarting containerd" (.errno c))
      ∧ execsOf ((restartContainerd env s).2.since s) = restartPlan.take 2 := by
    intro h1 c h
    rw [restartContainerd_restart_failed env s c h1 h]
    simp [World.since, execsOf, restartPlan]
  have c3 : (stopOutcome env s).2 = none → (restartOutcome env s).2 = none →
      ∀ c, (startOutcome env s).2 = some c →
      (restartContainerd env s).1 = some (.wrap "restarting rpc-statd.service" (.errno c))
      ∧ execsOf ((restartContainerd env s).2.since s) = restartPlan := by
    intro h1 h2 c h
    rw [restartContainerd_start_failed env s c h1 h2 h]
    simp [World.since, execsOf, restartPlan]
  have c4 : (stopOutcome env s).2 = none → (restartOutcome env s).2 = none →
      (startOutcome env s).2 = none →
      (restartContainerd env s).1 = none
      ∧ execsOf ((restartContainerd env s).2.since s) = restartPlan := by
    intro h1 h2 h3
    rw [restartContainerd_all_ok env s h1 h2 h3]
    simp [World.since, execsOf, restartPlan]
  refine ⟨rfl, c1, c2, c3, c4, ?_, ?_⟩
  · rcases h1 : (stopOutcome env s).2 with _ | c
    · rcases h2 : (restartOutcome env s).2 with _ | c
      · rcases h3 : (startOutcome env s).2 with _ | c
        · rw [(c4 h1 h2 h3).2]
        · rw [(c3 h1 h2 c h3).2]
      · rw [(c2 h1 c h2).2]; exact List.take_prefix _ _
    · rw [(c1 c h1).2]; exact List.take_prefix _ _
  · constructor
    · intro hr
      rcases h1 : (stopOutcome env s).2 with _ | c
      · rcases h2 : (restartOutcome env s).2 with _ | c
        · rcases h3 : (startOutcome env s).2 with _ | c
          · exact ⟨rfl, rfl, rfl⟩
          · rw [(c3 h1 h2 c h3).1] at hr; cases hr
        · rw [(c2 h1 c h2).1] at hr; cases hr
      · rw [(c1 c h1).1] at hr; cases hr
    · rintro ⟨h1, h2, h3⟩
      exact (c4 h1 h2 h3).1

/-- Witness of C9: the plan with a failing middle step runs the first two
commands and never the third. -/
theorem restartContainerd_runs_plan_witness :
    (restartContainerd restartFails sampleWorld).1 = some (.wrap "restarting containerd" (.errno 1))
    ∧ execsOf ((restartContainerd restartFails sampleWorld).2.since sampleWorld) = restartPlan.take 2 :=
  (restartContainerd_runs_plan restartFails sampleWorld).2.2.1 (by decide) 1 (by decide)

/-- C10, as stated, fails: two runs in which the first command fails with the
same exit status but prints different output return the same error value,
so no reading of the error value gives back the output of the failing
command. -/
theorem restart_error_omits_output :
    (stopOutcome (commandsFail [1]) sampleWorld).1 = [1]
    ∧ (stopOutcome (commandsFail [2]) sampleWorld).1 = [2]
    ∧ (restartContainerd (commandsFail [1]) sampleWorld).1 =
        some (.wrap "stopping rpc-statd.service" (.errno 1))
    ∧ (restartContainerd (commandsFail [2]) sampleWorld).1 =
        some (.wrap "stopping rpc-statd.service" (.errno 1))
    ∧ ¬ ∃ output : Error → Bytes, ∀ (env : Env) (s : World) (c : Nat) (e : Error),
        (stopOutcome env s).2 = some c → (restartContainerd env s).1 = some e →
        output e = (stopOutcome env s).1 := by
  refine ⟨by decide, by decide, by decide, by decide, ?_⟩
  rintro ⟨output, h⟩
  have h1 := h (commandsFail [1]) sampleWorld 1
    (.wrap "stopping rpc-statd.service" (.errno 1)) (by decide) (by decide)
  have h2 := h (commandsFail [2]) sampleWorld 1
    (.wrap "stopping rpc-statd.service" (.errno 1)) (by decide) (by decide)
  rw [h1] at h2
  revert h2
  decide

/-- C10, amended: when a step of restartContainerd fails, the error returned
wraps the underlying cause with a message of its step (three different
messages), and the combined output of the failing command is not part of
the error: it is the last thing the call emits, on standard output for the
first step and in the log for the other two. -/
theorem restart_error_names_step (env : Env) (s : World) :
    (∀ c, (stopOutcome env s).2 = some c →
        (restartContainerd env s).1 = some (.wrap "stopping rpc-statd.service" (.errno c))
        ∧ (restartContainerd env s).2.trace.getLast? = some (.stdoutBytes (stopOutcome env s).1))
    ∧ ((stopOutcome env s).2 = none → ∀ c, (restartOutcome env s).2 = some c →
        (restartContainerd env s).1 = some (.wrap "restarting containerd" (.errno c))
        ∧ (restartContainerd env s).2.trace.getLast? = some (.logBytes (restartOutcome env s).1))
    ∧ ((stopOutcome env s).2 = none → (restartOutcome env s).2 = none →
        ∀ c, (startOutcome env s).2 = some c →
        (restartContainerd env s).1 = some (.wrap "restarting rpc-statd.service" (.errno c))
        ∧ (restartContainerd env s).2.trace.getLast? = some (.logBytes (startOutcome env s).1))
    ∧ "stopping rpc-statd.service" ≠ "restarting containerd"
    ∧ "stopping rpc-statd.service" ≠ "restarting rpc-statd.service"
    ∧ "restarting containerd" ≠ "restarting rpc-statd.service" := by
  refine ⟨?_, ?_, ?_, by decide, by decide, by decide⟩
  · intro c h
    rw [restartContainerd_stop_failed env s c h]
    simp
  · intro h1 c h
    rw [restartContainerd_restart_failed env s c h1 h]
    simp
  · intro h1 h2 c h
    rw [restartContainerd_start_failed env s c h1 h2 h]
    simp

/-- Witness of amended C10: the first command fails after printing one byte. -/
theorem restart_error_names_step_witness :
    (restartContainerd (commandsFail [1]) sampleWorld).1 =
        some (.wrap "stopping rpc-statd.service" (.errno 1))
    ∧ (restartContainerd (commandsFail [1]) sampleWorld).2.trace.getLast? =
        some (.stdoutBytes (stopOutcome (commandsFail [1]) sampleWorld).1) :=
  (restart_error_names_step (commandsFail [1]) sampleWorld).1 1 (by decide)

/-- C11, as stated, fails: on the sample node there is no backup, so the
restore part of the signal path fails at its copy back; the handler then
exits with code 1 without having attempted a single command of the restart
plan. -/
theorem signal_path_skips_restart :
    (disableRemove calmEnv sampleWorld).1 = none
    ∧ (disableCopyBack calmEnv sampleWorld).1 = some (.errno ENOENT)
    ∧ execsOf ((signalHandler calmEnv sampleWorld).2.since sampleWorld) = []
    ∧ (signalHandler calmEnv sampleWorld).1 = 1 := by
  refine ⟨by decide, by decide, by decide, by decide⟩

/-- C11, amended: the signal path makes exactly one Restore attempt, first: it
starts with the log line and the removal of the active file, and no later
operation is such a removal.  When the restore part fails, no command is
attempted and the exit code is 1.  When it succeeds, the restart plan is
attempted exactly once, after every operation of the restore part: the
commands run are the first one, two or three of the plan. -/
theorem signal_path_attempts (env : Env) (s : World) :
    (∃ rest, (signalHandler env s).2.since s =
        .log "Disabling xspot..." :: .remove activePath :: rest
      ∧ ∀ ev ∈ rest, ev ≠ .remove activePath)
    ∧ (¬ ((disableRemove env s).1 = none ∧ (disableCopyBack env s).1 = none) →
        execsOf ((signalHandler env s).2.since s) = [] ∧ (signalHandler env s).1 = 1)
    ∧ ((disableRemove env s).1 = none → (disableCopyBack env s).1 = none →
        (∃ n, 1 ≤ n ∧ n ≤ 3 ∧ execsOf ((signalHandler env s).2.since s) = restartPlan.take n)
        ∧ ∃ tail, (signalHandler env s).2.since s = (disableCopyBack env s).2.since s ++ tail
            ∧ (∀ ev ∈ (disableCopyBack env s).2.since s, ev.isExec = false)
            ∧ ∀ ev ∈ tail, restartEv ev = true) := by
  obtain ⟨t, htr, htp, hcode⟩ := signalHandler_trace env s
  obtain ⟨esC, hC, hpC⟩ := disableCopyBack_trace env s
  have key : ∀ h : ¬ ((disableRemove env s).1 = none ∧ (disableCopyBack env s).1 = none),
      ∃ rest, (signalHandler env s).2.since s =
          .log "Disabling xspot..." :: .remove activePath :: rest
        ∧ (∀ ev ∈ rest, ev.isExec = false ∧ ev ≠ .remove activePath)
        ∧ (signalHandler env s).1 = 1 := by
    intro h
    obtain ⟨e, es, he, ht, hp⟩ := Disable_of_restore_failed env s h
    refine ⟨es ++ t, ?_, ?_, ?_⟩
    · apply since_of_trace
      rw [htr, ht]
      simp
    · intro ev hev
      rcases List.mem_append.mp hev with h | h
      · exact hp ev h
      · exact (htp ev h).2
    · rw [hcode, he]; simp
  have key2 : (disableRemove env s).1 = none → (disableCopyBack env s).1 = none →
      ∃ tail, (signalHandler env s).2.since s = (disableCopyBack env s).2.since s ++ tail
        ∧ (∀ ev ∈ tail, restartEv ev = true)
        ∧ execsOf tail = execsOf
            ((restartContainerd env (disableCopyBack env s).2).2.since (disableCopyBack env s).2) := by
    intro h1 h2
    obtain ⟨tl, ht, hp, hx, -⟩ := Disable_of_restored env s h1 h2
    refine ⟨tl ++ t, ?_, ?_, ?_⟩
    · rw [since_of_trace hC]
      apply since_of_trace
      rw [htr, ht, hC]
      simp
    · intro ev hev
      rcases List.mem_append.mp hev with h | h
      · exact hp ev h
      · exact (htp ev h).1
    · rw [execsOf_append, hx, execsOf_of_no_exec (fun e he => (htp e he).2.1)]
      simp
  have hCsince : ∀ ev ∈ (disableCopyBack env s).2.since s, ev.isExec = false ∧ ev ≠ .remove activePath →
      True := fun _ _ _ => trivial
  have hCexec : ∀ ev ∈ (disableCopyBack env s).2.since s, ev.isExec = false := by
    rw [since_of_trace hC]
    intro ev hev
    simp only [List.mem_cons] at hev
    rcases hev with h | h | h
    · subst h; rfl
    · subst h; rfl
    · exact (hpC ev h).1
  refine ⟨?_, ?_, ?_⟩
  · by_cases h : (disableRemove env s).1 = none ∧ (disableCopyBack env s).1 = none
    · obtain ⟨tl, ht, hp, -⟩ := key2 h.1 h.2
      refine ⟨esC ++ tl, ?_, ?_⟩
      · rw [ht, since_of_trace hC]
        simp
      · intro ev hev
        rcases List.mem_append.mp hev with h | h
        · exact (hpC ev h).2
        · exact restartEv_not_remove (hp ev h)
    · obtain ⟨rest, hr, hp, -⟩ := key h
      exact ⟨rest, hr, fun ev hev => (hp ev hev).2⟩
  · intro h
    obtain ⟨rest, hr, hp, hc⟩ := key h
    refine ⟨?_, hc⟩
    rw [hr]
    apply execsOf_of_no_exec
    intro ev hev
    simp only [List.mem_cons] at hev
    rcases hev with h | h | h
    · subst h; rfl
    · subst h; rfl
    · exact (hp ev h).1
  · intro h1 h2
    obtain ⟨tl, ht, hp, hx⟩ := key2 h1 h2
    refine ⟨?_, tl, ht, hCexec, hp⟩
    obtain ⟨n, hn1, hn3, hn⟩ := restart_execs env (disableCopyBack env s).2
    refine ⟨n, hn1, hn3, ?_⟩
    rw [ht, execsOf_append, execsOf_of_no_exec hCexec, hx, hn]
    simp

/-- Witness of amended C11: after Enable on the sample node the signal path
restores and then runs the whole plan. -/
theorem signal_path_attempts_witness :
    (∃ n, 1 ≤ n ∧ n ≤ 3 ∧
        execsOf ((signalHandler calmEnv (Enable calmEnv sampleConstants sampleWorld).2).2.since
          (Enable calmEnv sampleConstants sampleWorld).2) = restartPlan.take n)
    ∧ ∃ tail, (signalHandler calmEnv (Enable calmEnv sampleConstants sampleWorld).2).2.since
          (Enable calmEnv sampleConstants sampleWorld).2 =
        (disableCopyBack calmEnv (Enable calmEnv sampleConstants sampleWorld).2).2.since
          (Enable calmEnv sampleConstants sampleWorld).2 ++ tail
        ∧ (∀ ev ∈ (disableCopyBack calmEnv (Enable calmEnv sampleConstants sampleWorld).2).2.since
            (Enable calmEnv sampleConstants sampleWorld).2, ev.isExec = false)
        ∧ ∀ ev ∈ tail, restartEv ev = true :=
  (signal_path_attempts calmEnv (Enable calmEnv sampleConstants sampleWorld).2).2.2
    (by decide) (by decide)

/-- C12: the exit code of the signal handler is 0 exactly when Disable returns
no error and 1 exactly when it returns one; there is no other exit code. -/
theorem signalHandler_exit_code (env : Env) (s : World) :
    ((signalHandler env s).1 = 0 ↔ (Disable env s).1 = none)
    ∧ ((signalHandler env s).1 = 1 ↔ ∃ e, (Disable env s).1 = some e)
    ∧ ((signalHandler env s).1 = 0 ∨ (signalHandler env s).1 = 1) := by
  unfold signalHandler
  rcases h : Disable env s with ⟨r, s1⟩
  cases r <;> simp

/-- C13, as stated, fails: Enable succeeds on the sample node, Disable then
succeeds, and the backup file is still there with the original content. -/
theorem Disable_keeps_backup :
    (Enable calmEnv sampleConstants sampleWorld).1 = .running
    ∧ (Disable calmEnv (Enable calmEnv sampleConstants sampleWorld).2).1 = none
    ∧ (Disable calmEnv (Enable calmEnv sampleConstants sampleWorld).2).2.fs backupPath =
        some (.file [1, 2, 3] 0o600) := by
  refine ⟨by decide, by decide, by decide⟩

/-- C13, amended: in any world with the file tree a successful Enable left,
after Disable, whatever it returns, the backup file is still present and holds
the active configuration file of before Enable, and Disable attempted no
operation that removes, creates, writes or re-modes the backup path; when
Disable succeeds the active path holds that same file again. Disable never
removes the backup: from any node state and whatever it returns, it leaves the
backup path holding what it held and attempts no such operation on it. -/
theorem Disable_after_Enable (env env' : Env) (k : Constants) (s s1 : World)
    (hE : (Enable env k s).1 = .running) (hfs : s1.fs = (Enable env k s).2.fs) :
    (∃ c m, s.fs activePath = some (.file c m)
      ∧ (Disable env' s1).2.fs backupPath = some (.file c m)
      ∧ (∀ ev ∈ (Disable env' s1).2.since s1, ev.mutates backupPath = false)
      ∧ ((Disable env' s1).1 = none →
          (Disable env' s1).2.fs backupPath = some (.file c m)
          ∧ (Disable env' s1).2.fs activePath = some (.file c m)))
    ∧ (∀ (env2 : Env) (s2 : World),
        (Disable env2 s2).2.fs backupPath = s2.fs backupPath
        ∧ (∀ ev ∈ (Disable env2 s2).2.since s2, ev.mutates backupPath = false)
        ∧ (∀ ev ∈ (Disable env2 s2).2.since s2, ev ≠ .remove backupPath)) := by
  have keep : ∀ (env2 : Env) (s2 : World),
      (Disable env2 s2).2.fs backupPath = s2.fs backupPath :=
    fun env2 s2 => (Disable_spares_backup env2 s2).fs (fun h => activePath_ne_backupPath h.symm)
  obtain ⟨-, -, hC, -, hfsE⟩ := Enable_running env k s hE
  obtain ⟨c, m, a, ma, m', hact, hbak, -, -⟩ := copyConfigFiles_ok (result_eq hC)
  have w := provision_fetch_within env s
  have hb1 : s1.fs backupPath = some (.file c m) := by rw [hfs, hfsE]; exact hbak
  have hb2 : (Disable env' s1).2.fs backupPath = some (.file c m) := by rw [keep]; exact hb1
  refine ⟨⟨c, m, ?_, hb2, (Disable_spares_backup env' s1).since, ?_⟩, ?_⟩
  · rw [← w.fs activePath_outside]; exact hact
  · intro hD
    obtain ⟨hR, hCB⟩ := Disable_ok_restored env' s1 hD
    refine ⟨hb2, ?_⟩
    rw [Disable_fs_of_restored env' s1 hR hCB]
    exact restore_puts_backup env' s1 c m hb1 hR hCB
  · intro env2 s2
    refine ⟨keep env2 s2, (Disable_spares_backup env2 s2).since, ?_⟩
    intro ev hev heq
    have := (Disable_spares_backup env2 s2).since ev hev
    rw [heq] at this
    revert this
    decide

/-- Witness of amended C13: Enable, then Disable, on the sample node; Disable
succeeds there, and the backup and the active path both hold the original
file. -/
theorem Disable_after_Enable_witness :
    (Enable calmEnv sampleConstants sampleWorld).1 = .running
    ∧ (Disable calmEnv (Enable calmEnv sampleConstants sampleWorld).2).1 = none
    ∧ ∃ c m, sampleWorld.fs activePath = some (.file c m)
      ∧ (Disable calmEnv (Enable calmEnv sampleConstants sampleWorld).2).2.fs backupPath
          = some (.file c m)
      ∧ (∀ ev ∈ (Disable calmEnv (Enable calmEnv sampleConstants sampleWorld).2).2.since
            (Enable calmEnv sampleConstants sampleWorld).2, ev.mutates backupPath = false)
      ∧ (Disable calmEnv (Enable calmEnv sampleConstants sampleWorld).2).2.fs activePath
          = some (.file c m) := by
  refine ⟨by decide, by decide, ?_⟩
  obtain ⟨⟨c, m, h1, h2, h3, h4⟩, -⟩ :=
    Disable_after_Enable calmEnv calmEnv sampleConstants sampleWorld
      (Enable calmEnv sampleConstants sampleWorld).2 (by decide) rfl
  exact ⟨c, m, h1, h2, h3, (h4 (by decide)).2⟩

/-- C14: whenever downloadFileToDest returns nil, for any URL, destination and
prior node state, the transport answered the request with a response, the
destination holds a regular file whose content is exactly the body of that
response and whose permission bits are 0777, and the operations attempted
were the request, the stat, the removal of what was at the destination,
the creation, the write of the whole body and the chmod, in that order; the
removal is missing only when nothing was at the destination or the stat
itself failed, in which case the creation truncated whatever was there. -/
theorem downloadFileToDest_installs (env : Env) (url : String) (dest : Path) (s : World)
    (h : (downloadFileToDest env url dest s).1 = none) :
    ∃ resp, env.http s.tick url = .ok resp
      ∧ (downloadFileToDest env url dest s).2.fs dest = some (.file resp.body 0o777)
      ∧ ((downloadFileToDest env url dest s).2.since s =
            [.httpGet url "minikube", .stat dest, .remove dest, .create dest,
              .write dest resp.body, .chmod dest 0o777]
          ∨ ((s.node dest = none ∨ env.fault (s.tick + 1) ≠ none)
            ∧ (downloadFileToDest env url dest s).2.since s =
                [.httpGet url "minikube", .stat dest, .create dest,
                  .write dest resp.body, .chmod dest 0o777])) := by
  obtain ⟨resp, hresp, hfile, hops⟩ := downloadFileToDest_ok (result_eq h)
  exact ⟨resp, hresp, hfile, hops⟩

/-- Witness of C14: fetching again over the binary that Enable installed. -/
theorem downloadFileToDest_installs_witness :
    ∃ resp, calmEnv.http (Enable calmEnv sampleConstants sampleWorld).2.tick xspotURL = .ok resp
      ∧ (downloadFileToDest calmEnv xspotURL runxcDest
          (Enable calmEnv sampleConstants sampleWorld).2).2.fs runxcDest
          = some (.file resp.body 0o777)
      ∧ ((downloadFileToDest calmEnv xspotURL runxcDest
            (Enable calmEnv sampleConstants sampleWorld).2).2.since
            (Enable calmEnv sampleConstants sampleWorld).2 =
            [.httpGet xspotURL "minikube", .stat runxcDest, .remove runxcDest, .create runxcDest,
              .write runxcDest resp.body, .chmod runxcDest 0o777]
          ∨ (((Enable calmEnv sampleConstants sampleWorld).2.node runxcDest = none
              ∨ calmEnv.fault ((Enable calmEnv sampleConstants sampleWorld).2.tick + 1) ≠ none)
            ∧ (downloadFileToDest calmEnv xspotURL runxcDest
                (Enable calmEnv sampleConstants sampleWorld).2).2.since
                (Enable calmEnv sampleConstants sampleWorld).2 =
                [.httpGet xspotURL "minikube", .stat runxcDest, .create runxcDest,
                  .write runxcDest resp.body, .chmod runxcDest 0o777])) :=
  downloadFileToDest_installs calmEnv xspotURL runxcDest
    (Enable calmEnv sampleConstants sampleWorld).2 (by decide)

/-- C15: for well-formed maps that exist when it is called (each `nil` or a
reference handed out earlier, possibly the same one twice), mergeMaps returns
a fresh map: a reference that was not handed out before, hence different from
both arguments and from every other map in existence. Every map that existed
before, in particular both inputs, holds afterwards exactly what it held. The
map returned is well formed, every key of overrideMap has its overrideMap
value in it and every other key has what sourceMap has for it, so its keys
are those of either map. -/
theorem mergeMaps_union (h : MapHeap) (sourceMap overrideMap : MapRef)
    (hsa : h.allocated sourceMap) (hoa : h.allocated overrideMap)
    (hs : (h.read sourceMap).WF) (ho : (h.read overrideMap).WF) :
    (h.mergeMaps sourceMap overrideMap).1 = some h.next
    ∧ ¬ h.allocated (h.mergeMaps sourceMap overrideMap).1
    ∧ (h.mergeMaps sourceMap overrideMap).2.allocated (h.mergeMaps sourceMap overrideMap).1
    ∧ (h.mergeMaps sourceMap overrideMap).1 ≠ sourceMap
    ∧ (h.mergeMaps sourceMap overrideMap).1 ≠ overrideMap
    ∧ (∀ m : MapRef, h.allocated m →
        (h.mergeMaps sourceMap overrideMap).2.allocated m
        ∧ (h.mergeMaps sourceMap overrideMap).2.read m = h.read m)
    ∧ (h.mergeMaps sourceMap overrideMap).2.read sourceMap = h.read sourceMap
    ∧ (h.mergeMaps sourceMap overrideMap).2.read overrideMap = h.read overrideMap
    ∧ (∀ x, x ≠ h.next → (h.mergeMaps sourceMap overrideMap).2.maps x = h.maps x)
    ∧ (h.mergeMaps sourceMap overrideMap).2.read (h.mergeMaps sourceMap overrideMap).1
        = mergeMaps (h.read sourceMap) (h.read overrideMap)
    ∧ (∀ k, ((h.mergeMaps sourceMap overrideMap).2.read (h.mergeMaps sourceMap overrideMap).1).get k =
        match (h.read overrideMap).get k with
        | some v => some v
        | none => (h.read sourceMap).get k)
    ∧ (∀ k, k ∈ ((h.mergeMaps sourceMap overrideMap).2.read
          (h.mergeMaps sourceMap overrideMap).1).keys ↔
        k ∈ (h.read sourceMap).keys ∨ k ∈ (h.read overrideMap).keys)
    ∧ ((h.mergeMaps sourceMap overrideMap).2.read (h.mergeMaps sourceMap overrideMap).1).WF := by
  have keep : ∀ m : MapRef, h.allocated m →
      (h.mergeMaps sourceMap overrideMap).2.allocated m
      ∧ (h.mergeMaps sourceMap overrideMap).2.read m = h.read m := by
    intro m hm
    rw [MapHeap.mergeMaps_eq h sourceMap overrideMap hsa hoa]
    cases m with
    | none => exact ⟨trivial, rfl⟩
    | some r =>
      have hlt : r < h.next := hm
      have hne : r ≠ h.next := Nat.ne_of_lt hlt
      exact ⟨Nat.lt_succ_of_lt hlt, by simp [MapHeap.read, hne]⟩
  have fresh : ¬ h.allocated (some h.next) := fun hlt => Nat.lt_irrefl _ hlt
  have hres : (h.mergeMaps sourceMap overrideMap).2.read (h.mergeMaps sourceMap overrideMap).1
      = mergeMaps (h.read sourceMap) (h.read overrideMap) := by
    rw [MapHeap.mergeMaps_eq h sourceMap overrideMap hsa hoa]
    simp [MapHeap.read]
  have h1 : (h.mergeMaps sourceMap overrideMap).1 = some h.next := by
    rw [MapHeap.mergeMaps_eq h sourceMap overrideMap hsa hoa]
  refine ⟨h1, ?_, ?_, ?_, ?_, keep, (keep _ hsa).2, (keep _ hoa).2, ?_, hres, ?_, ?_, ?_⟩
  · rw [h1]; exact fresh
  · rw [MapHeap.mergeMaps_eq h sourceMap overrideMap hsa hoa]
    exact Nat.lt_succ_self _
  · rw [h1]; intro he; rw [← he] at hsa; exact fresh hsa
  · rw [h1]; intro he; rw [← he] at hoa; exact fresh hoa
  · intro x hx
    rw [MapHeap.mergeMaps_eq h sourceMap overrideMap hsa hoa]
    simp [hx]
  · rw [hres]; exact mergeMaps_get _ _ hs ho
  · intro k
    rw [hres, GoMap.mem_keys, GoMap.mem_keys, GoMap.mem_keys, mergeMaps_get _ _ hs ho]
    cases (h.read overrideMap).get k <;> simp
  · rw [hres]; exact mergeMaps_wf _ _

/-- Witness of C15: merging the two maps of the sample heap, which share the
key `b`. -/
theorem mergeMaps_union_witness :
    (sampleHeap.mergeMaps (some 0) (some 1)).1 = some 2
    ∧ (sampleHeap.mergeMaps (some 0) (some 1)).2.read (some 0) = [("a", "1"), ("b", "2")]
    ∧ (sampleHeap.mergeMaps (some 0) (some 1)).2.read (some 1) = [("b", "3"), ("c", "4")]
    ∧ (∀ k, ((sampleHeap.mergeMaps (some 0) (some 1)).2.read
          (sampleHeap.mergeMaps (some 0) (some 1)).1).get k =
        match (sampleHeap.read (some 1)).get k with
        | some v => some v
        | none => (sampleHeap.read (some 0)).get k)
    ∧ ((sampleHeap.mergeMaps (some 0) (some 1)).2.read (some 2)).get "a" = some "1"
    ∧ ((sampleHeap.mergeMaps (some 0) (some 1)).2.read (some 2)).get "b" = some "3"
    ∧ ((sampleHeap.mergeMaps (some 0) (some 1)).2.read (some 2)).get "c" = some "4" := by
  have hm := mergeMaps_union sampleHeap (some 0) (some 1)
    (by unfold MapHeap.allocated sampleHeap; decide) (by unfold MapHeap.allocated sampleHeap; decide)
    (by unfold GoMap.WF GoMap.keys; decide) (by unfold GoMap.WF GoMap.keys; decide)
  exact ⟨hm.1, hm.2.2.2.2.2.2.1, hm.2.2.2.2.2.2.2.1, hm.2.2.2.2.2.2.2.2.2.2.1,
    by decide, by decide, by decide⟩

/-- C16: filterKeySpace returns a map that has, at every key of keySpace, what
targetMap has there, and nothing at any other key; its keys are the keys
common to both maps, and the values of keySpace play no part. -/
theorem filterKeySpace_intersection (keySpace targetMap : GoMap String) :
    (∀ k, (filterKeySpace keySpace targetMap).get k =
        if k ∈ keySpace.keys then targetMap.get k else none)
    ∧ (∀ k, k ∈ (filterKeySpace keySpace targetMap).keys ↔ k ∈ keySpace.keys ∧ k ∈ targetMap.keys)
    ∧ (∀ keySpace' : GoMap String, (∀ k, k ∈ keySpace'.keys ↔ k ∈ keySpace.keys) →
        ∀ k, (filterKeySpace keySpace' targetMap).get k = (filterKeySpace keySpace targetMap).get k)
    ∧ (filterKeySpace keySpace targetMap).WF := by
  refine ⟨filterKeySpace_get keySpace targetMap, ?_, ?_, filterKeySpace_wf keySpace targetMap⟩
  · intro k
    rw [GoMap.mem_keys, filterKeySpace_get, GoMap.mem_keys targetMap]
    by_cases hk : k ∈ keySpace.keys <;> simp [hk]
  · intro ks' hks k
    rw [filterKeySpace_get, filterKeySpace_get]
    by_cases hk : k ∈ keySpace.keys
    · simp [hk, (hks k).mpr hk]
    · have hk' : k ∉ ks'.keys := fun h => hk ((hks k).mp h)
      simp [hk, hk']

/-- C17: for a well-formed defaultMap, overrideDefaults returns a map with
exactly the keys of defaultMap, where a key that overrideMap also has takes
the value of overrideMap and every other key keeps the value of defaultMap;
a key that only overrideMap has does not appear. -/
theorem overrideDefaults_keys (defaultMap overrideMap : GoMap String) (hd : defaultMap.WF) :
    (∀ k, (overrideDefaults defaultMap overrideMap).get k =
        match defaultMap.get k with
        | none => none
        | some dv => some ((overrideMap.get k).getD dv))
    ∧ (∀ k, k ∈ (overrideDefaults defaultMap overrideMap).keys ↔ k ∈ defaultMap.keys)
    ∧ (∀ k, k ∉ defaultMap.keys → (overrideDefaults defaultMap overrideMap).get k = none) := by
  have hget : ∀ k, (overrideDefaults defaultMap overrideMap).get k =
      match defaultMap.get k with
      | none => none
      | some dv => some ((overrideMap.get k).getD dv) := by
    intro k
    unfold overrideDefaults
    rw [mergeMaps_get _ _ hd (filterKeySpace_wf _ _), filterKeySpace_get]
    by_cases hk : k ∈ defaultMap.keys
    · obtain ⟨dv, hdv⟩ := (GoMap.mem_keys defaultMap k).mp hk
      simp only [hk, if_true, hdv]
      cases overrideMap.get k <;> simp
    · have hnone := (GoMap.get_eq_none defaultMap k).mpr hk
      simp [hk, hnone]
  refine ⟨hget, ?_, ?_⟩
  · intro k
    rw [GoMap.mem_keys, GoMap.mem_keys, hget]
    cases defaultMap.get k <;> simp
  · intro k hk
    rw [hget, (GoMap.get_eq_none defaultMap k).mpr hk]

/-- Witness of C17: the override has a key the defaults lack. -/
theorem overrideDefaults_keys_witness :
    (∀ k, (overrideDefaults [("a", "1"), ("b", "2")] [("b", "3"), ("c", "4")]).get k =
        match GoMap.get [("a", "1"), ("b", "2")] k with
        | none => none
        | some dv => some ((GoMap.get [("b", "3"), ("c", "4")] k).getD dv))
    ∧ (∀ k, k ∈ (overrideDefaults [("a", "1"), ("b", "2")] [("b", "3"), ("c", "4")]).keys ↔
        k ∈ GoMap.keys [("a", "1"), ("b", "2")])
    ∧ (∀ k, k ∉ GoMap.keys [("a", "1"), ("b", "2")] →
        (overrideDefaults [("a", "1"), ("b", "2")] [("b", "3"), ("c", "4")]).get k = none) :=
  overrideDefaults_keys [("a", "1"), ("b", "2")] [("b", "3"), ("c", "4")]
    (by unfold GoMap.WF GoMap.keys; decide)

/-- C19: IsEnabled returns the status that the cluster configuration records
under the name of the addon whenever there is such an entry, whatever the
default, and the default flag of the addon when there is none; the xspot
addon is named `xspot` and its default is false. -/
theorem IsEnabled_status (a : Addon) (cc : ClusterConfig) (k : Constants) :
    (∀ status, cc.Addons.get a.Name = some status → a.IsEnabled cc = status)
    ∧ (cc.Addons.get a.Name = none → a.IsEnabled cc = a.enabled)
    ∧ (AddonsXSpot k).Name = "xspot"
    ∧ (AddonsXSpot k).enabled = false
    ∧ (cc.Addons.get "xspot" = none → (AddonsXSpot k).IsEnabled cc = false)
    ∧ (∀ status, cc.Addons.get "xspot" = some status → (AddonsXSpot k).IsEnabled cc = status) := by
  refine ⟨?_, ?_, rfl, rfl, ?_, ?_⟩
  · intro status h
    simp [Addon.IsEnabled, h]
  · intro h
    simp [Addon.IsEnabled, h]
  · intro h
    have hn : (AddonsXSpot k).Name = "xspot" := rfl
    unfold Addon.IsEnabled
    rw [hn, h]
    rfl
  · intro status h
    have hn : (AddonsXSpot k).Name = "xspot" := rfl
    unfold Addon.IsEnabled
    rw [hn, h]

/-- Witness of C19: a cluster configuration that enables xspot against its
default, and one that does not mention it. -/
theorem IsEnabled_status_witness :
    (AddonsXSpot sampleConstants).IsEnabled
        { Addons := [("xspot", true)], CustomAddonImages := [], CustomAddonRegistries := [] } = true
    ∧ (AddonsXSpot sampleConstants).IsEnabled
        { Addons := [("gvisor", true)], CustomAddonImages := [], CustomAddonRegistries := [] } = false :=
  ⟨(IsEnabled_status (AddonsXSpot sampleConstants)
      { Addons := [("xspot", true)], CustomAddonImages := [], CustomAddonRegistries := [] }
      sampleConstants).2.2.2.2.2 true (by decide),
    (IsEnabled_status (AddonsXSpot sampleConstants)
      { Addons := [("gvisor", true)], CustomAddonImages := [], CustomAddonRegistries := [] }
      sampleConstants).2.2.2.2.1 (by decide)⟩

/-- C18: parseMapString gives the empty map for the empty string, and for any
other string it is the decoding of `<key1>=<value1>,<key2>=<value2>,...`:
the pieces between commas are gone through in order, a piece with exactly
one `=` binds the text before it to the text after it (a later binding of
the same key replaces the earlier one), and a piece with no or several `=`
binds nothing.  So for pairs with distinct keys, none of whose keys and
values contains `,` or `=`, parsing their encoding gives a map that has
exactly those pairs. -/
theorem parseMapString_decodes :
    parseMapString "" = []
    ∧ (∀ str, str ≠ "" → parseMapString str = decodePieces str)
    ∧ (∀ pairs : GoMap String, pairs.WF →
        (∀ e ∈ pairs, ',' ∉ e.1.data ∧ '=' ∉ e.1.data ∧ ',' ∉ e.2.data ∧ '=' ∉ e.2.data) →
        (∀ k, (parseMapString (encodePairs pairs)).get k = pairs.get k)
        ∧ (parseMapString (encodePairs pairs)).WF) := by
  refine ⟨rfl, parseMapString_eq_decode, ?_⟩
  intro pairs hwf hclean
  rw [parse_encodePairs pairs hclean]
  refine ⟨fun k => ?_, foldl_set_wf pairs [] GoMap.wf_nil⟩
  rw [foldl_set_get pairs hwf [] k]
  cases pairs.get k <;> simp [GoMap.get]

/-- Witness of C18: a string with a repeated key, a piece without `=` and a
piece with two; and the round trip of two pairs. -/
theorem parseMapString_decodes_witness :
    parseMapString "a=1,b=2,a=3,c,d=e=f" = [("a", "3"), ("b", "2")]
    ∧ encodePairs [("a", "1"), ("b", "2")] = "a=1,b=2"
    ∧ (∀ k, (parseMapString (encodePairs [("a", "1"), ("b", "2")])).get k =
        GoMap.get [("a", "1"), ("b", "2")] k) :=
  ⟨by decide, by decide,
    (parseMapString_decodes.2.2 [("a", "1"), ("b", "2")]
      (by unfold GoMap.WF GoMap.keys; decide) (by decide)).1⟩

/-- C20: when the Kubernetes version parses, GenerateTemplateData returns
template data in which Images is the map given, every key of Images is a key
of Registries (a name the addon's registries lack gets the empty string),
every value of Registries and of CustomRegistries that is not empty ends in
`/`, an ImageRepository that is not empty ends in `/`, and a registry or
repository that already ended in `/` is the one given. -/
theorem GenerateTemplateData_registries (goarch : String)
    (ParseKubernetesVersion : String → Except Error SemVer) (addon : Addon)
    (cfg : KubernetesConfig) (netInfo : NetworkInfo) (images customRegistries : GoMap String)
    (enable : Bool) (v : SemVer)
    (hv : ParseKubernetesVersion cfg.KubernetesVersion = .ok v)
    (hr : GoMap.WF addon.Registries) (hc : customRegistries.WF) :
    ∃ opts, GenerateTemplateData goarch ParseKubernetesVersion addon cfg netInfo images
        customRegistries enable = .ok opts
      ∧ opts.Images = images
      ∧ (∀ k, k ∈ opts.Images.keys → k ∈ opts.Registries.keys)
      ∧ (∀ k, k ∈ images.keys → k ∉ GoMap.keys addon.Registries → opts.Registries.get k = some "")
      ∧ (∀ k w, opts.Registries.get k = some w → w ≠ "" → HasSuffix w "/" = true)
      ∧ (∀ k w, opts.CustomRegistries.get k = some w → w ≠ "" → HasSuffix w "/" = true)
      ∧ (opts.ImageRepository ≠ "" → HasSuffix opts.ImageRepository "/" = true)
      ∧ (∀ k w, GoMap.get addon.Registries k = some w → HasSuffix w "/" = true →
          opts.Registries.get k = some w)
      ∧ (∀ k w, customRegistries.get k = some w → HasSuffix w "/" = true →
          opts.CustomRegistries.get k = some w)
      ∧ (HasSuffix cfg.ImageRepository "/" = true → opts.ImageRepository = cfg.ImageRepository) := by
  have hreg : ∀ k, (fillRegistries images (appendSlashes addon.Registries)).get k =
      match (GoMap.get addon.Registries k).map slashed with
      | some w => some w
      | none => if k ∈ images.keys then some "" else none := by
    intro k
    rw [fillRegistries_get, appendSlashes_get _ hr]
  simp only [GenerateTemplateData, hv]
  refine ⟨_, rfl, rfl, ?_, ?_, ?_, ?_, ?_, ?_, ?_, ?_⟩
  all_goals dsimp only
  · intro k hk
    rw [GoMap.mem_keys]
    simp only [hreg]
    cases (GoMap.get addon.Registries k).map slashed with
    | some w => exact ⟨w, rfl⟩
    | none => exact ⟨"", by simp [hk]⟩
  · intro k hk hnot
    simp only [hreg, (GoMap.get_eq_none addon.Registries k).mpr hnot, Option.map_none', hk, if_true]
  · intro k w hw hne
    simp only [hreg] at hw
    cases hg : GoMap.get addon.Registries k with
    | some u =>
      rw [hg] at hw
      simp only [Option.map_some', Option.some.injEq] at hw
      subst hw
      exact slashed_ends u hne
    | none =>
      rw [hg] at hw
      simp only [Option.map_none'] at hw
      split at hw
      · simp only [Option.some.injEq] at hw; exact absurd hw.symm hne
      · cases hw
  · intro k w hw hne
    simp only [appendSlashes_get _ hc] at hw
    cases hg : customRegistries.get k with
    | some u =>
      rw [hg] at hw
      simp only [Option.map_some', Option.some.injEq] at hw
      subst hw
      exact slashed_ends u hne
    | none => rw [hg] at hw; cases hw
  · intro hne
    exact slashed_ends cfg.ImageRepository hne
  · intro k w hw hs
    simp only [hreg, hw, Option.map_some', slashed_of_ends w hs]
  · intro k w hw hs
    simp only [appendSlashes_get _ hc, hw, Option.map_some', slashed_of_ends w hs]
  · intro hs
    exact slashed_of_ends cfg.ImageRepository hs

/-- Witness of C20: the xspot addon with a version that parses. -/
theorem GenerateTemplateData_registries_witness :
    ∃ opts, GenerateTemplateData "amd64" (fun _ => .ok ⟨1, 22, 3, []⟩) (AddonsXSpot sampleConstants)
        ⟨"v1.22.3", "registry.local", "", "", "", "", "containerd"⟩ ⟨"192.168.49.2", 8443⟩
        [("XSpotAddon", "xspot-addon:latest"), ("Extra", "extra:1")] [("XSpotAddon", "mirror.local")]
        true = .ok opts
      ∧ opts.Registries.get "XSpotAddon" = some "docker.io/"
      ∧ opts.Registries.get "Extra" = some ""
      ∧ opts.CustomRegistries.get "XSpotAddon" = some "mirror.local/"
      ∧ opts.ImageRepository = "registry.local/" := by
  obtain ⟨opts, h, -⟩ := GenerateTemplateData_registries "amd64" (fun _ => .ok ⟨1, 22, 3, []⟩)
    (AddonsXSpot sampleConstants)
    ⟨"v1.22.3", "registry.local", "", "", "", "", "containerd"⟩ ⟨"192.168.49.2", 8443⟩
    [("XSpotAddon", "xspot-addon:latest"), ("Extra", "extra:1")] [("XSpotAddon", "mirror.local")]
    true ⟨1, 22, 3, []⟩ rfl (by unfold GoMap.WF GoMap.keys; decide)
    (by unfold GoMap.WF GoMap.keys; decide)
  refine ⟨opts, h, ?_⟩
  simp only [GenerateTemplateData, Except.ok.injEq] at h
  subst h
  decide

/-- C21: downloadFileToDest fails before touching the file system only when the
request cannot be created (the error of `http.NewRequest` is returned wrapped
and nothing is attempted) or when the transport returns an error (returned as
it is, after the request); once the transport has answered, any error is that
of the removal, the creation, the copy or the chmod.  The status of the
response is never looked at: replacing it by any other status leaves the
result and the world unchanged; and when no operation fails, the parent of
the destination is a directory and the destination is not a directory that
still has entries, the body of the response is installed at the destination
with mode 0777 whatever the status, 404 included. -/
theorem downloadFileToDest_ignores_status (env : Env) (url : String) (dest : Path) (s : World) :
    (∀ c, env.requestErr url = some c →
      downloadFileToDest env url dest s =
        (some (.wrap ("creating request for " ++ url) (.errno c)), s))
    ∧ (env.requestErr url = none → ∀ c, env.http s.tick url = .error c →
        downloadFileToDest env url dest s = (some (.errno c), s.emit (.httpGet url "minikube")))
    ∧ (env.requestErr url = none → ∀ resp, env.http s.tick url = .ok resp →
        ∀ e, (downloadFileToDest env url dest s).1 = some e →
          ∃ inner, e = .wrap ("removing " ++ pathStr dest ++ " for overwrite") inner
            ∨ e = .wrap ("creating " ++ pathStr dest) inner
            ∨ e = .wrap "copying binary" inner
            ∨ e = .wrap "fixing perms" inner)
    ∧ (∀ status, downloadFileToDest (env.withStatus status) url dest s =
        downloadFileToDest env url dest s)
    ∧ (env.requestErr url = none → ∀ resp, env.http s.tick url = .ok resp →
        (∀ n, env.fault n = none) → dest ≠ [] → s.isDir dest.dropLast = true →
        (∀ m, s.node dest = some (.dir m) → s.occupied dest = false) →
        (downloadFileToDest env url dest s).1 = none
        ∧ (downloadFileToDest env url dest s).2.fs dest = some (.file resp.body 0o777)) := by
  refine ⟨?_, ?_, ?_, fun status => downloadFileToDest_withStatus env status url dest s, ?_⟩
  · intro c hu
    unfold downloadFileToDest
    rw [hu]
  · intro hu c hc
    unfold downloadFileToDest httpDo
    simp [hu, hc]
  · intro hu resp hresp e he
    unfold downloadFileToDest httpDo at he
    simp only [hu, hresp] at he
    split at he
    · simp only [Option.some.injEq] at he
      exact ⟨_, Or.inl he.symm⟩
    · split at he
      · simp only [Option.some.injEq] at he
        exact ⟨_, Or.inr (Or.inl he.symm)⟩
      · split at he
        · simp only [Option.some.injEq] at he
          exact ⟨_, Or.inr (Or.inr (Or.inl he.symm))⟩
        · split at he
          · simp only [Option.some.injEq] at he
            exact ⟨_, Or.inr (Or.inr (Or.inr he.symm))⟩
          · cases he
  · intro hu resp hresp hf hd hp hfree
    exact downloadFileToDest_calm env url dest s resp hu hresp hf hd hp hfree

/-- Witness of C21: the transport answers 404 with a body, and that body is
installed as the runxc binary, executable. -/
theorem downloadFileToDest_ignores_status_witness :
    notFoundEnv.http sampleWorld.tick xspotURL = .ok { status := 404, body := [52, 48, 52] }
    ∧ (downloadFileToDest notFoundEnv xspotURL runxcDest sampleWorld).1 = none
    ∧ (downloadFileToDest notFoundEnv xspotURL runxcDest sampleWorld).2.fs runxcDest =
        some (.file [52, 48, 52] 0o777) :=
  ⟨rfl, (downloadFileToDest_ignores_status notFoundEnv xspotURL runxcDest sampleWorld).2.2.2.2
    rfl { status := 404, body := [52, 48, 52] } rfl (fun _ => rfl) (by decide) (by decide)
    (fun _ _ => by decide)⟩

end XSpot
